import Mathlib

/-!
# gin-center: the JWT token authority, the auth middleware, the validators, the breaker

A shallow embedding of `pkg/security/useJwt/useJwt.go`, `pkg/security/types/jwt_types.go`
and `pkg/security/errors/jwt_errors.go`, together with the part of
`github.com/golang-jwt/jwt/v4` (v4.5.x) that `ParseToken` and `GenerateTokenWithClaims`
run through (`Parser.ParseUnverified`, `Parser.ParseWithClaims`, `Token.SignedString`,
`SigningMethodHMAC.Sign/Verify`, `ValidationError.Is`); of `JWTAuth` in
`web/middleware/auth/auth_middleware.go` with `pkg/http/headers/headers.go`; of
`pkg/utils/validator/admin_validator.go`; and of `pkg/circuitbreaker/circuit_breaker.go`.

* `time.Time` is an instant, an `Int`; `Before` is `<`.
* a nil-able pointer is an `Option`; a Go `(value, error)` result is a pair of `Option`s.
* a nil pointer dereference is the `Outcome.panicked` result.
* `sync.Map` is an association list with distinct keys, used sequentially.
* base64url, `encoding/json` and `crypto/hmac` are the fields of `Primitives`; nothing is
  assumed about them except where a theorem says so in a hypothesis.
* the tables of Go `unicode` are the fields of `Unicode`; a string is a list of runes, and
  `len` is its number of UTF-8 bytes.
* an `atomic.Int32` is an `Int` that wraps around at 2^31; the breaker is used sequentially,
  and a command does not call the breaker it runs under.
-/

namespace GinCenter

/-! ## `time` -/

/-- An instant of `time.Time`. -/
abbrev Instant := Int

/-- Go `t.Before(u)`. -/
def Instant.Before (t u : Instant) : Bool := decide (t < u)

/-- A `time.Duration`. -/
abbrev Duration := Int

/-! ## `infrastructure/errors`: the auth error codes -/

abbrev AuthErrorCode := Int

def ErrCodeTokenEmpty : AuthErrorCode := 4001
def ErrCodeTokenInvalid : AuthErrorCode := 4002
def ErrCodePermissionDenied : AuthErrorCode := 4003
def ErrCodeTokenExpired : AuthErrorCode := 4004
def ErrCodeTokenRevoked : AuthErrorCode := 4005

/-! ## `pkg/security/errors` -/

structure JWTError where
  Code : AuthErrorCode
  Message : String
  deriving DecidableEq, Repr

/-- The map literal of `NewJWTError`; a key that is not in it reads as the empty string. -/
def errMap (code : AuthErrorCode) : String :=
  if code = ErrCodeTokenEmpty then "认证令牌不能为空"
  else if code = ErrCodeTokenInvalid then "无效的认证令牌"
  else if code = ErrCodePermissionDenied then "权限不足"
  else if code = ErrCodeTokenExpired then "令牌已过期"
  else if code = ErrCodeTokenRevoked then "令牌已被撤销"
  else ""

def NewJWTError (code : AuthErrorCode) : JWTError :=
  { Code := code, Message := errMap code }

def ErrInvalidToken : JWTError := NewJWTError ErrCodeTokenInvalid
def ErrExpiredToken : JWTError := NewJWTError ErrCodeTokenExpired
def ErrRevokedToken : JWTError := NewJWTError ErrCodeTokenRevoked
def ErrEmptyToken : JWTError := NewJWTError ErrCodeTokenEmpty

/-! ## `pkg/security/types` -/

/-- The plain `error` values that can become the `Inner` of a `jwt.ValidationError`. -/
inductive Cause where
  /-- an error of `DecodeSegment` (base64url) -/
  | base64 (msg : String)
  /-- an error of `encoding/json` -/
  | json (msg : String)
  /-- the key function's `fmt.Errorf("unexpected signing method: %v", alg)` -/
  | unexpectedSigningMethod (alg : String)
  /-- the library's `jwt.ErrSignatureInvalid` -/
  | signatureInvalid
  /-- the `errors.New("token is expired")` made by `TimeStamp.Valid` -/
  | tokenIsExpired
  /-- the library's sentinel `jwt.ErrTokenExpired` -/
  | jwtErrTokenExpired
  /-- the library's `jwt.ErrInvalidKeyType` -/
  | invalidKeyType
  deriving DecidableEq, Repr

def Cause.Error : Cause → String
  | .base64 msg => msg
  | .json msg => msg
  | .unexpectedSigningMethod alg => "unexpected signing method: " ++ alg
  | .signatureInvalid => "signature is invalid"
  | .tokenIsExpired => "token is expired"
  | .jwtErrTokenExpired => "token is expired"
  | .invalidKeyType => "key is of invalid type"

structure TimeStamp where
  Time : Instant
  deriving DecidableEq, Repr

/-- `(*TimeStamp).Valid` at clock value `now`; the receiver may be nil. -/
def TimeStamp.Valid (now : Instant) : Option TimeStamp → Option Cause
  | none => none
  | some t => if t.Time.Before now then some .tokenIsExpired else none

structure BaseClaims where
  ID : String
  Username : String
  ExpiresAt : Option TimeStamp
  deriving DecidableEq, Repr

/-- `(*BaseClaims).Valid`. -/
def BaseClaims.Valid (now : Instant) (c : BaseClaims) : Option Cause :=
  if c.ExpiresAt = none then none else TimeStamp.Valid now c.ExpiresAt

structure JWTUserClaims where
  toBaseClaims : BaseClaims
  UserID : String
  TokenType : String
  Fingerprint : String
  deriving DecidableEq, Repr

/-- `(*JWTUserClaims).Valid`. -/
def JWTUserClaims.Valid (now : Instant) (c : JWTUserClaims) : Option Cause :=
  match TimeStamp.Valid now c.toBaseClaims.ExpiresAt with
  | some err => some err
  | none => none

structure UserClaims where
  toBaseClaims : BaseClaims
  UserID : String
  deriving DecidableEq, Repr

/-- `(*UserClaims).Valid`. -/
def UserClaims.Valid (now : Instant) (c : UserClaims) : Option Cause :=
  c.toBaseClaims.Valid now

structure AdminClaims where
  toBaseClaims : BaseClaims
  AdminID : String
  IsAdmin : Bool
  deriving DecidableEq, Repr

/-- `(*AdminClaims).Valid`. -/
def AdminClaims.Valid (now : Instant) (c : AdminClaims) : Option Cause :=
  c.toBaseClaims.Valid now

structure TokenPair where
  AccessToken : String
  RefreshToken : String
  deriving DecidableEq, Repr

/-- The values of the repository that are passed as a `jwt.Claims`. -/
inductive Claims where
  | base (c : BaseClaims)
  | user (c : UserClaims)
  | admin (c : AdminClaims)
  | jwtUser (c : JWTUserClaims)
  deriving DecidableEq, Repr

def Claims.toBaseClaims : Claims → BaseClaims
  | .base c => c
  | .user c => c.toBaseClaims
  | .admin c => c.toBaseClaims
  | .jwtUser c => c.toBaseClaims

/-- What decoding the JSON object of a claims value into a `JWTUserClaims` gives, when the
JSON layer is faithful: the fields are matched by their tags `id`, `username`, `exp`,
`user_id`, `token_type`, `fingerprint`; a tag the object lacks leaves the zero value. -/
def Claims.wire : Claims → JWTUserClaims
  | .base c => { toBaseClaims := c, UserID := "", TokenType := "", Fingerprint := "" }
  | .user c => { toBaseClaims := c.toBaseClaims, UserID := c.UserID, TokenType := "", Fingerprint := "" }
  | .admin c => { toBaseClaims := c.toBaseClaims, UserID := "", TokenType := "", Fingerprint := "" }
  | .jwtUser c => c

/-! ## `github.com/golang-jwt/jwt/v4` -/

/-- A `[]byte`. -/
abbrev Bytes := List Nat

inductive Hash where
  | SHA256
  | SHA384
  | SHA512
  deriving DecidableEq, Repr

/-- The registered signing methods: the three `*SigningMethodHMAC` values, and the rest
(RSA, RSA-PSS, ECDSA, Ed25519, none), which are of other types. -/
inductive SigningMethod where
  | HMAC (Name : String) (hash : Hash)
  | other (Name : String)
  deriving DecidableEq, Repr

def SigningMethodHS256 : SigningMethod := .HMAC "HS256" .SHA256
def SigningMethodHS384 : SigningMethod := .HMAC "HS384" .SHA384
def SigningMethodHS512 : SigningMethod := .HMAC "HS512" .SHA512

def SigningMethod.Alg : SigningMethod → String
  | .HMAC n _ => n
  | .other n => n

/-- `jwt.GetSigningMethod`: the lookup in the table the library fills at start-up. -/
def GetSigningMethod (alg : String) : Option SigningMethod :=
  if alg = "HS256" then some SigningMethodHS256
  else if alg = "HS384" then some SigningMethodHS384
  else if alg = "HS512" then some SigningMethodHS512
  else if alg ∈ ["RS256", "RS384", "RS512", "PS256", "PS384", "PS512",
      "ES256", "ES384", "ES512", "EdDSA", "none"] then some (.other alg)
  else none

/-- The part of a token's header map the library reads: `alg` is `some s` when the key is
present with a string value. -/
structure Header where
  typ : Option String
  alg : Option String
  deriving DecidableEq, Repr

/-- The primitives below the library: base64url (`EncodeSegment`, `DecodeSegment`),
`encoding/json` on the header map and on the claims, and `crypto/hmac`. -/
structure Primitives where
  EncodeSegment : Bytes → String
  DecodeSegment : String → Except String Bytes
  marshalHeader : Header → Bytes
  unmarshalHeader : Bytes → Except String Header
  marshalClaims : Claims → Except String Bytes
  unmarshalClaims : Bytes → Except String JWTUserClaims
  hmacSum : Hash → String → String → Bytes

def ValidationErrorMalformed : Nat := 1
def ValidationErrorUnverifiable : Nat := 2
def ValidationErrorSignatureInvalid : Nat := 4
def ValidationErrorAudience : Nat := 8
def ValidationErrorExpired : Nat := 16
def ValidationErrorIssuedAt : Nat := 32
def ValidationErrorIssuer : Nat := 64
def ValidationErrorNotValidYet : Nat := 128
def ValidationErrorId : Nat := 256
def ValidationErrorClaimsInvalid : Nat := 512

structure ValidationError where
  Inner : Option Cause
  Errors : Nat
  text : String
  deriving DecidableEq, Repr

def NewValidationError (errorText : String) (errorFlags : Nat) : ValidationError :=
  { Inner := none, Errors := errorFlags, text := errorText }

def ValidationError.Error (e : ValidationError) : String :=
  match e.Inner with
  | some inner => inner.Error
  | none => if e.text ≠ "" then e.text else "token is invalid"

/-- `(*ValidationError).Is`: the inner error is the target, or the target is the sentinel of
a flag that is set. Of the sentinels of the switch only `jwt.ErrTokenExpired` is a `Cause`. -/
def ValidationError.Is (e : ValidationError) (target : Cause) : Bool :=
  if e.Inner = some target then true
  else match target with
    | .jwtErrTokenExpired => e.Errors &&& ValidationErrorExpired != 0
    | _ => false

structure Token where
  Raw : String
  Method : SigningMethod
  Header : Header
  Claims : JWTUserClaims
  Signature : String
  Valid : Bool
  deriving DecidableEq, Repr

/-- The pieces of a list between the occurrences of `sep`. -/
def splitSep {α : Type} [DecidableEq α] (sep : α) : List α → List (List α)
  | [] => [[]]
  | c :: cs =>
    if c = sep then [] :: splitSep sep cs
    else match splitSep sep cs with
      | [] => [[c]]
      | p :: ps => (c :: p) :: ps

/-- Go `strings.Split(s, sep)` for a one-character separator. -/
def Split (s : String) (sep : Char) : List String :=
  (splitSep sep s.data).map String.mk

/-- Go `strings.Join(elems, sep)`. -/
def Join : List String → String → String
  | [], _ => ""
  | [a], _ => a
  | a :: b :: rest, sep => a ++ sep ++ Join (b :: rest) sep

/-- Go `strings.HasPrefix(strings.ToLower(s), "bearer ")`. -/
def hasBearer (s : String) : Bool :=
  (s.data.take 7).map Char.toLower = "bearer ".data

/-- `(*Parser).ParseUnverified` with a `*JWTUserClaims` as the claims to decode into. -/
def ParseUnverified (P : Primitives) (tokenString : String) :
    Except ValidationError (Token × List String) :=
  match Split tokenString '.' with
  | [p0, p1, p2] =>
    match P.DecodeSegment p0 with
    | .error e =>
      if hasBearer tokenString then
        .error (NewValidationError "tokenstring should not contain 'bearer '" ValidationErrorMalformed)
      else .error { Inner := some (.base64 e), Errors := ValidationErrorMalformed, text := "" }
    | .ok headerBytes =>
      match P.unmarshalHeader headerBytes with
      | .error e => .error { Inner := some (.json e), Errors := ValidationErrorMalformed, text := "" }
      | .ok header =>
        match P.DecodeSegment p1 with
        | .error e => .error { Inner := some (.base64 e), Errors := ValidationErrorMalformed, text := "" }
        | .ok claimBytes =>
          match P.unmarshalClaims claimBytes with
          | .error e => .error { Inner := some (.json e), Errors := ValidationErrorMalformed, text := "" }
          | .ok claims =>
            match header.alg with
            | some method =>
              match GetSigningMethod method with
              | none =>
                .error (NewValidationError "signing method (alg) is unavailable." ValidationErrorUnverifiable)
              | some m =>
                .ok ({ Raw := tokenString, Method := m, Header := header, Claims := claims,
                       Signature := "", Valid := false }, [p0, p1, p2])
            | none =>
              .error (NewValidationError "signing method (alg) is unspecified." ValidationErrorUnverifiable)
  | _ => .error (NewValidationError "token contains an invalid number of segments" ValidationErrorMalformed)

/-- `Verify` of a signing method when the key is a `[]byte`: an HMAC method decodes the
signature and compares it with the MAC of the signing string; every other method refuses a
`[]byte` key. `none` is success. -/
def SigningMethod.Verify (P : Primitives) (m : SigningMethod) (signingString signature key : String) :
    Option Cause :=
  match m with
  | .HMAC _ hash =>
    match P.DecodeSegment signature with
    | .error e => some (.base64 e)
    | .ok sig => if sig = P.hmacSum hash key signingString then none else some .signatureInvalid
  | .other _ => some .invalidKeyType

/-- `Sign` of a signing method when the key is a `[]byte`. -/
def SigningMethod.Sign (P : Primitives) (m : SigningMethod) (signingString key : String) :
    Except Cause String :=
  match m with
  | .HMAC _ hash => .ok (P.EncodeSegment (P.hmacSum hash key signingString))
  | .other _ => .error .invalidKeyType

/-- `(*Parser).ParseWithClaims` of the default parser (v4.5: the signature is verified
before the claims are validated), the claims being a `*JWTUserClaims`; `now` is the clock
value `Valid` reads. -/
def ParseWithClaims (P : Primitives) (now : Instant) (tokenString : String)
    (keyFunc : Token → Except Cause String) : Except ValidationError Token :=
  match ParseUnverified P tokenString with
  | .error ve => .error ve
  | .ok (token, parts) =>
    match keyFunc token with
    | .error err => .error { Inner := some err, Errors := ValidationErrorUnverifiable, text := "" }
    | .ok key =>
      let token := { token with Signature := parts.getD 2 "" }
      match token.Method.Verify P (Join (parts.take 2) ".") token.Signature key with
      | some err => .error { Inner := some err, Errors := ValidationErrorSignatureInvalid, text := "" }
      | none =>
        match token.Claims.Valid now with
        | some err => .error { Inner := some err, Errors := ValidationErrorClaimsInvalid, text := "" }
        | none => .ok { token with Valid := true }

/-- `jwt.NewWithClaims(method, claims).SignedString(key)` with a `[]byte` key: the header
`typ: JWT, alg: method.Alg()` and the claims are marshalled and encoded, joined by a dot, and
the signature segment is appended. The error is `json.Marshal`'s or `Sign`'s. -/
def SignedString (P : Primitives) (method : SigningMethod) (claims : Claims) (key : String) :
    Except String String :=
  let header := P.EncodeSegment (P.marshalHeader { typ := some "JWT", alg := some method.Alg })
  match P.marshalClaims claims with
  | .error e => .error e
  | .ok jsonValue =>
    let sstr := Join [header, P.EncodeSegment jsonValue] "."
    match method.Sign P sstr key with
    | .error e => .error e.Error
    | .ok sig => .ok (Join [sstr, sig] ".")

/-! ## `pkg/security/useJwt` -/

/-- The `error` values the package returns. -/
inductive GoError where
  /-- a `*JWTError` -/
  | jwtError (e : JWTError)
  /-- the value of `fmt.Errorf("%w: %v", w, cause)` -/
  | invalid (w : JWTError) (cause : ValidationError)
  /-- an error of `SignedString`, as it is -/
  | lib (msg : String)
  /-- the value of `fmt.Errorf("生成令牌失败: %w", err)` for an error `err` of `SignedString` -/
  | generate (msg : String)
  deriving DecidableEq, Repr

def GoError.Error : GoError → String
  | .jwtError e => e.Message
  | .invalid w cause => w.Message ++ ": " ++ cause.Error
  | .lib msg => msg
  | .generate msg => "生成令牌失败: " ++ msg

def GoError.Unwrap : GoError → Option GoError
  | .invalid w _ => some (.jwtError w)
  | .generate msg => some (.lib msg)
  | _ => none

/-- Go `errors.Is(e, target)`: `target` is on the `Unwrap` chain of `e`, which has at most
two links here. -/
def GoError.Is (e target : GoError) : Bool :=
  e = target || e.Unwrap = some target

structure BlacklistedToken where
  Expiry : Instant
  deriving DecidableEq, Repr

/-- The `sync.Map` of the blacklist: token string to `BlacklistedToken`. -/
abbrev SyncMap := AList (fun _ : String => BlacklistedToken)

structure JWTConfig where
  SecretKey : String
  Expiration : Duration
  Issuer : String
  AccessTokenLifetime : Duration
  RefreshTokenLifetime : Duration
  BlacklistCleanupTick : Duration
  SigningMethod : Option SigningMethod
  blacklistedTokens : SyncMap

/-- `NewJWTConfig`; the goroutine it starts is `cleanupCycle`, run at the ticks. -/
def NewJWTConfig (cfg : Option JWTConfig) : Option JWTConfig :=
  match cfg with
  | none => none
  | some cfg =>
    if cfg.SecretKey = "" ∨ cfg.Issuer = "" ∨ cfg.AccessTokenLifetime ≤ 0 ∨
        cfg.RefreshTokenLifetime ≤ 0 ∨ cfg.BlacklistCleanupTick ≤ 0 then none
    else some
      { SecretKey := cfg.SecretKey
        Expiration := 0
        Issuer := cfg.Issuer
        AccessTokenLifetime := cfg.AccessTokenLifetime
        RefreshTokenLifetime := cfg.RefreshTokenLifetime
        BlacklistCleanupTick := cfg.BlacklistCleanupTick
        SigningMethod := some SigningMethodHS256
        blacklistedTokens := ∅ }

/-- `GenerateTokenWithClaims`. -/
def GenerateTokenWithClaims (P : Primitives) (c : JWTConfig) (claims : Claims) :
    String × Option GoError :=
  match SignedString P SigningMethodHS256 claims c.SecretKey with
  | .error err => ("", some (.generate err))
  | .ok tokenString => (tokenString, none)

/-- `GenerateTokenPair`. -/
def GenerateTokenPair (P : Primitives) (c : JWTConfig)
    (_userID username _role _fingerprint : String) : Option TokenPair × Option GoError :=
  let accessClaims : UserClaims :=
    { toBaseClaims := { ID := "", Username := username, ExpiresAt := none }, UserID := "" }
  match SignedString P SigningMethodHS256 (.user accessClaims) c.SecretKey with
  | .error err => (none, some (.lib err))
  | .ok accessTokenString =>
    let refreshClaims : UserClaims :=
      { toBaseClaims := { ID := "", Username := username, ExpiresAt := none }, UserID := "" }
    match SignedString P SigningMethodHS256 (.user refreshClaims) c.SecretKey with
    | .error err => (none, some (.lib err))
    | .ok refreshTokenString =>
      (some { AccessToken := accessTokenString, RefreshToken := refreshTokenString }, none)

/-- The key function `ParseToken` passes to the parser. -/
def keyFunc (c : JWTConfig) (token : Token) : Except Cause String :=
  match token.Method with
  | .HMAC _ _ => .ok c.SecretKey
  | .other _ => .error (.unexpectedSigningMethod (token.Header.alg.getD ""))

/-- `ParseToken` at clock value `now`. -/
def ParseToken (P : Primitives) (c : JWTConfig) (now : Instant) (tokenString : String) :
    Option UserClaims × Option GoError :=
  if tokenString = "" then (none, some (.jwtError ErrEmptyToken))
  else if (c.blacklistedTokens.lookup tokenString).isSome then (none, some (.jwtError ErrRevokedToken))
  else
    match ParseWithClaims P now tokenString (keyFunc c) with
    | .error err =>
      if err.Is .jwtErrTokenExpired then (none, some (.jwtError ErrExpiredToken))
      else (none, some (.invalid ErrInvalidToken err))
    | .ok token =>
      if !token.Valid then (none, some (.jwtError ErrInvalidToken))
      else
        let jwtClaims := token.Claims
        (some { toBaseClaims := jwtClaims.toBaseClaims, UserID := jwtClaims.UserID }, none)

/-- What a call does: it returns, or it panics on a nil pointer dereference. -/
inductive Outcome (α : Type) where
  | returned (a : α)
  | panicked
  deriving DecidableEq, Repr

/-- `RevokeToken` at clock value `now`: the returned error and the config after the call.
`claims.ExpiresAt.Time` dereferences `claims` and then `claims.ExpiresAt`. -/
def RevokeToken (P : Primitives) (c : JWTConfig) (now : Instant) (tokenString : String) :
    Outcome (Option GoError × JWTConfig) :=
  match ParseToken P c now tokenString with
  | (claims, err) =>
    if err ≠ none ∧ err ≠ some (.jwtError ErrRevokedToken) then .returned (err, c)
    else
      match claims with
      | none => .panicked
      | some claims =>
        match claims.toBaseClaims.ExpiresAt with
        | none => .panicked
        | some expiresAt =>
          let stored : SyncMap :=
            c.blacklistedTokens.insert tokenString { Expiry := expiresAt.Time }
          .returned (none, { c with blacklistedTokens := stored })

/-- `RefreshToken` at clock value `now`. -/
def RefreshToken (P : Primitives) (c : JWTConfig) (now : Instant)
    (refreshToken fingerprint : String) : Outcome (Option TokenPair × Option GoError) :=
  match ParseToken P c now refreshToken with
  | (claims, err) =>
    if err ≠ none then .returned (none, err)
    else
      match claims with
      | none => .panicked
      | some claims =>
        .returned (GenerateTokenPair P c claims.toBaseClaims.ID claims.toBaseClaims.Username "" fingerprint)

/-- One tick of `cleanupBlacklist` at clock value `now`: `Range` over the entries, `Delete`
of each key whose entry has `Expiry.Before(now)`. -/
def cleanupCycle (now : Instant) (c : JWTConfig) : JWTConfig :=
  let swept : SyncMap :=
    c.blacklistedTokens.entries.foldl
      (fun m e => if e.2.Expiry.Before now then m.erase e.1 else m) c.blacklistedTokens
  { c with blacklistedTokens := swept }

/-- The calls that can be made on a config; `cleanup` is one tick of the sweep. -/
inductive Call where
  | RevokeToken (tokenString : String)
  | ParseToken (tokenString : String)
  | GenerateTokenWithClaims (claims : Claims)
  | GenerateTokenPair (userID username role fingerprint : String)
  | RefreshToken (refreshToken fingerprint : String)
  | cleanup

/-- The config after a call made at clock value `now`. Only `RevokeToken` and the sweep
write the blacklist; a call that panics has written nothing. -/
def Call.exec (P : Primitives) (now : Instant) (c : JWTConfig) : Call → JWTConfig
  | .RevokeToken tokenString =>
    match GinCenter.RevokeToken P c now tokenString with
    | .returned (_, c') => c'
    | .panicked => c
  | .cleanup => cleanupCycle now c
  | _ => c

/-- The config after a series of calls, each with the clock value it is made at. -/
def run (P : Primitives) (c : JWTConfig) (calls : List (Instant × Call)) : JWTConfig :=
  calls.foldl (fun c e => e.2.exec P e.1 c) c

/-! ## A small instance of the primitives

Used to evaluate the definitions at concrete inputs: a segment is the list of its bytes
shifted into the characters from `0` on (so it holds no dot), the header is marshalled to
the characters of its `alg`, the claims to their six fields separated by a zero byte, and
the MAC is a two-byte checksum of key and message. -/

def demoEncodeSegment (b : Bytes) : String :=
  String.mk (b.map (fun n => Char.ofNat (n + 48)))

def demoDecodeSegment (s : String) : Except String Bytes :=
  if s.data.all (fun c => decide (48 ≤ c.toNat)) then .ok (s.data.map (fun c => c.toNat - 48))
  else .error "illegal base64 data"

def demoBytes (s : String) : Bytes := s.data.map (fun c => c.toNat + 1)

def demoString (b : Bytes) : String := String.mk (b.map (fun n => Char.ofNat (n - 1)))

def demoMarshalHeader (h : Header) : Bytes :=
  match h.alg with
  | some a => demoBytes a
  | none => []

def demoUnmarshalHeader (b : Bytes) : Except String Header :=
  if 0 ∈ b then .error "invalid character"
  else if b = [] then .ok { typ := some "JWT", alg := none }
  else .ok { typ := some "JWT", alg := some (demoString b) }

def demoMarshalClaims (claims : Claims) : Except String Bytes :=
  let w := claims.wire
  let exp : Bytes :=
    match w.toBaseClaims.ExpiresAt with
    | none => []
    | some t => [t.Time.toNat + 1]
  .ok (demoBytes w.toBaseClaims.ID ++ 0 :: demoBytes w.toBaseClaims.Username ++ 0 :: exp ++
    0 :: demoBytes w.UserID ++ 0 :: demoBytes w.TokenType ++ 0 :: demoBytes w.Fingerprint)

def demoUnmarshalClaims (b : Bytes) : Except String JWTUserClaims :=
  match splitSep 0 b with
  | [id, username, exp, userID, tokenType, fingerprint] =>
    match exp with
    | [] =>
      .ok { toBaseClaims := { ID := demoString id, Username := demoString username, ExpiresAt := none },
            UserID := demoString userID, TokenType := demoString tokenType,
            Fingerprint := demoString fingerprint }
    | [t] =>
      .ok { toBaseClaims := { ID := demoString id, Username := demoString username,
                              ExpiresAt := some { Time := Int.ofNat (t - 1) } },
            UserID := demoString userID, TokenType := demoString tokenType,
            Fingerprint := demoString fingerprint }
    | _ => .error "cannot unmarshal exp"
  | _ => .error "unexpected end of JSON input"

def demoSum (s : String) : Nat :=
  s.data.foldl (fun a c => (a * 31 + c.toNat) % 1009) 7

def demoHmacSum (h : Hash) (key msg : String) : Bytes :=
  let tag : Nat := match h with
    | .SHA256 => 0
    | .SHA384 => 1
    | .SHA512 => 2
  [demoSum (key ++ msg) + tag, demoSum (msg ++ key)]

def demo : Primitives where
  EncodeSegment := demoEncodeSegment
  DecodeSegment := demoDecodeSegment
  marshalHeader := demoMarshalHeader
  unmarshalHeader := demoUnmarshalHeader
  marshalClaims := demoMarshalClaims
  unmarshalClaims := demoUnmarshalClaims
  hmacSum := demoHmacSum

/-- A config as `NewJWTConfig` returns it. -/
def demoConfig : JWTConfig where
  SecretKey := "k"
  Expiration := 0
  Issuer := "gin"
  AccessTokenLifetime := 60
  RefreshTokenLifetime := 600
  BlacklistCleanupTick := 10
  SigningMethod := some SigningMethodHS256
  blacklistedTokens := ∅

/-- Claims of user `ann` that expire at 100. -/
def demoClaims : Claims :=
  .user { toBaseClaims := { ID := "7", Username := "ann", ExpiresAt := some { Time := 100 } },
          UserID := "u7" }

/-- A blacklist that holds a string that is no token, with an entry long expired. -/
def demoRevoked : JWTConfig :=
  { demoConfig with blacklistedTokens := (∅ : SyncMap).insert "x.y" { Expiry := 1 } }

/-- The bytes `demo` marshals `demoClaims` to. -/
def demoJson : Bytes := [56, 0, 98, 111, 111, 0, 101, 0, 118, 56, 0, 0]

/-! ## Tokens that carry a valid signature -/

/-- The token string `t` has three segments, its header names the registered method `m`,
its payload decodes to the claims `w`, and its signature verifies under `key`. -/
def SignedWith (P : Primitives) (m : SigningMethod) (key t : String) (w : JWTUserClaims) : Prop :=
  ∃ tok parts, ParseUnverified P t = .ok (tok, parts) ∧ tok.Method = m ∧ tok.Claims = w ∧
    m.Verify P (Join (parts.take 2) ".") (parts.getD 2 "") key = none

/-- The `UserClaims` that `ParseToken` makes of the decoded claims. -/
def JWTUserClaims.toUserClaims (w : JWTUserClaims) : UserClaims :=
  { toBaseClaims := w.toBaseClaims, UserID := w.UserID }

/-- The error `ParseToken` returns for a well-signed token whose claims are not valid. -/
def claimsInvalidError : GoError :=
  .invalid ErrInvalidToken
    { Inner := some .tokenIsExpired, Errors := ValidationErrorClaimsInvalid, text := "" }

/-- The header `jwt.NewWithClaims(jwt.SigningMethodHS256, _)` gives a token. -/
def hs256Header : Header := { typ := some "JWT", alg := some SigningMethodHS256.Alg }

/-- The first segment of every token the package signs. -/
def headerSegment (P : Primitives) : String := P.EncodeSegment (P.marshalHeader hs256Header)

/-- The signing string of a token whose claims marshal to `jsonValue`. -/
def signingString (P : Primitives) (jsonValue : Bytes) : String :=
  Join [headerSegment P, P.EncodeSegment jsonValue] "."

/-- The HS256 MAC under `key` of the token whose claims marshal to `jsonValue`. -/
def hs256Mac (P : Primitives) (key : String) (jsonValue : Bytes) : Bytes :=
  P.hmacSum .SHA256 key (signingString P jsonValue)

/-- The primitives are faithful at one key and one claims value, which marshals to
`jsonValue`: the JSON of the claims and of the header decodes to what was encoded, base64url
decodes what it encoded and writes no dot. -/
structure Faithful (P : Primitives) (key : String) (claims : Claims) (jsonValue : Bytes) : Prop where
  marshal : P.marshalClaims claims = .ok jsonValue
  unmarshal : P.unmarshalClaims jsonValue = .ok claims.wire
  header : ∃ hd, P.unmarshalHeader (P.marshalHeader hs256Header) = .ok hd ∧ hd.alg = some "HS256"
  decode_header : P.DecodeSegment (headerSegment P) = .ok (P.marshalHeader hs256Header)
  decode_claims : P.DecodeSegment (P.EncodeSegment jsonValue) = .ok jsonValue
  decode_signature :
    P.DecodeSegment (P.EncodeSegment (hs256Mac P key jsonValue)) = .ok (hs256Mac P key jsonValue)
  header_no_dot : '.' ∉ (headerSegment P).data
  claims_no_dot : '.' ∉ (P.EncodeSegment jsonValue).data
  signature_no_dot : '.' ∉ (P.EncodeSegment (hs256Mac P key jsonValue)).data

/-- The token `GenerateTokenWithClaims` returns under `key` for claims that marshal to
`jsonValue`. -/
def signedToken (P : Primitives) (key : String) (jsonValue : Bytes) : String :=
  Join [signingString P jsonValue, P.EncodeSegment (hs256Mac P key jsonValue)] "."

/-- The token `demo` signs for `demoClaims` under the key of `demoConfig`. -/
def demoToken : String := signedToken demo "k" demoJson

/-- The config after `RevokeToken(demoToken)` on `demoConfig`. -/
def demoRevokedToken : JWTConfig :=
  { demoConfig with
    blacklistedTokens := demoConfig.blacklistedTokens.insert demoToken { Expiry := 100 } }

/-- A series of calls with their clock values: the sweep at 120 is past the expiry of
`demoToken`. -/
def demoCalls : List (Instant × Call) :=
  [(60, .ParseToken demoToken), (70, .RevokeToken demoToken), (90, .cleanup),
   (120, .cleanup), (125, .RefreshToken demoToken "")]

/-- A token whose header names the algorithm `none`, with the payload of `demoClaims` and an
empty signature segment. -/
def demoNoneToken : String :=
  Join [demoEncodeSegment (demoBytes "none"), demoEncodeSegment demoJson, ""] "."

/-- A config with another secret key. -/
def demoOtherKey : JWTConfig := { demoConfig with SecretKey := "z" }

/-- The claims `GenerateTokenPair` signs, twice: a `UserClaims` with only `Username` set. -/
def pairClaims (username : String) : UserClaims :=
  { toBaseClaims := { ID := "", Username := username, ExpiresAt := none }, UserID := "" }

/-- The bytes `demo` marshals `pairClaims "ann"` to. -/
def demoPairJson : Bytes := [0, 98, 111, 111, 0, 0, 0, 0]

/-- The token `demo` signs for `pairClaims "ann"` under the key of `demoConfig`: it carries no
expiry. -/
def demoPairToken : String := signedToken demo "k" demoPairJson

/-- The configs a program can hold: a result of `NewJWTConfig`, after any calls at any clock
values. -/
inductive Reachable (P : Primitives) : JWTConfig → Prop where
  | new (cfg c : JWTConfig) : NewJWTConfig (some cfg) = some c → Reachable P c
  | call (c : JWTConfig) (now : Instant) (call : Call) : Reachable P c → Reachable P (call.exec P now c)

/-- The expiry is absent or not before `now`. -/
def notExpired (now : Instant) (b : BaseClaims) : Prop :=
  ∀ ts, b.ExpiresAt = some ts → ¬ ts.Time < now

/-- A token whose header names `HS384`, with the payload of `demoClaims`, signed by `demo`
with the SHA-384 MAC under the key of `demoConfig`. -/
def demoHS384Token : String :=
  Join [Join [demoEncodeSegment (demoBytes "HS384"), demoEncodeSegment demoJson] ".",
    demoEncodeSegment (demoHmacSum .SHA384 "k"
      (Join [demoEncodeSegment (demoBytes "HS384"), demoEncodeSegment demoJson] "."))] "."

/-- Primitives whose `json.Marshal` fails on every claims value. -/
def demoFailing : Primitives :=
  { demo with marshalClaims := fun _ => .error "json: unsupported value" }

/-! ## `pkg/http/headers` and `web/middleware/auth` -/

/-- Go `len(s)`: the number of bytes of the UTF-8 encoding of `s`. -/
def len (s : String) : Nat := (s.data.map Char.utf8Size).sum

def BearerPrefix : String := "Bearer "

/-- `GetAuthorizationToken`, as a function of the value of the `Authorization` header. The
prefix is ASCII, so the first `len(BearerPrefix)` bytes of the header are the prefix exactly
when its first characters are. -/
def GetAuthorizationToken (bearer : String) : String :=
  if len bearer > len BearerPrefix ∧ bearer.data.take BearerPrefix.data.length = BearerPrefix.data then
    String.mk (bearer.data.drop BearerPrefix.data.length)
  else ""

/-- The pieces of a list before and after the first occurrence of `sep`. -/
def cutFirst {α : Type} [DecidableEq α] (sep : α) : List α → Option (List α × List α)
  | [] => none
  | c :: cs =>
    if c = sep then some ([], cs)
    else match cutFirst sep cs with
      | none => none
      | some (a, b) => some (c :: a, b)

/-- Go `strings.SplitN(s, sep, 2)` for a one-character separator. -/
def SplitN2 (s : String) (sep : Char) : List String :=
  match cutFirst sep s.data with
  | none => [s]
  | some (a, b) => [String.mk a, String.mk b]

/-- What the handler does with the request: a 401 response with a message and `c.Abort()`, or
`user_id` and `username` set in the context and `c.Next()`. -/
inductive Handled where
  | unauthorized (message : String)
  | next (user_id username : String)
  deriving DecidableEq, Repr

/-- The handler up to the call of `ParseToken`: the 401 message it answers with, or the
argument `parts[1]` it passes to `ParseToken`. -/
def bearerArgument (header : String) : Except String String :=
  let token := GetAuthorizationToken header
  if token = "" then .error "缺少认证头"
  else
    let parts := SplitN2 token ' '
    if parts.length ≠ 2 ∨ parts.getD 0 "" ≠ "Bearer" then .error "无效的认证头格式"
    else .ok (parts.getD 1 "")

/-- The handler `JWTAuth` returns, as a function of the `Authorization` header value;
`parse` is `jwtConfig.ParseToken`. -/
def JWTAuth (parse : String → Option UserClaims × Option GoError) (header : String) :
    Outcome Handled :=
  match bearerArgument header with
  | .error message => .returned (.unauthorized message)
  | .ok argument =>
    match parse argument with
    | (_, some _) => .returned (.unauthorized "无效的Token")
    | (some claims, none) => .returned (.next claims.toBaseClaims.ID claims.toBaseClaims.Username)
    | (none, none) => .panicked

/-! ## `internal/types/auth` and `pkg/utils/validator` -/

def ErrCodeInvalidUsername : AuthErrorCode := 1001
def ErrCodeUsernameValidationFailed : AuthErrorCode := 1002
def ErrCodeInvalidPassword : AuthErrorCode := 1003

structure AuthError where
  Code : AuthErrorCode
  Message : String
  deriving DecidableEq, Repr

/-- `NewAuthError`; its map literal has the five entries of the one of `NewJWTError`. -/
def NewAuthError (code : AuthErrorCode) : AuthError :=
  { Code := code, Message := errMap code }

/-- The predicates of Go's `unicode` package that the validators call, on runes. -/
structure Unicode where
  IsLetter : Char → Bool
  IsNumber : Char → Bool
  IsUpper : Char → Bool
  IsLower : Char → Bool
  IsPunct : Char → Bool
  IsSymbol : Char → Bool

/-- The loop of `ValidateUsername` over the runes of the string. -/
def usernameLoop (U : Unicode) : List Char → Option AuthError
  | [] => none
  | char :: rest =>
    if !U.IsLetter char && !U.IsNumber char then
      some (NewAuthError ErrCodeUsernameValidationFailed)
    else usernameLoop U rest

/-- `ValidateUsername`; `none` is the nil error. -/
def ValidateUsername (U : Unicode) (username : String) : Option AuthError :=
  if len username < 3 ∨ len username > 50 then some (NewAuthError ErrCodeInvalidUsername)
  else usernameLoop U username.data

/-- The four variables of `ValidatePassword`. -/
structure PasswordFlags where
  hasUpper : Bool
  hasLower : Bool
  hasNumber : Bool
  hasSpecial : Bool
  deriving DecidableEq, Repr

/-- The `switch` in the loop of `ValidatePassword`: the first case that holds is taken. -/
def passwordStep (U : Unicode) (f : PasswordFlags) (char : Char) : PasswordFlags :=
  if U.IsUpper char then { f with hasUpper := true }
  else if U.IsLower char then { f with hasLower := true }
  else if U.IsNumber char then { f with hasNumber := true }
  else if U.IsPunct char || U.IsSymbol char then { f with hasSpecial := true }
  else f

/-- `ValidatePassword`; `none` is the nil error. -/
def ValidatePassword (U : Unicode) (password : String) : Option AuthError :=
  if len password < 8 ∨ len password > 72 then some (NewAuthError ErrCodeInvalidPassword)
  else
    let f := password.data.foldl (passwordStep U)
      { hasUpper := false, hasLower := false, hasNumber := false, hasSpecial := false }
    if !f.hasUpper || !f.hasLower || !f.hasNumber || !f.hasSpecial then
      some (NewAuthError ErrCodeInvalidPassword)
    else none

/-- The predicates of `unicode` on the ASCII characters, false elsewhere. -/
def asciiUnicode : Unicode where
  IsLetter := fun c => c.isAlpha
  IsNumber := fun c => c.isDigit
  IsUpper := fun c => c.isUpper
  IsLower := fun c => c.isLower
  IsPunct := fun c => c ∈ "!\"#%&'()*,-./:;?@[\\]_{}".data
  IsSymbol := fun c => c ∈ "$+<=>^`|~".data

/-! ## `pkg/circuitbreaker` -/

inductive State where
  | StateClosed
  | StateHalfOpen
  | StateOpen
  deriving DecidableEq, Repr

structure Options where
  Timeout : Duration
  MaxFailures : Int
  ResetTimeout : Duration
  HalfOpenMaxCalls : Int
  deriving DecidableEq, Repr

def NewOptions : Options :=
  { Timeout := 5 * 1000000000, MaxFailures := 5, ResetTimeout := 60 * 1000000000,
    HalfOpenMaxCalls := 3 }

/-- The value of an `int32` after an operation whose exact result is `x`: it wraps around. -/
def int32 (x : Int) : Int := (x + 2147483648) % 4294967296 - 2147483648

/-- The zero `time.Time{}`, January 1 of year 1, in nanoseconds from the Unix epoch. -/
def zeroTime : Instant := -62135596800 * 1000000000

/-- The fields of the breaker: `state`, `lastFailure`, and the two `atomic.Int32` counters. -/
structure DefaultCircuitBreaker where
  state : State
  options : Options
  failures : Int
  lastFailure : Instant
  calls : Int
  deriving DecidableEq, Repr

def NewCircuitBreaker (options : Option Options) : DefaultCircuitBreaker :=
  { state := .StateClosed, options := options.getD NewOptions, failures := 0,
    lastFailure := zeroTime, calls := 0 }

/-- The errors that `Execute` returns, each the `fmt.Errorf` of the source with its argument:
`waiting` is `"circuit breaker is open: waiting for reset timeout (%v)"` of
`cb.options.ResetTimeout`, `tooManyCalls` is `"too many calls in half-open state (max: %d)"` of
`cb.options.HalfOpenMaxCalls`, `cancelled` is `"command execution cancelled: %w"` of
`ctx.Err()` and `failed` is `"command execution failed: %w"` of the error of the command; an
error that is wrapped is given by its message. -/
inductive ExecuteError where
  | waiting (resetTimeout : Duration)
  | tooManyCalls (max : Int)
  | cancelled (ctxErr : String)
  | failed (err : String)
  deriving DecidableEq, Repr

/-- The message of an error of `Execute`; `durationString` is `time.Duration.String`, which
`%v` formats a `time.Duration` with. -/
def ExecuteError.Error (durationString : Duration → String) : ExecuteError → String
  | .waiting resetTimeout =>
    "circuit breaker is open: waiting for reset timeout (" ++ durationString resetTimeout ++ ")"
  | .tooManyCalls max => "too many calls in half-open state (max: " ++ toString max ++ ")"
  | .cancelled ctxErr => "command execution cancelled: " ++ ctxErr
  | .failed err => "command execution failed: " ++ err

/-- `time.Since(t)` at clock value `now`: the difference of the two instants in nanoseconds,
kept within the `int64` of a `time.Duration`. -/
def Since (now t : Instant) : Duration :=
  if now - t > 9223372036854775807 then 9223372036854775807
  else if now - t < -9223372036854775808 then -9223372036854775808
  else now - t

/-- `Execute` from `cb.calls.Add(1)` on. `ctx` is `none` while `ctx.Done()` is not ready, and
`some e` when it is, `e` being the message of `ctx.Err()` (`context canceled`, or
`context deadline exceeded`); `result` is the error `command()` returns (`none` for nil),
given by its message; `now` is the clock value. -/
def executeCommand (cb : DefaultCircuitBreaker) (now : Instant) (ctx : Option String)
    (result : Option String) : DefaultCircuitBreaker × Option ExecuteError :=
  let cb := { cb with calls := int32 (cb.calls + 1) }
  match ctx with
  | some ctxErr => (cb, some (.cancelled ctxErr))
  | none =>
    match result with
    | some err =>
      let failures := int32 (cb.failures + 1)
      let cb := { cb with failures := failures, lastFailure := now }
      let cb := if failures ≥ cb.options.MaxFailures then { cb with state := .StateOpen } else cb
      (cb, some (.failed err))
    | none =>
      let cb := if cb.state = .StateHalfOpen then { cb with state := .StateClosed } else cb
      ({ cb with failures := 0 }, none)

/-- `Execute` at clock value `now`: the breaker after the call and the returned error. One
clock value stands for `time.Since` and `time.Now`. -/
def Execute (cb : DefaultCircuitBreaker) (now : Instant) (ctx : Option String)
    (result : Option String) : DefaultCircuitBreaker × Option ExecuteError :=
  match cb.state with
  | .StateOpen =>
    if Since now cb.lastFailure > cb.options.ResetTimeout then
      executeCommand { cb with state := .StateHalfOpen, calls := 0 } now ctx result
    else (cb, some (.waiting cb.options.ResetTimeout))
  | .StateHalfOpen =>
    if cb.calls ≥ int32 cb.options.HalfOpenMaxCalls then
      (cb, some (.tooManyCalls cb.options.HalfOpenMaxCalls))
    else executeCommand cb now ctx result
  | .StateClosed => executeCommand cb now ctx result

/-- `State()`. -/
def DefaultCircuitBreaker.State (cb : DefaultCircuitBreaker) : GinCenter.State := cb.state

/-- `Reset()`. -/
def Reset (cb : DefaultCircuitBreaker) : DefaultCircuitBreaker :=
  { cb with state := .StateClosed, failures := 0, calls := 0, lastFailure := zeroTime }

/-- The calls on a breaker: `Execute` with the clock value, the state of the context and
what the command returns; and `Reset`. -/
inductive BreakerCall where
  | Execute (now : Instant) (ctx : Option String) (result : Option String)
  | Reset
  deriving DecidableEq, Repr

def BreakerCall.exec (cb : DefaultCircuitBreaker) : BreakerCall → DefaultCircuitBreaker
  | .Execute now ctx result => (GinCenter.Execute cb now ctx result).1
  | .Reset => GinCenter.Reset cb

/-- The breaker after a sequential series of calls. -/
def runBreaker (cb : DefaultCircuitBreaker) (calls : List BreakerCall) : DefaultCircuitBreaker :=
  calls.foldl BreakerCall.exec cb

/-- A call is a failing command: `Execute` with a live context and a command that returns an
error. -/
def BreakerCall.failing : BreakerCall → Bool
  | .Execute _ none (some _) => true
  | _ => false

/-- Options with one allowed failure and a reset timeout of one nanosecond. -/
def demoOptions : Options :=
  { Timeout := 5 * 1000000000, MaxFailures := 1, ResetTimeout := 1, HalfOpenMaxCalls := 1 }

/-- The failing command number `i` of a series, run two nanoseconds after the one before. -/
def failingAt (i : Nat) : BreakerCall := .Execute (2 * ((i : Int) + 1)) none (some "boom")

/-- A series of `n` failing commands, two nanoseconds apart. -/
def failingSeries (n : Nat) : List BreakerCall := (List.range n).map failingAt

/-- What the claim of the breaker relates: the failure counter is not negative, and the
state is closed exactly when the counter is below `MaxFailures`. -/
def BreakerInv (cb : DefaultCircuitBreaker) : Prop :=
  0 ≤ cb.failures ∧ (cb.state = .StateClosed ↔ cb.failures < cb.options.MaxFailures)

/-- The number of failing commands of a series of calls. -/
def countFailing (calls : List BreakerCall) : Int := ((calls.filter BreakerCall.failing).length : Int)

/-! ## Lemmas -/

theorem Split_empty : Split "" '.' = [""] := by decide

theorem ParseUnverified_empty (P : Primitives) : ∃ ve, ParseUnverified P "" = .error ve := by
  refine ⟨NewValidationError "token contains an invalid number of segments" ValidationErrorMalformed, ?_⟩
  simp [ParseUnverified, Split_empty]

theorem SignedWith.ne_empty {P : Primitives} {m : SigningMethod} {key t : String}
    {w : JWTUserClaims} (h : SignedWith P m key t w) : t ≠ "" := by
  rintro rfl
  obtain ⟨tok, parts, hp, -⟩ := h
  obtain ⟨ve, hve⟩ := ParseUnverified_empty P
  rw [hve] at hp
  cases hp

theorem JWTUserClaims.Valid_eq (now : Instant) (w : JWTUserClaims) :
    w.Valid now = TimeStamp.Valid now w.toBaseClaims.ExpiresAt := by
  unfold JWTUserClaims.Valid
  cases TimeStamp.Valid now w.toBaseClaims.ExpiresAt <;> rfl

theorem JWTUserClaims.Valid_cases (now : Instant) (w : JWTUserClaims) :
    w.Valid now = none ∨ w.Valid now = some .tokenIsExpired := by
  rw [JWTUserClaims.Valid_eq]
  cases h : w.toBaseClaims.ExpiresAt with
  | none => left; rfl
  | some t =>
    simp only [TimeStamp.Valid]
    split
    · right; rfl
    · left; rfl

/-- The parser on a token signed with an HMAC method under the config's key: the only thing
left to fail is the validity of the claims. -/
theorem ParseWithClaims_of_signed (P : Primitives) (c : JWTConfig) (now : Instant)
    {n : String} {hash : Hash} {t : String} {w : JWTUserClaims}
    (h : SignedWith P (.HMAC n hash) c.SecretKey t w) :
    (w.Valid now = none → ∃ tok, ParseWithClaims P now t (keyFunc c) = .ok tok ∧
        tok.Claims = w ∧ tok.Valid = true) ∧
    (w.Valid now ≠ none → ParseWithClaims P now t (keyFunc c) =
        .error { Inner := some .tokenIsExpired, Errors := ValidationErrorClaimsInvalid, text := "" }) := by
  obtain ⟨tok, parts, hp, hm, hc, hv⟩ := h
  have hk : keyFunc c tok = .ok c.SecretKey := by simp [keyFunc, hm]
  constructor
  · intro hvalid
    refine ⟨{ tok with Signature := parts.getD 2 "", Valid := true }, ?_, hc, rfl⟩
    simp only [ParseWithClaims, hp, hk, hm, hv, hc, hvalid]
  · intro hvalid
    have hexp : w.Valid now = some .tokenIsExpired := by
      rcases JWTUserClaims.Valid_cases now w with h0 | h1
      · exact absurd h0 hvalid
      · exact h1
    simp only [ParseWithClaims, hp, hk, hm, hv, hc, hexp]

/-- A token the parser accepts under the key function of `c` is signed with an HMAC method
under the key of `c`, and its claims are valid at `now`. -/
theorem signed_of_ParseWithClaims (P : Primitives) (c : JWTConfig) (now : Instant)
    {t : String} {tok : Token} (h : ParseWithClaims P now t (keyFunc c) = .ok tok) :
    ∃ n hash, SignedWith P (.HMAC n hash) c.SecretKey t tok.Claims ∧
      tok.Claims.Valid now = none ∧ tok.Valid = true := by
  unfold ParseWithClaims at h
  cases hp : ParseUnverified P t with
  | error ve => rw [hp] at h; cases h
  | ok r =>
    obtain ⟨tok0, parts⟩ := r
    rw [hp] at h
    simp only at h
    cases hm : tok0.Method with
    | other nm => simp [keyFunc, hm] at h
    | HMAC n hash =>
      have hk : keyFunc c tok0 = .ok c.SecretKey := by simp [keyFunc, hm]
      rw [hk] at h
      simp only [hm] at h
      cases hv : SigningMethod.Verify P (.HMAC n hash) (Join (parts.take 2) ".") (parts.getD 2 "") c.SecretKey with
      | some e => rw [hv] at h; cases h
      | none =>
        rw [hv] at h
        simp only at h
        cases hval : tok0.Claims.Valid now with
        | some e => rw [hval] at h; cases h
        | none =>
          rw [hval] at h
          simp only [Except.ok.injEq] at h
          subst h
          exact ⟨n, hash, ⟨tok0, parts, hp, hm, rfl, hv⟩, hval, rfl⟩

theorem ParseToken_empty (P : Primitives) (c : JWTConfig) (now : Instant) :
    ParseToken P c now "" = (none, some (.jwtError ErrEmptyToken)) := by
  simp [ParseToken]

theorem ParseToken_blacklisted (P : Primitives) (c : JWTConfig) (now : Instant) {t : String}
    (ht : t ≠ "") (hmem : t ∈ c.blacklistedTokens) :
    ParseToken P c now t = (none, some (.jwtError ErrRevokedToken)) := by
  have h : (c.blacklistedTokens.lookup t).isSome = true := AList.lookup_isSome.mpr hmem
  simp [ParseToken, ht, h]

theorem claimsInvalid_not_expired :
    ValidationError.Is { Inner := some .tokenIsExpired, Errors := ValidationErrorClaimsInvalid, text := "" }
      .jwtErrTokenExpired = false := by
  decide

/-- `ParseToken` on a token that is not blacklisted and is signed with an HMAC method under the
config's key: the claims are returned when they are valid at `now`, and the wrapped
`ErrInvalidToken` when they are not. -/
theorem ParseToken_of_signed (P : Primitives) (c : JWTConfig) (now : Instant)
    {n : String} {hash : Hash} {t : String} {w : JWTUserClaims}
    (h : SignedWith P (.HMAC n hash) c.SecretKey t w) (hbl : t ∉ c.blacklistedTokens) :
    (w.Valid now = none → ParseToken P c now t = (some w.toUserClaims, none)) ∧
    (w.Valid now ≠ none → ParseToken P c now t = (none, some claimsInvalidError)) := by
  have ht : t ≠ "" := h.ne_empty
  have hl : (c.blacklistedTokens.lookup t).isSome = false := by
    cases hx : (c.blacklistedTokens.lookup t).isSome with
    | false => rfl
    | true => exact absurd (AList.lookup_isSome.mp hx) hbl
  obtain ⟨hok, herr⟩ := ParseWithClaims_of_signed P c now h
  constructor
  · intro hv
    obtain ⟨tok, hp, hcl, hval⟩ := hok hv
    simp [ParseToken, ht, hl, hp, hval, hcl, JWTUserClaims.toUserClaims]
  · intro hv
    simp [ParseToken, ht, hl, herr hv, claimsInvalid_not_expired, claimsInvalidError]

/-- What an accepting `ParseToken` tells: the token is not empty, not blacklisted, signed with
an HMAC method under the config's key, and the returned claims are the decoded ones, valid at
`now`. -/
theorem signed_of_ParseToken (P : Primitives) (c : JWTConfig) (now : Instant) {t : String}
    {r : Option UserClaims} (h : ParseToken P c now t = (r, none)) :
    t ≠ "" ∧ t ∉ c.blacklistedTokens ∧ ∃ n hash w, SignedWith P (.HMAC n hash) c.SecretKey t w ∧
      w.Valid now = none ∧ r = some w.toUserClaims := by
  unfold ParseToken at h
  by_cases ht : t = ""
  · simp [ht] at h
  · simp only [ht, if_false] at h
    cases hl : (c.blacklistedTokens.lookup t).isSome with
    | true => simp [hl] at h
    | false =>
      simp only [hl, Bool.false_eq_true, if_false] at h
      have hnot : t ∉ c.blacklistedTokens := by
        intro hm
        have := AList.lookup_isSome.mpr hm
        rw [hl] at this
        cases this
      cases hp : ParseWithClaims P now t (keyFunc c) with
      | error ve =>
        rw [hp] at h
        simp only at h
        split at h <;> simp at h
      | ok tok =>
        rw [hp] at h
        obtain ⟨n, hash, hs, hv, hval⟩ := signed_of_ParseWithClaims P c now hp
        simp [hval] at h
        exact ⟨ht, hnot, n, hash, tok.Claims, hs, hv, by rw [← h]; rfl⟩

/-- The result of `ParseToken` is never a pair of two nils: with a nil error come claims. -/
theorem ParseToken_none_error (P : Primitives) (c : JWTConfig) (now : Instant) {t : String}
    {r : Option UserClaims} (h : ParseToken P c now t = (r, none)) : ∃ uc, r = some uc := by
  obtain ⟨-, -, n, hash, w, -, -, hr⟩ := signed_of_ParseToken P c now h
  exact ⟨_, hr⟩

theorem splitSep_not_mem {α : Type} [DecidableEq α] (sep : α) (l : List α) (h : sep ∉ l) :
    splitSep sep l = [l] := by
  induction l with
  | nil => rfl
  | cons x xs ih =>
    have hx : x ≠ sep := fun e => h (by simp [e])
    have hxs : sep ∉ xs := fun e => h (by simp [e])
    simp [splitSep, hx, ih hxs]

theorem splitSep_append {α : Type} [DecidableEq α] (sep : α) (a b : List α) (h : sep ∉ a) :
    splitSep sep (a ++ sep :: b) = a :: splitSep sep b := by
  induction a with
  | nil => simp [splitSep]
  | cons x xs ih =>
    have hx : x ≠ sep := fun e => h (by simp [e])
    have hxs : sep ∉ xs := fun e => h (by simp [e])
    simp [splitSep, hx, ih hxs]

theorem Split_three (a b d : String) (ha : '.' ∉ a.data) (hb : '.' ∉ b.data) (hd : '.' ∉ d.data) :
    Split (Join [Join [a, b] ".", d] ".") '.' = [a, b, d] := by
  have h : (Join [Join [a, b] ".", d] ".").data = a.data ++ '.' :: (b.data ++ '.' :: d.data) := by
    simp [Join, String.data_append]
  simp [Split, h, splitSep_append, splitSep_not_mem, ha, hb, hd]

/-- The token generated under faithful primitives is the signed token, and it is signed with
HS256 under the key, with the claims as they go over the wire. -/
theorem GenerateTokenWithClaims_signed (P : Primitives) (c : JWTConfig) (claims : Claims)
    (jsonValue : Bytes) (hf : Faithful P c.SecretKey claims jsonValue) :
    GenerateTokenWithClaims P c claims = (signedToken P c.SecretKey jsonValue, none) ∧
    SignedWith P SigningMethodHS256 c.SecretKey (signedToken P c.SecretKey jsonValue) claims.wire := by
  constructor
  · simp [GenerateTokenWithClaims, SignedString, hf.marshal, SigningMethod.Sign, SigningMethodHS256,
      signedToken, signingString, headerSegment, hs256Header, hs256Mac]
  · obtain ⟨hd, hh, halg⟩ := hf.header
    have hsplit := Split_three (headerSegment P) (P.EncodeSegment jsonValue)
      (P.EncodeSegment (hs256Mac P c.SecretKey jsonValue)) hf.header_no_dot hf.claims_no_dot
      hf.signature_no_dot
    refine ⟨{ Raw := signedToken P c.SecretKey jsonValue, Method := SigningMethodHS256, Header := hd,
              Claims := claims.wire, Signature := "", Valid := false },
            [headerSegment P, P.EncodeSegment jsonValue,
              P.EncodeSegment (hs256Mac P c.SecretKey jsonValue)], ?_, rfl, rfl, ?_⟩
    · have hg : GetSigningMethod "HS256" = some SigningMethodHS256 := by decide
      simp only [ParseUnverified, signedToken, signingString, hsplit, hf.decode_header, hh,
        hf.decode_claims, hf.unmarshal, halg, hg]
    · have hdec := hf.decode_signature
      simp only [SigningMethod.Verify, SigningMethodHS256, List.take, List.getD_cons_succ,
        List.getD_cons_zero]
      rw [hdec]
      simp [hs256Mac, signingString]

theorem NewJWTConfig_blacklist {cfg c : JWTConfig} (h : NewJWTConfig (some cfg) = some c) :
    c.blacklistedTokens = ∅ := by
  unfold NewJWTConfig at h
  simp only at h
  split at h
  · cases h
  · simp only [Option.some.injEq] at h
    rw [← h]

theorem notExpired_valid {now : Instant} {w : JWTUserClaims} (h : notExpired now w.toBaseClaims) :
    w.Valid now = none := by
  rw [JWTUserClaims.Valid_eq]
  cases he : w.toBaseClaims.ExpiresAt with
  | none => rfl
  | some ts =>
    have := h ts he
    simp [TimeStamp.Valid, Instant.Before, this]

theorem expired_invalid {now : Instant} {w : JWTUserClaims} {ts : TimeStamp}
    (he : w.toBaseClaims.ExpiresAt = some ts) (h : ts.Time < now) : w.Valid now ≠ none := by
  rw [JWTUserClaims.Valid_eq, he]
  simp [TimeStamp.Valid, Instant.Before, h]

theorem Claims.wire_toBaseClaims (claims : Claims) :
    claims.wire.toBaseClaims = claims.toBaseClaims := by
  cases claims <;> rfl

theorem demo_faithful : Faithful demo "k" demoClaims demoJson where
  marshal := rfl
  unmarshal := rfl
  header := ⟨{ typ := some "JWT", alg := some "HS256" }, rfl, rfl⟩
  decode_header := rfl
  decode_claims := rfl
  decode_signature := rfl
  header_no_dot := by decide
  claims_no_dot := by decide
  signature_no_dot := by decide

theorem demoConfig_new : NewJWTConfig (some demoConfig) = some demoConfig := by
  simp [NewJWTConfig, demoConfig]

theorem RevokeToken_of_accepted (P : Primitives) (c : JWTConfig) (now : Instant) {t : String}
    {uc : UserClaims} {ts : TimeStamp} (hp : ParseToken P c now t = (some uc, none))
    (he : uc.toBaseClaims.ExpiresAt = some ts) :
    RevokeToken P c now t = .returned (none,
      { c with blacklistedTokens := c.blacklistedTokens.insert t { Expiry := ts.Time } }) := by
  simp [RevokeToken, hp, he]

theorem RevokeToken_blacklisted (P : Primitives) (c : JWTConfig) (now : Instant) {t : String}
    (ht : t ≠ "") (hm : t ∈ c.blacklistedTokens) : RevokeToken P c now t = .panicked := by
  simp [RevokeToken, ParseToken_blacklisted P c now ht hm]

/-- The token of `demoClaims` under the key of `demoConfig`. -/
theorem demo_signed :
    SignedWith demo SigningMethodHS256 demoConfig.SecretKey demoToken
      demoClaims.wire :=
  (GenerateTokenWithClaims_signed demo demoConfig demoClaims demoJson demo_faithful).2

theorem demo_accepted :
    ParseToken demo demoConfig 50 demoToken =
      (some demoClaims.wire.toUserClaims, none) :=
  (ParseToken_of_signed demo demoConfig 50 demo_signed (AList.not_mem_empty _)).1 (by decide)

theorem SignedWith.unique {P : Primitives} {m m' : SigningMethod} {key key' t : String}
    {w w' : JWTUserClaims} (h : SignedWith P m key t w) (h' : SignedWith P m' key' t w') :
    m = m' ∧ w = w' := by
  obtain ⟨tok, parts, hp, hm, hc, -⟩ := h
  obtain ⟨tok', parts', hp', hm', hc', -⟩ := h'
  rw [hp] at hp'
  simp only [Except.ok.injEq, Prod.mk.injEq] at hp'
  obtain ⟨rfl, rfl⟩ := hp'
  exact ⟨hm.symm.trans hm', hc.symm.trans hc'⟩

theorem ParseToken_some_error (P : Primitives) (c : JWTConfig) (now : Instant) {t : String}
    {r : Option UserClaims} {e : GoError} (h : ParseToken P c now t = (r, some e)) : r = none := by
  unfold ParseToken at h
  split at h
  · simp only [Prod.mk.injEq] at h; exact h.1.symm
  · split at h
    · simp only [Prod.mk.injEq] at h; exact h.1.symm
    · split at h
      · split at h <;> (simp only [Prod.mk.injEq] at h; exact h.1.symm)
      · split at h
        · simp only [Prod.mk.injEq] at h; exact h.1.symm
        · simp at h

/-- What a returning `RevokeToken` has done: it has passed on an error of `ParseToken` and
written nothing, or `ParseToken` accepted the token, the claims carry an `ExpiresAt`, and the
entry is stored. -/
theorem RevokeToken_returned (P : Primitives) (c : JWTConfig) (now : Instant) {t : String}
    {r : Option GoError} {c' : JWTConfig} (h : RevokeToken P c now t = .returned (r, c')) :
    (c' = c ∧ r ≠ none) ∨
    (r = none ∧ ∃ uc ts, ParseToken P c now t = (some uc, none) ∧
      uc.toBaseClaims.ExpiresAt = some ts ∧
      c' = { c with blacklistedTokens := c.blacklistedTokens.insert t { Expiry := ts.Time } }) := by
  unfold RevokeToken at h
  cases hp : ParseToken P c now t with
  | mk claims err =>
    rw [hp] at h
    simp only at h
    cases err with
    | some e =>
      have hcl : claims = none := ParseToken_some_error P c now hp
      subst hcl
      by_cases hrev : e = .jwtError ErrRevokedToken
      · simp [hrev] at h
      · simp [hrev] at h
        left
        exact ⟨h.2.symm, by rw [← h.1]; simp⟩
    | none =>
      simp only [ne_eq, not_true_eq_false, false_and, if_false] at h
      cases claims with
      | none => simp at h
      | some uc =>
        simp only at h
        cases hts : uc.toBaseClaims.ExpiresAt with
        | none => rw [hts] at h; simp at h
        | some ts =>
          rw [hts] at h
          simp only [Outcome.returned.injEq, Prod.mk.injEq] at h
          right
          exact ⟨h.1.symm, uc, ts, rfl, hts, h.2.symm⟩

theorem lookup_erase_of_none {m : SyncMap} {k : String} (a : String) (h : m.lookup k = none) :
    (m.erase a).lookup k = none := by
  by_cases hk : k = a
  · subst hk; exact AList.lookup_erase _ _
  · rw [AList.lookup_erase_ne hk]; exact h

/-- The loop of the sweep over a list of entries. -/
theorem lookup_sweep_fold (now : Instant) (l : List (Sigma fun _ : String => BlacklistedToken))
    (k : String) : ∀ m : SyncMap,
    (m.lookup k = none →
      (l.foldl (fun m e => if e.2.Expiry.Before now then m.erase e.1 else m) m).lookup k = none) ∧
    ((∃ e ∈ l, e.1 = k ∧ e.2.Expiry.Before now = true) →
      (l.foldl (fun m e => if e.2.Expiry.Before now then m.erase e.1 else m) m).lookup k = none) ∧
    ((¬ ∃ e ∈ l, e.1 = k ∧ e.2.Expiry.Before now = true) →
      (l.foldl (fun m e => if e.2.Expiry.Before now then m.erase e.1 else m) m).lookup k
        = m.lookup k) := by
  induction l with
  | nil =>
    intro m
    exact ⟨fun h => h, fun ⟨e, he, _⟩ => absurd he (List.not_mem_nil _), fun _ => rfl⟩
  | cons e l ih =>
    intro m
    simp only [List.foldl_cons]
    refine ⟨fun h => ?_, fun h => ?_, fun h => ?_⟩
    · apply (ih _).1
      split
      · exact lookup_erase_of_none _ h
      · exact h
    · obtain ⟨e', he', hk, hexp⟩ := h
      rcases List.mem_cons.mp he' with rfl | hmem
      · apply (ih _).1
        rw [if_pos hexp, ← hk]
        exact AList.lookup_erase _ _
      · exact (ih _).2.1 ⟨e', hmem, hk, hexp⟩
    · have hl : ¬ ∃ e' ∈ l, e'.1 = k ∧ e'.2.Expiry.Before now = true :=
        fun ⟨e', he', hx⟩ => h ⟨e', List.mem_cons_of_mem _ he', hx⟩
      rw [(ih _).2.2 hl]
      split
      · rename_i hexp
        have hne : k ≠ e.1 := fun hk => h ⟨e, List.mem_cons_self _ _, hk.symm, hexp⟩
        exact AList.lookup_erase_ne hne
      · rfl

/-- One cycle of the sweep, seen from a key: the entry is dropped when its `Expiry` is before
`now`, and is otherwise what it was. -/
theorem lookup_cleanupCycle (now : Instant) (c : JWTConfig) (k : String) :
    (cleanupCycle now c).blacklistedTokens.lookup k =
      match c.blacklistedTokens.lookup k with
      | some v => if v.Expiry.Before now then none else some v
      | none => none := by
  have hfold := lookup_sweep_fold now c.blacklistedTokens.entries k c.blacklistedTokens
  show (c.blacklistedTokens.entries.foldl _ c.blacklistedTokens).lookup k = _
  cases hl : c.blacklistedTokens.lookup k with
  | none => exact hfold.1 hl
  | some v =>
    have hmem : (⟨k, v⟩ : Sigma fun _ : String => BlacklistedToken) ∈ c.blacklistedTokens.entries :=
      AList.mem_lookup_iff.mp (by rw [hl]; exact rfl)
    by_cases hexp : v.Expiry.Before now = true
    · simp only [hexp, if_true]
      exact hfold.2.1 ⟨⟨k, v⟩, hmem, rfl, hexp⟩
    · simp only [hexp]
      rw [hfold.2.2, hl]
      · rfl
      · rintro ⟨e', he', hk, hexp'⟩
        apply hexp
        have hl' : e'.2 ∈ c.blacklistedTokens.lookup e'.1 := AList.mem_lookup_iff.mpr he'
        rw [hk, hl] at hl'
        have : v = e'.2 := by simpa using hl'
        rw [this]
        exact hexp'

theorem cleanupCycle_SecretKey (now : Instant) (c : JWTConfig) :
    (cleanupCycle now c).SecretKey = c.SecretKey := rfl

theorem exec_SecretKey (P : Primitives) (now : Instant) (c : JWTConfig) (call : Call) :
    (call.exec P now c).SecretKey = c.SecretKey := by
  cases call with
  | RevokeToken t =>
    simp only [Call.exec]
    cases h : RevokeToken P c now t with
    | panicked => rfl
    | returned rc =>
      obtain ⟨r, c'⟩ := rc
      rcases RevokeToken_returned P c now h with ⟨rfl, -⟩ | ⟨-, uc, ts, -, -, rfl⟩ <;> rfl
  | cleanup => rfl
  | _ => rfl


/-- One call keeps what a revocation of `t` has established: the key is what it was, and the
entry of `t` is still in the blacklist, or it is gone and the token's expiry `e` is before
the clock value. -/
theorem exec_keeps_revoked (P : Primitives) {key t : String} {n : String} {hash : Hash}
    {w : JWTUserClaims} {e : Instant} (hs : SignedWith P (.HMAC n hash) key t w)
    (he : w.toBaseClaims.ExpiresAt = some { Time := e })
    (c : JWTConfig) (τ s : Instant) (hle : τ ≤ s) (call : Call) (hkey : c.SecretKey = key)
    (hinv : c.blacklistedTokens.lookup t = some { Expiry := e } ∨
      (t ∉ c.blacklistedTokens ∧ e < τ)) :
    (call.exec P s c).SecretKey = key ∧
    ((call.exec P s c).blacklistedTokens.lookup t = some { Expiry := e } ∨
      (t ∉ (call.exec P s c).blacklistedTokens ∧ e < s)) := by
  refine ⟨(exec_SecretKey P s c call).trans hkey, ?_⟩
  have hweak : c.blacklistedTokens.lookup t = some { Expiry := e } ∨
      (t ∉ c.blacklistedTokens ∧ e < s) := by
    rcases hinv with h | ⟨h, hlt⟩
    · exact Or.inl h
    · exact Or.inr ⟨h, lt_of_lt_of_le hlt hle⟩
  cases call with
  | RevokeToken t' =>
    simp only [Call.exec]
    cases h : RevokeToken P c s t' with
    | panicked => exact hweak
    | returned rc =>
      obtain ⟨r, c'⟩ := rc
      rcases RevokeToken_returned P c s h with ⟨rfl, -⟩ | ⟨-, uc, ts, hp, -, rfl⟩
      · exact hweak
      · by_cases htt : t = t'
        · subst htt
          exfalso
          obtain ⟨-, hnot, n', hash', w', hs', hval, -⟩ := signed_of_ParseToken P c s hp
          rw [hkey] at hs'
          obtain ⟨-, rfl⟩ := hs.unique hs'
          rcases hweak with hl | ⟨-, hlt⟩
          · exact hnot (AList.lookup_isSome.mp (by rw [hl]; rfl))
          · exact expired_invalid he hlt hval
        · simp only
          rcases hweak with hl | ⟨hnot, hlt⟩
          · left
            rw [AList.lookup_insert_ne htt]
            exact hl
          · right
            refine ⟨fun hm => ?_, hlt⟩
            rcases (AList.mem_insert _).mp hm with h1 | h1
            · exact htt h1
            · exact hnot h1
  | cleanup =>
    simp only [Call.exec]
    have hlook := lookup_cleanupCycle s c t
    rcases hweak with hl | ⟨hnot, hlt⟩
    · rw [hl] at hlook
      by_cases hexp : e < s
      · right
        refine ⟨?_, hexp⟩
        rw [← AList.lookup_eq_none, hlook]
        simp [Instant.Before, hexp]
      · left
        rw [hlook]
        simp [Instant.Before, hexp]
    · right
      refine ⟨?_, hlt⟩
      rw [← AList.lookup_eq_none, hlook, AList.lookup_eq_none.mpr hnot]
  | ParseToken _ => exact hweak
  | GenerateTokenWithClaims _ => exact hweak
  | GenerateTokenPair _ _ _ _ => exact hweak
  | RefreshToken _ _ => exact hweak

/-- A series of calls on a non-decreasing clock keeps what a revocation of `t` has
established, up to the clock value `now` that ends the series. -/
theorem run_keeps_revoked (P : Primitives) {key t : String} {n : String} {hash : Hash}
    {w : JWTUserClaims} {e : Instant} (hs : SignedWith P (.HMAC n hash) key t w)
    (he : w.toBaseClaims.ExpiresAt = some { Time := e }) (now : Instant) :
    ∀ (calls : List (Instant × Call)) (c : JWTConfig) (τ : Instant),
      List.Chain (· ≤ ·) τ (calls.map Prod.fst ++ [now]) → c.SecretKey = key →
      (c.blacklistedTokens.lookup t = some { Expiry := e } ∨ (t ∉ c.blacklistedTokens ∧ e < τ)) →
      (run P c calls).SecretKey = key ∧
      ((run P c calls).blacklistedTokens.lookup t = some { Expiry := e } ∨
        (t ∉ (run P c calls).blacklistedTokens ∧ e < now)) := by
  intro calls
  induction calls with
  | nil =>
    intro c τ hch hkey hinv
    simp only [List.map_nil, List.nil_append, List.chain_cons, List.Chain.nil, and_true] at hch
    refine ⟨hkey, ?_⟩
    rcases hinv with h | ⟨h, hlt⟩
    · exact Or.inl h
    · exact Or.inr ⟨h, lt_of_lt_of_le hlt hch⟩
  | cons x xs ih =>
    intro c τ hch hkey hinv
    simp only [List.map_cons, List.cons_append, List.chain_cons] at hch
    obtain ⟨hk', hinv'⟩ := exec_keeps_revoked P hs he c τ x.1 hch.1 x.2 hkey hinv
    exact ih (x.2.exec P x.1 c) x.1 hch.2 hk' hinv'


/-- The errors of `ParseUnverified` carry the malformed or the unverifiable flag and no inner
`jwt.ErrTokenExpired`: `errors.Is(err, jwt.ErrTokenExpired)` is false for them, and the
signature-invalid flag is not set. -/
theorem ParseUnverified_error (P : Primitives) {t : String} {ve : ValidationError}
    (h : ParseUnverified P t = .error ve) :
    ve.Is .jwtErrTokenExpired = false ∧ ve.Errors &&& ValidationErrorSignatureInvalid = 0 := by
  unfold ParseUnverified at h
  repeat' split at h
  all_goals cases h
  all_goals
    refine ⟨?_, ?_⟩ <;>
      simp [ValidationError.Is, NewValidationError, ValidationErrorMalformed,
        ValidationErrorUnverifiable, ValidationErrorExpired, ValidationErrorSignatureInvalid] <;>
      decide

/-- The method and header of the token `ParseUnverified` builds are those the header segment
names. -/
theorem ParseUnverified_method (P : Primitives) {t p0 p1 p2 : String} {hb : Bytes} {hd : Header}
    {a : String} (hsplit : Split t '.' = [p0, p1, p2]) (h1 : P.DecodeSegment p0 = .ok hb)
    (h2 : P.unmarshalHeader hb = .ok hd) (halg : hd.alg = some a)
    {tok : Token} {parts : List String} (h : ParseUnverified P t = .ok (tok, parts)) :
    GetSigningMethod a = some tok.Method ∧ tok.Header = hd := by
  unfold ParseUnverified at h
  rw [hsplit] at h
  simp only [h1, h2, halg] at h
  repeat' split at h
  all_goals cases h
  exact ⟨by assumption, rfl⟩

/-- The parser on a token whose method is not an HMAC method: the result is the error of
`ParseUnverified`, or the error of the key function, which has not returned the key. -/
theorem ParseWithClaims_other (P : Primitives) (c : JWTConfig) (now : Instant) {t : String}
    (hother : ∀ tok parts, ParseUnverified P t = .ok (tok, parts) → ∃ nm, tok.Method = .other nm) :
    ParseWithClaims P now t (keyFunc c) =
      match ParseUnverified P t with
      | .error ve => .error ve
      | .ok (tok, _) =>
        .error { Inner := some (.unexpectedSigningMethod (tok.Header.alg.getD "")),
                 Errors := ValidationErrorUnverifiable, text := "" } := by
  unfold ParseWithClaims
  cases hp : ParseUnverified P t with
  | error ve => rfl
  | ok r =>
    obtain ⟨tok, parts⟩ := r
    obtain ⟨nm, hm⟩ := hother tok parts hp
    simp [keyFunc, hm]

/-- In a reachable config every key of the blacklist is a token signed with an HMAC method
under the config's key. -/
theorem Reachable.blacklist_signed {P : Primitives} {c : JWTConfig} (h : Reachable P c) :
    ∀ t ∈ c.blacklistedTokens, ∃ n hash w, SignedWith P (.HMAC n hash) c.SecretKey t w := by
  induction h with
  | new cfg c hc =>
    intro t ht
    rw [NewJWTConfig_blacklist hc] at ht
    exact absurd ht (AList.not_mem_empty _)
  | call c now call _ ih =>
    intro t ht
    rw [exec_SecretKey]
    cases call with
    | RevokeToken t' =>
      simp only [Call.exec] at ht
      cases hr : RevokeToken P c now t' with
      | panicked => rw [hr] at ht; exact ih t ht
      | returned rc =>
        obtain ⟨r, c'⟩ := rc
        rw [hr] at ht
        simp only at ht
        rcases RevokeToken_returned P c now hr with ⟨rfl, -⟩ | ⟨-, uc, ts, hp, -, rfl⟩
        · exact ih t ht
        · rcases (AList.mem_insert _).mp ht with rfl | hmem
          · obtain ⟨-, -, n, hash, w, hs, -, -⟩ := signed_of_ParseToken P c now hp
            exact ⟨n, hash, w, hs⟩
          · exact ih t hmem
    | cleanup =>
      simp only [Call.exec] at ht
      apply ih t
      have hsome := AList.lookup_isSome.mpr ht
      rw [lookup_cleanupCycle] at hsome
      cases hl : c.blacklistedTokens.lookup t with
      | none => rw [hl] at hsome; cases hsome
      | some v => exact AList.lookup_isSome.mp (by rw [hl]; rfl)
    | ParseToken _ => exact ih t ht
    | GenerateTokenWithClaims _ => exact ih t ht
    | GenerateTokenPair _ _ _ _ => exact ih t ht
    | RefreshToken _ _ => exact ih t ht

/-- `ParseToken` on a token that is not empty, not blacklisted, and that the parser rejects
with an error in which `errors.Is` does not find `jwt.ErrTokenExpired`. -/
theorem ParseToken_of_rejected (P : Primitives) (c : JWTConfig) (now : Instant) {t : String}
    {ve : ValidationError} (ht : t ≠ "") (hbl : t ∉ c.blacklistedTokens)
    (hp : ParseWithClaims P now t (keyFunc c) = .error ve)
    (hexp : ve.Is .jwtErrTokenExpired = false) :
    ParseToken P c now t = (none, some (.invalid ErrInvalidToken ve)) := by
  have hl : (c.blacklistedTokens.lookup t).isSome = false := by
    cases hx : (c.blacklistedTokens.lookup t).isSome with
    | false => rfl
    | true => exact absurd (AList.lookup_isSome.mp hx) hbl
  simp [ParseToken, ht, hl, hp, hexp]


/-- The parser's first stage on the token signed under faithful primitives. -/
theorem ParseUnverified_signedToken (P : Primitives) (key : String) (claims : Claims)
    (jsonValue : Bytes) (hf : Faithful P key claims jsonValue) :
    ∃ hd, ParseUnverified P (signedToken P key jsonValue) =
      .ok ({ Raw := signedToken P key jsonValue, Method := SigningMethodHS256, Header := hd,
             Claims := claims.wire, Signature := "", Valid := false },
           [headerSegment P, P.EncodeSegment jsonValue, P.EncodeSegment (hs256Mac P key jsonValue)]) := by
  obtain ⟨hd, hh, halg⟩ := hf.header
  have hsplit := Split_three (headerSegment P) (P.EncodeSegment jsonValue)
    (P.EncodeSegment (hs256Mac P key jsonValue)) hf.header_no_dot hf.claims_no_dot
    hf.signature_no_dot
  have hg : GetSigningMethod "HS256" = some SigningMethodHS256 := by decide
  refine ⟨hd, ?_⟩
  simp only [ParseUnverified, signedToken, signingString, hsplit, hf.decode_header, hh,
    hf.decode_claims, hf.unmarshal, halg, hg]

/-- Verification under another key of the token signed under faithful primitives, when the
two MACs differ. -/
theorem Verify_other_key (P : Primitives) (key key' : String) (claims : Claims)
    (jsonValue : Bytes) (hf : Faithful P key claims jsonValue)
    (hmac : hs256Mac P key jsonValue ≠ hs256Mac P key' jsonValue) :
    SigningMethodHS256.Verify P
      (Join ([headerSegment P, P.EncodeSegment jsonValue,
        P.EncodeSegment (hs256Mac P key jsonValue)].take 2) ".")
      ([headerSegment P, P.EncodeSegment jsonValue,
        P.EncodeSegment (hs256Mac P key jsonValue)].getD 2 "") key' = some .signatureInvalid := by
  have hdec := hf.decode_signature
  simp only [SigningMethod.Verify, SigningMethodHS256, List.take, List.getD_cons_succ,
    List.getD_cons_zero]
  rw [hdec]
  have : ¬ hs256Mac P key jsonValue = P.hmacSum .SHA256 key' (Join [headerSegment P, P.EncodeSegment jsonValue] ".") :=
    hmac
  simp [this]


/-- One call keeps the entry of a blacklisted token, unless it is a sweep cycle at a clock
value after the entry's `Expiry`. -/
theorem exec_keeps_entry (P : Primitives) (c : JWTConfig) (s : Instant) (call : Call)
    {t : String} {v : BlacklistedToken} (ht : t ≠ "") (hl : c.blacklistedTokens.lookup t = some v)
    (hsweep : call = .cleanup → s ≤ v.Expiry) :
    (call.exec P s c).blacklistedTokens.lookup t = some v := by
  have hmem : t ∈ c.blacklistedTokens := AList.lookup_isSome.mp (by rw [hl]; rfl)
  cases call with
  | RevokeToken t' =>
    simp only [Call.exec]
    by_cases htt : t' = t
    · subst htt
      rw [RevokeToken_blacklisted P c s ht hmem]
      exact hl
    · cases h : RevokeToken P c s t' with
      | panicked => exact hl
      | returned rc =>
        obtain ⟨r, c'⟩ := rc
        rcases RevokeToken_returned P c s h with ⟨rfl, -⟩ | ⟨-, uc, ts, -, -, rfl⟩
        · exact hl
        · simp only
          rw [AList.lookup_insert_ne (Ne.symm htt)]
          exact hl
  | cleanup =>
    simp only [Call.exec]
    rw [lookup_cleanupCycle, hl]
    have : ¬ v.Expiry < s := not_lt.mpr (hsweep rfl)
    simp [Instant.Before, this]
  | ParseToken _ => exact hl
  | GenerateTokenWithClaims _ => exact hl
  | GenerateTokenPair _ _ _ _ => exact hl
  | RefreshToken _ _ => exact hl

/-- A series of calls keeps the entry of a blacklisted token, when none of its sweep cycles
is at a clock value after the entry's `Expiry`. -/
theorem run_keeps_entry (P : Primitives) {t : String} {v : BlacklistedToken} (ht : t ≠ "") :
    ∀ (calls : List (Instant × Call)) (c : JWTConfig),
      c.blacklistedTokens.lookup t = some v →
      (∀ e ∈ calls, e.2 = .cleanup → e.1 ≤ v.Expiry) →
      (run P c calls).blacklistedTokens.lookup t = some v := by
  intro calls
  induction calls with
  | nil => intro c hl _; exact hl
  | cons x xs ih =>
    intro c hl hsweep
    exact ih (x.2.exec P x.1 c)
      (exec_keeps_entry P c x.1 x.2 ht hl (hsweep x (List.mem_cons_self _ _)))
      (fun e he => hsweep e (List.mem_cons_of_mem _ he))


theorem demo_pair_faithful : Faithful demo "k" (.user (pairClaims "ann")) demoPairJson where
  marshal := rfl
  unmarshal := rfl
  header := ⟨{ typ := some "JWT", alg := some "HS256" }, rfl, rfl⟩
  decode_header := rfl
  decode_claims := rfl
  decode_signature := rfl
  header_no_dot := by decide
  claims_no_dot := by decide
  signature_no_dot := by decide

theorem demo_pair_signed :
    SignedWith demo SigningMethodHS256 demoConfig.SecretKey demoPairToken
      (Claims.user (pairClaims "ann")).wire :=
  (GenerateTokenWithClaims_signed demo demoConfig _ demoPairJson demo_pair_faithful).2

theorem demo_pair_accepted (now : Instant) :
    ParseToken demo demoConfig now demoPairToken = (some (pairClaims "ann"), none) :=
  (ParseToken_of_signed demo demoConfig now demo_pair_signed (AList.not_mem_empty _)).1 rfl

/-- `RevokeToken` on a token that `ParseToken` accepts with claims that carry no
`ExpiresAt`: `claims.ExpiresAt.Time` dereferences the nil `ExpiresAt`. -/
theorem RevokeToken_no_expiry (P : Primitives) (c : JWTConfig) (now : Instant) {t : String}
    {uc : UserClaims} (hp : ParseToken P c now t = (some uc, none))
    (he : uc.toBaseClaims.ExpiresAt = none) : RevokeToken P c now t = .panicked := by
  simp [RevokeToken, hp, he]

/-- `RevokeToken` passes on every error of `ParseToken` but `ErrRevokedToken`, and writes
nothing. -/
theorem RevokeToken_of_error (P : Primitives) (c : JWTConfig) (now : Instant) {t : String}
    {r : Option UserClaims} {e : GoError} (hp : ParseToken P c now t = (r, some e))
    (hne : e ≠ .jwtError ErrRevokedToken) : RevokeToken P c now t = .returned (some e, c) := by
  simp [RevokeToken, hp, hne]

/-- The only error of `ParseToken` that is `ErrRevokedToken` is the one of the blacklist
check. -/
theorem ParseToken_revoked_iff (P : Primitives) (c : JWTConfig) (now : Instant) (t : String) :
    (ParseToken P c now t).2 = some (.jwtError ErrRevokedToken) ↔ t ≠ "" ∧ t ∈ c.blacklistedTokens := by
  constructor
  · intro h
    unfold ParseToken at h
    split at h
    · simp only [Option.some.injEq, GoError.jwtError.injEq] at h
      exact absurd h (by decide)
    · rename_i ht
      split at h
      · rename_i hl
        exact ⟨ht, AList.lookup_isSome.mp hl⟩
      · split at h
        · split at h
          · simp only [Option.some.injEq, GoError.jwtError.injEq] at h
            exact absurd h (by decide)
          · simp at h
        · split at h
          · simp only [Option.some.injEq, GoError.jwtError.injEq] at h
            exact absurd h (by decide)
          · simp at h
  · rintro ⟨ht, hm⟩
    rw [ParseToken_blacklisted P c now ht hm]

/-- In a reachable config every key of the blacklist is a token signed with an HMAC method
under the config's key whose claims carry an `ExpiresAt`, which is the stored `Expiry`. -/
theorem Reachable.blacklist_expiry {P : Primitives} {c : JWTConfig} (h : Reachable P c) :
    ∀ t v, c.blacklistedTokens.lookup t = some v →
      ∃ n hash w, SignedWith P (.HMAC n hash) c.SecretKey t w ∧
        w.toBaseClaims.ExpiresAt = some { Time := v.Expiry } := by
  induction h with
  | new cfg c hc =>
    intro t v ht
    rw [NewJWTConfig_blacklist hc, AList.lookup_empty] at ht
    cases ht
  | call c now call _ ih =>
    intro t v ht
    rw [exec_SecretKey]
    cases call with
    | RevokeToken t' =>
      simp only [Call.exec] at ht
      cases hr : RevokeToken P c now t' with
      | panicked => rw [hr] at ht; exact ih t v ht
      | returned rc =>
        obtain ⟨r, c'⟩ := rc
        rw [hr] at ht
        simp only at ht
        rcases RevokeToken_returned P c now hr with ⟨rfl, -⟩ | ⟨-, uc, ts, hp, hts, rfl⟩
        · exact ih t v ht
        · by_cases htt : t = t'
          · subst htt
            simp only [AList.lookup_insert, Option.some.injEq] at ht
            obtain ⟨-, -, n, hash, w, hs, -, hr'⟩ := signed_of_ParseToken P c now hp
            refine ⟨n, hash, w, hs, ?_⟩
            simp only [Option.some.injEq] at hr'
            rw [hr'] at hts
            rw [← ht]
            exact hts
          · simp only at ht
            rw [AList.lookup_insert_ne htt] at ht
            exact ih t v ht
    | cleanup =>
      simp only [Call.exec] at ht
      rw [lookup_cleanupCycle] at ht
      cases hl : c.blacklistedTokens.lookup t with
      | none => rw [hl] at ht; cases ht
      | some v' =>
        rw [hl] at ht
        simp only at ht
        split at ht
        · cases ht
        · simp only [Option.some.injEq] at ht
          subst ht
          exact ih t v' hl
    | ParseToken _ => exact ih t v ht
    | GenerateTokenWithClaims _ => exact ih t v ht
    | GenerateTokenPair _ _ _ _ => exact ih t v ht
    | RefreshToken _ _ => exact ih t v ht

/-- In a reachable config a signed token whose claims carry no `ExpiresAt` is not a key of the
blacklist. -/
theorem Reachable.no_expiry_not_blacklisted {P : Primitives} {c : JWTConfig} (h : Reachable P c)
    {m : SigningMethod} {key t : String} {w : JWTUserClaims} (hs : SignedWith P m key t w)
    (he : w.toBaseClaims.ExpiresAt = none) : t ∉ c.blacklistedTokens := by
  intro hmem
  cases hl : c.blacklistedTokens.lookup t with
  | none => exact (AList.lookup_eq_none.mp hl) hmem
  | some v =>
    obtain ⟨n, hash, w', hs', he'⟩ := h.blacklist_expiry t v hl
    obtain ⟨-, rfl⟩ := hs.unique hs'
    rw [he] at he'
    cases he'

/-- `GenerateTokenPair` under faithful primitives: both tokens are the signed token of
`pairClaims username`. -/
theorem GenerateTokenPair_signed (P : Primitives) (c : JWTConfig)
    (userID username role fingerprint : String) (jsonValue : Bytes)
    (hf : Faithful P c.SecretKey (.user (pairClaims username)) jsonValue) :
    GenerateTokenPair P c userID username role fingerprint =
      (some { AccessToken := signedToken P c.SecretKey jsonValue,
              RefreshToken := signedToken P c.SecretKey jsonValue }, none) := by
  have hgen := (GenerateTokenWithClaims_signed P c _ jsonValue hf).1
  have hs : SignedString P SigningMethodHS256 (.user (pairClaims username)) c.SecretKey
      = .ok (signedToken P c.SecretKey jsonValue) := by
    unfold GenerateTokenWithClaims at hgen
    cases h : SignedString P SigningMethodHS256 (.user (pairClaims username)) c.SecretKey with
    | error e => rw [h] at hgen; simp at hgen
    | ok tok =>
      rw [h] at hgen
      simp only [Prod.mk.injEq, and_true] at hgen
      rw [hgen]
  have hs' : SignedString P SigningMethodHS256
      (.user { toBaseClaims := { ID := "", Username := username, ExpiresAt := none }, UserID := "" })
      c.SecretKey = .ok (signedToken P c.SecretKey jsonValue) := hs
  simp only [GenerateTokenPair, hs']

/-- `ParseToken`, in a reachable config, on the token of `pairClaims username`. -/
theorem ParseToken_pair_token (P : Primitives) (c : JWTConfig) (hc : Reachable P c)
    (now : Instant) (username : String) (jsonValue : Bytes)
    (hf : Faithful P c.SecretKey (.user (pairClaims username)) jsonValue) :
    ParseToken P c now (signedToken P c.SecretKey jsonValue) = (some (pairClaims username), none) := by
  have hs := (GenerateTokenWithClaims_signed P c _ jsonValue hf).2
  exact (ParseToken_of_signed P c now hs (hc.no_expiry_not_blacklisted hs rfl)).1 rfl

/-- A sweep over entries none of which has expired changes nothing. -/
theorem sweep_fold_id (now : Instant) (l : List (Sigma fun _ : String => BlacklistedToken)) :
    ∀ m : SyncMap, (∀ e ∈ l, e.2.Expiry.Before now = false) →
      l.foldl (fun m e => if e.2.Expiry.Before now then m.erase e.1 else m) m = m := by
  induction l with
  | nil => intro m _; rfl
  | cons e l ih =>
    intro m h
    simp only [List.foldl_cons, h e (List.mem_cons_self _ _), Bool.false_eq_true, if_false]
    exact ih m (fun e' he' => h e' (List.mem_cons_of_mem _ he'))

/-- A second sweep cycle at the same clock value changes nothing. -/
theorem cleanupCycle_idem (now : Instant) (c : JWTConfig) :
    cleanupCycle now (cleanupCycle now c) = cleanupCycle now c := by
  have hkeep : ∀ e ∈ (cleanupCycle now c).blacklistedTokens.entries,
      e.2.Expiry.Before now = false := by
    intro e he
    have hl : e.2 ∈ (cleanupCycle now c).blacklistedTokens.lookup e.1 :=
      AList.mem_lookup_iff.mpr he
    rw [lookup_cleanupCycle] at hl
    cases hc : c.blacklistedTokens.lookup e.1 with
    | none => rw [hc] at hl; cases hl
    | some v =>
      rw [hc] at hl
      simp only at hl
      cases hb : v.Expiry.Before now with
      | true => rw [hb] at hl; cases hl
      | false =>
        rw [hb] at hl
        have : v = e.2 := by simpa using hl
        rw [← this]
        exact hb
  have hfold := sweep_fold_id now (cleanupCycle now c).blacklistedTokens.entries
    (cleanupCycle now c).blacklistedTokens hkeep
  show ({ cleanupCycle now c with blacklistedTokens := _ } : JWTConfig) = _
  rw [hfold]

/-- `RefreshToken` returns: `ParseToken` gives claims whenever its error is nil. -/
theorem RefreshToken_returned (P : Primitives) (c : JWTConfig) (now : Instant)
    (refreshToken fingerprint : String) :
    ∃ r, RefreshToken P c now refreshToken fingerprint = .returned r := by
  unfold RefreshToken
  cases hp : ParseToken P c now refreshToken with
  | mk claims err =>
    cases err with
    | some e => exact ⟨(none, some e), by simp⟩
    | none =>
      obtain ⟨uc, rfl⟩ := ParseToken_none_error P c now hp
      exact ⟨GenerateTokenPair P c uc.toBaseClaims.ID uc.toBaseClaims.Username "" fingerprint,
        by simp⟩


/-- `SignedString` with HS256 returns the signed token as soon as the claims marshal. -/
theorem SignedString_of_marshal (P : Primitives) (claims : Claims) (key : String)
    (jsonValue : Bytes) (hm : P.marshalClaims claims = .ok jsonValue) :
    SignedString P SigningMethodHS256 claims key = .ok (signedToken P key jsonValue) := by
  simp [SignedString, hm, SigningMethod.Sign, SigningMethodHS256, signedToken, signingString,
    headerSegment, hs256Header, hs256Mac]

/-- `RefreshToken` when `ParseToken` accepts the refresh token. -/
theorem RefreshToken_of_accepted (P : Primitives) (c : JWTConfig) (now : Instant)
    {refreshToken : String} (fingerprint : String) {uc : UserClaims}
    (hp : ParseToken P c now refreshToken = (some uc, none)) :
    RefreshToken P c now refreshToken fingerprint =
      .returned (GenerateTokenPair P c uc.toBaseClaims.ID uc.toBaseClaims.Username "" fingerprint) := by
  simp [RefreshToken, hp]

/-- `RefreshToken` when `ParseToken` rejects the refresh token. -/
theorem RefreshToken_of_error (P : Primitives) (c : JWTConfig) (now : Instant)
    {refreshToken : String} (fingerprint : String) {r : Option UserClaims} {e : GoError}
    (hp : ParseToken P c now refreshToken = (r, some e)) :
    RefreshToken P c now refreshToken fingerprint = .returned (none, some e) := by
  simp [RefreshToken, hp]


/-- A key that a call adds to the blacklist is the argument of a `RevokeToken` call that
`ParseToken` accepted at that moment, and the stored `Expiry` is the `ExpiresAt` of the
claims; every other entry of the blacklist after the call was there before it. -/
theorem exec_lookup (P : Primitives) (c : JWTConfig) (now : Instant) (call : Call) {k : String}
    {v : BlacklistedToken} (h : (call.exec P now c).blacklistedTokens.lookup k = some v) :
    c.blacklistedTokens.lookup k = some v ∨
    (call = .RevokeToken k ∧ ∃ uc, ParseToken P c now k = (some uc, none) ∧
      uc.toBaseClaims.ExpiresAt = some { Time := v.Expiry }) := by
  cases call with
  | RevokeToken t' =>
    simp only [Call.exec] at h
    cases hr : RevokeToken P c now t' with
    | panicked => rw [hr] at h; exact Or.inl h
    | returned rc =>
      obtain ⟨r, c'⟩ := rc
      rw [hr] at h
      simp only at h
      rcases RevokeToken_returned P c now hr with ⟨rfl, -⟩ | ⟨-, uc, ts, hp, hts, rfl⟩
      · exact Or.inl h
      · by_cases hk : k = t'
        · subst hk
          simp only [AList.lookup_insert, Option.some.injEq] at h
          right
          refine ⟨rfl, uc, hp, ?_⟩
          rw [hts, ← h]
        · simp only at h
          rw [AList.lookup_insert_ne hk] at h
          exact Or.inl h
  | cleanup =>
    simp only [Call.exec] at h
    rw [lookup_cleanupCycle] at h
    cases hl : c.blacklistedTokens.lookup k with
    | none => rw [hl] at h; cases h
    | some v' =>
      rw [hl] at h
      simp only at h
      split at h
      · cases h
      · exact Or.inl h
  | ParseToken _ => exact Or.inl h
  | GenerateTokenWithClaims _ => exact Or.inl h
  | GenerateTokenPair _ _ _ _ => exact Or.inl h
  | RefreshToken _ _ => exact Or.inl h

/-- A key that a call removes from the blacklist is removed by a sweep cycle. -/
theorem exec_removed (P : Primitives) (c : JWTConfig) (now : Instant) (call : Call) {k : String}
    (hin : k ∈ c.blacklistedTokens) (hout : k ∉ (call.exec P now c).blacklistedTokens) :
    call = .cleanup := by
  cases call with
  | RevokeToken t' =>
    exfalso
    apply hout
    simp only [Call.exec]
    cases hr : RevokeToken P c now t' with
    | panicked => exact hin
    | returned rc =>
      obtain ⟨r, c'⟩ := rc
      rcases RevokeToken_returned P c now hr with ⟨rfl, -⟩ | ⟨-, uc, ts, -, -, rfl⟩
      · exact hin
      · exact (AList.mem_insert _).mpr (Or.inr hin)
  | cleanup => rfl
  | ParseToken _ => exact absurd hin hout
  | GenerateTokenWithClaims _ => exact absurd hin hout
  | GenerateTokenPair _ _ _ _ => exact absurd hin hout
  | RefreshToken _ _ => exact absurd hin hout

theorem demo_HS384_signed :
    SignedWith demo SigningMethodHS384 "k" demoHS384Token demoClaims.wire :=
  ⟨{ Raw := demoHS384Token, Method := SigningMethodHS384,
     Header := { typ := some "JWT", alg := some "HS384" }, Claims := demoClaims.wire,
     Signature := "", Valid := false },
   [demoEncodeSegment (demoBytes "HS384"), demoEncodeSegment demoJson,
    demoEncodeSegment (demoHmacSum .SHA384 "k"
      (Join [demoEncodeSegment (demoBytes "HS384"), demoEncodeSegment demoJson] "."))],
   rfl, rfl, rfl, rfl⟩

theorem demo_HS384_accepted :
    ParseToken demo demoConfig 50 demoHS384Token = (some demoClaims.wire.toUserClaims, none) :=
  (ParseToken_of_signed demo demoConfig 50 demo_HS384_signed (AList.not_mem_empty _)).1 (by decide)

/-- The method of the token `ParseUnverified` builds is a registered one: it is what
`GetSigningMethod` returns for its own name. -/
theorem GetSigningMethod_name {a : String} {m : SigningMethod} (h : GetSigningMethod a = some m) :
    GetSigningMethod m.Alg = some m := by
  unfold GetSigningMethod at h
  split at h
  · cases h; decide
  · split at h
    · cases h; decide
    · split at h
      · cases h; decide
      · split at h
        · rename_i h1 h2 h3 h4
          cases h
          simp only [SigningMethod.Alg, GetSigningMethod, h1, h2, h3, h4, if_false, if_true]
        · cases h

theorem ParseUnverified_registered (P : Primitives) {t : String} {tok : Token}
    {parts : List String} {n : String} {hash : Hash}
    (hp : ParseUnverified P t = .ok (tok, parts)) (hm : tok.Method = .HMAC n hash) :
    GetSigningMethod n = some (.HMAC n hash) := by
  unfold ParseUnverified at hp
  repeat' split at hp
  all_goals cases hp
  rename_i hg
  simp only at hm
  rw [hm] at hg
  exact GetSigningMethod_name hg

theorem len_append (a b : String) : len (a ++ b) = len a + len b := by
  simp [len, String.data_append, List.map_append, List.sum_append]

theorem len_pos_iff (s : String) : 0 < len s ↔ s ≠ "" := by
  obtain ⟨l⟩ := s
  cases l with
  | nil => simp [len]
  | cons c cs =>
    have hc : 0 < c.utf8Size := Char.utf8Size_pos c
    have hne : (⟨c :: cs⟩ : String) ≠ "" := by
      intro h
      have := congrArg String.data h
      simp at this
    simp only [len, List.map_cons, List.sum_cons, ne_eq, hne, not_false_eq_true, iff_true]
    omega

theorem cutFirst_some {α : Type} [DecidableEq α] (sep : α) :
    ∀ (l a b : List α), cutFirst sep l = some (a, b) ↔ (l = a ++ sep :: b ∧ sep ∉ a) := by
  intro l
  induction l with
  | nil =>
    intro a b
    simp [cutFirst]
  | cons c cs ih =>
    intro a b
    by_cases hc : c = sep
    · subst hc
      simp only [cutFirst, if_true, Option.some.injEq, Prod.mk.injEq]
      constructor
      · rintro ⟨rfl, rfl⟩
        simp
      · rintro ⟨h, hn⟩
        cases a with
        | nil =>
          simp only [List.nil_append, List.cons.injEq, true_and] at h
          exact ⟨rfl, h⟩
        | cons x xs =>
          simp only [List.cons_append, List.cons.injEq] at h
          exact absurd (by rw [h.1]; exact List.mem_cons_self _ _) hn
    · simp only [cutFirst, hc, if_false]
      cases hcut : cutFirst sep cs with
      | none =>
        simp only [reduceCtorEq, false_iff, not_and, not_not]
        intro h
        cases a with
        | nil =>
          simp only [List.nil_append, List.cons.injEq] at h
          exact absurd h.1 hc
        | cons x xs =>
          simp only [List.cons_append, List.cons.injEq] at h
          by_contra hn
          have := (ih xs b).mpr ⟨h.2, fun hm => hn (List.mem_cons_of_mem _ hm)⟩
          rw [hcut] at this
          cases this
      | some r =>
        obtain ⟨a', b'⟩ := r
        simp only [Option.some.injEq, Prod.mk.injEq]
        have ih' := (ih a' b').mp hcut
        constructor
        · rintro ⟨rfl, rfl⟩
          refine ⟨by rw [ih'.1]; rfl, ?_⟩
          intro hm
          rcases List.mem_cons.mp hm with h | h
          · exact hc h.symm
          · exact ih'.2 h
        · rintro ⟨h, hn⟩
          cases a with
          | nil =>
            simp only [List.nil_append, List.cons.injEq] at h
            exact absurd h.1 hc
          | cons x xs =>
            simp only [List.cons_append, List.cons.injEq] at h
            have := (ih xs b).mpr ⟨h.2, fun hm => hn (List.mem_cons_of_mem _ hm)⟩
            rw [hcut] at this
            simp only [Option.some.injEq, Prod.mk.injEq] at this
            exact ⟨by rw [h.1, this.1], this.2⟩

/-- `GetAuthorizationToken` returns the rest of a header that starts with the prefix and goes
on after it. -/
theorem GetAuthorizationToken_cut (t : String) (ht : t ≠ "") :
    GetAuthorizationToken ("Bearer " ++ t) = t := by
  have hlen : len ("Bearer " ++ t) > len BearerPrefix := by
    rw [len_append]
    have := (len_pos_iff t).mpr ht
    show len "Bearer " + len t > len "Bearer "
    omega
  have htake : ("Bearer " ++ t).data.take BearerPrefix.data.length = BearerPrefix.data := by
    simp [String.data_append, BearerPrefix]
  have hdrop : ("Bearer " ++ t).data.drop BearerPrefix.data.length = t.data := by
    simp [String.data_append, BearerPrefix]
  simp only [GetAuthorizationToken, hlen, htake, and_self, if_true, hdrop]

/-- A header for which `GetAuthorizationToken` returns a token is the prefix followed by that
token. -/
theorem GetAuthorizationToken_ne_empty (header : String)
    (h : GetAuthorizationToken header ≠ "") :
    header = "Bearer " ++ GetAuthorizationToken header := by
  unfold GetAuthorizationToken at h ⊢
  split
  · rename_i hc
    apply String.ext
    simp only [String.data_append]
    have := List.take_append_drop BearerPrefix.data.length header.data
    rw [hc.2] at this
    exact this.symm
  · rename_i hc
    rw [if_neg hc] at h
    exact absurd rfl h

/-- The handler passes `x` to `ParseToken` exactly for the header `Bearer Bearer x`. -/
theorem bearerArgument_ok_iff (header x : String) :
    bearerArgument header = .ok x ↔ header = "Bearer Bearer " ++ x := by
  constructor
  · intro h
    unfold bearerArgument at h
    simp only at h
    split at h
    · cases h
    · rename_i hne
      split at h
      · cases h
      · rename_i hparts
        simp only [not_or, not_not] at hparts
        have hhead := GetAuthorizationToken_ne_empty header hne
        simp only [Except.ok.injEq] at h
        unfold SplitN2 at hparts h
        cases hcut : cutFirst ' ' (GetAuthorizationToken header).data with
        | none => rw [hcut] at hparts; simp at hparts
        | some r =>
          obtain ⟨a, b⟩ := r
          rw [hcut] at hparts h
          simp only [List.getD_cons_zero, List.getD_cons_succ] at hparts h
          obtain ⟨hdata, -⟩ := (cutFirst_some ' ' _ a b).mp hcut
          have ha : a = "Bearer".data := by
            have := congrArg String.data hparts.2
            simpa using this
          subst h
          rw [hhead]
          apply String.ext
          simp only [String.data_append, hdata, ha]
          rfl
  · rintro rfl
    have htok : GetAuthorizationToken ("Bearer Bearer " ++ x) = "Bearer " ++ x := by
      have : "Bearer Bearer " ++ x = "Bearer " ++ ("Bearer " ++ x) := by
        apply String.ext
        simp [String.data_append]
      rw [this]
      apply GetAuthorizationToken_cut
      intro h
      have := congrArg String.data h
      simp [String.data_append] at this
    have hcut : cutFirst ' ' ("Bearer " ++ x).data = some ("Bearer".data, x.data) := by
      apply (cutFirst_some ' ' _ _ _).mpr
      refine ⟨by simp [String.data_append], by decide⟩
    have hne : ("Bearer " ++ x) ≠ "" := by
      intro h
      have := congrArg String.data h
      simp [String.data_append] at this
    have hs : SplitN2 ("Bearer " ++ x) ' ' = ["Bearer", x] := by
      unfold SplitN2
      rw [hcut]
    unfold bearerArgument
    simp only [htok]
    rw [if_neg hne, hs, if_neg]
    · rfl
    · rintro (h | h)
      · exact h rfl
      · exact h rfl

theorem bearer_prefix_cancel {a b : String} (h : "Bearer " ++ a = "Bearer " ++ b) : a = b := by
  have := congrArg String.data h
  simp only [String.data_append] at this
  exact String.ext (List.append_cancel_left this)

/-- The handler answers a header without a token after the prefix as a missing header. -/
theorem bearerArgument_missing (header : String) (h : GetAuthorizationToken header = "") :
    bearerArgument header = .error "缺少认证头" := by
  simp [bearerArgument, h]

/-- The handler never passes a header that lacks the second prefix on to `ParseToken`: it
answers with the message of the wrong format. -/
theorem bearerArgument_format (t : String) (ht : t ≠ "") (hno : ¬ ∃ x, t = "Bearer " ++ x) :
    bearerArgument ("Bearer " ++ t) = .error "无效的认证头格式" := by
  cases hres : bearerArgument ("Bearer " ++ t) with
  | ok x =>
    have h := (bearerArgument_ok_iff _ x).mp hres
    have h' : "Bearer " ++ t = "Bearer " ++ ("Bearer " ++ x) := by
      rw [h]
      apply String.ext
      simp [String.data_append]
    exact absurd ⟨x, bearer_prefix_cancel h'⟩ hno
  | error message =>
    unfold bearerArgument at hres
    simp only [GetAuthorizationToken_cut t ht] at hres
    rw [if_neg ht] at hres
    split at hres
    · exact hres.symm
    · cases hres

theorem JWTAuth_of_error (parse : String → Option UserClaims × Option GoError) {header : String}
    {message : String} (h : bearerArgument header = .error message) :
    JWTAuth parse header = .returned (.unauthorized message) := by
  simp only [JWTAuth, h]

/-- The flags after the loop of `ValidatePassword`: each is what it was, or set by a rune that
reaches its case of the `switch`. -/
theorem foldl_passwordStep (U : Unicode) (l : List Char) : ∀ f : PasswordFlags,
    (l.foldl (passwordStep U) f).hasUpper = (f.hasUpper || l.any (fun r => U.IsUpper r)) ∧
    (l.foldl (passwordStep U) f).hasLower =
      (f.hasLower || l.any (fun r => !U.IsUpper r && U.IsLower r)) ∧
    (l.foldl (passwordStep U) f).hasNumber =
      (f.hasNumber || l.any (fun r => !U.IsUpper r && !U.IsLower r && U.IsNumber r)) ∧
    (l.foldl (passwordStep U) f).hasSpecial =
      (f.hasSpecial || l.any (fun r => !U.IsUpper r && !U.IsLower r && !U.IsNumber r &&
        (U.IsPunct r || U.IsSymbol r))) := by
  induction l with
  | nil => intro f; simp
  | cons c cs ih =>
    intro f
    obtain ⟨h1, h2, h3, h4⟩ := ih (passwordStep U f c)
    simp only [List.foldl_cons, List.any_cons, h1, h2, h3, h4]
    unfold passwordStep
    cases hU : U.IsUpper c <;> cases hL : U.IsLower c <;> cases hN : U.IsNumber c <;>
      cases hP : U.IsPunct c <;> cases hS : U.IsSymbol c <;> simp [Bool.or_assoc]

theorem usernameLoop_none_iff (U : Unicode) (l : List Char) :
    usernameLoop U l = none ↔ ∀ r ∈ l, U.IsLetter r = true ∨ U.IsNumber r = true := by
  induction l with
  | nil => simp [usernameLoop]
  | cons c cs ih =>
    simp only [usernameLoop, List.mem_cons, forall_eq_or_imp]
    cases hL : U.IsLetter c <;> cases hN : U.IsNumber c <;> simp [ih]

theorem usernameLoop_some (U : Unicode) (l : List Char) (e : AuthError)
    (h : usernameLoop U l = some e) : e = NewAuthError ErrCodeUsernameValidationFailed := by
  induction l with
  | nil => simp [usernameLoop] at h
  | cons c cs ih =>
    simp only [usernameLoop] at h
    split at h
    · simp only [Option.some.injEq] at h
      exact h.symm
    · exact ih h

theorem int32_of_range (x : Int) (h1 : -2147483648 ≤ x) (h2 : x < 2147483648) : int32 x = x := by
  unfold int32
  omega

theorem countFailing_cons (call : BreakerCall) (calls : List BreakerCall) :
    countFailing (call :: calls) = (if call.failing then 1 else 0) + countFailing calls := by
  unfold countFailing
  cases h : call.failing
  · simp [List.filter_cons, h]
  · simp [List.filter_cons, h]
    omega

theorem exec_options (cb : DefaultCircuitBreaker) (call : BreakerCall) :
    (call.exec cb).options = cb.options := by
  cases call with
  | Reset => rfl
  | Execute now ctx result =>
    simp only [BreakerCall.exec, Execute, executeCommand]
    cases cb.state <;> cases ctx <;> cases result <;> simp <;> (repeat' split) <;> rfl

/-- `Execute` from `cb.calls.Add(1)` on keeps the invariant, when it starts in a state that is
not open and a failing command does not wrap the counter; the counter grows by at most one,
and only by a failing command. -/
theorem executeCommand_inv (cb : DefaultCircuitBreaker) (now : Instant) (ctx : Option String)
    (result : Option String) (hinv : BreakerInv cb) (hstate : cb.state ≠ .StateOpen)
    (hmax : 1 ≤ cb.options.MaxFailures)
    (hwrap : (BreakerCall.Execute now ctx result).failing = true →
      cb.failures + 1 < 2147483648) :
    BreakerInv (executeCommand cb now ctx result).1 ∧
    (executeCommand cb now ctx result).1.failures ≤
      cb.failures + (if (BreakerCall.Execute now ctx result).failing then 1 else 0) := by
  obtain ⟨h0, hiff⟩ := hinv
  cases ctx with
  | some ctxErr =>
    simp only [executeCommand, BreakerInv, BreakerCall.failing]
    exact ⟨⟨h0, hiff⟩, by simp⟩
  | none =>
    cases result with
    | none =>
      simp only [executeCommand, BreakerInv, BreakerCall.failing, Bool.false_eq_true, if_false]
      refine ⟨⟨le_refl 0, ?_⟩, by simpa using h0⟩
      have hst : (if cb.state = State.StateHalfOpen then
          ({ cb with calls := int32 (cb.calls + 1), state := State.StateClosed } : DefaultCircuitBreaker)
          else { cb with calls := int32 (cb.calls + 1) }).state = State.StateClosed := by
        cases hs : cb.state with
        | StateClosed => simp [hs]
        | StateHalfOpen => simp
        | StateOpen => exact absurd hs hstate
      have hopt : (if cb.state = State.StateHalfOpen then
          ({ cb with calls := int32 (cb.calls + 1), state := State.StateClosed } : DefaultCircuitBreaker)
          else { cb with calls := int32 (cb.calls + 1) }).options = cb.options := by
        split <;> rfl
      simp only [hst, hopt, true_iff]
      omega
    | some err =>
      have hw : cb.failures + 1 < 2147483648 := hwrap rfl
      have hf : int32 (cb.failures + 1) = cb.failures + 1 :=
        int32_of_range _ (by omega) hw
      simp only [executeCommand, BreakerInv, BreakerCall.failing, hf, if_true, ge_iff_le]
      by_cases hge : cb.options.MaxFailures ≤ cb.failures + 1
      · rw [if_pos hge]
        simp only [reduceCtorEq, false_iff, not_lt]
        exact ⟨⟨by omega, hge⟩, le_refl _⟩
      · rw [if_neg hge]
        simp only
        refine ⟨⟨by omega, ?_⟩, le_refl _⟩
        have hlt : cb.failures < cb.options.MaxFailures := by omega
        have hc : cb.state = .StateClosed := hiff.mpr hlt
        simp only [hc, true_iff]
        omega

/-- One call keeps the invariant, as long as a failing command does not wrap the counter. -/
theorem exec_inv (cb : DefaultCircuitBreaker) (call : BreakerCall) (hinv : BreakerInv cb)
    (hmax : 1 ≤ cb.options.MaxFailures)
    (hwrap : call.failing = true → cb.failures + 1 < 2147483648) :
    BreakerInv (call.exec cb) ∧
    (call.exec cb).failures ≤ cb.failures + (if call.failing then 1 else 0) := by
  have hkeep : cb.failures ≤ cb.failures + (if call.failing then 1 else 0) := by
    split <;> omega
  cases call with
  | Reset =>
    simp only [BreakerCall.exec, Reset, BreakerInv, BreakerCall.failing]
    refine ⟨⟨le_refl 0, ?_⟩, by simpa using hinv.1⟩
    simp only [true_iff]
    omega
  | Execute now ctx result =>
    simp only [BreakerCall.exec, Execute]
    cases hs : cb.state with
    | StateClosed =>
      simp only
      exact executeCommand_inv cb now ctx result hinv (by rw [hs]; simp) hmax hwrap
    | StateHalfOpen =>
      simp only
      split
      · exact ⟨hinv, hkeep⟩
      · exact executeCommand_inv cb now ctx result hinv (by rw [hs]; simp) hmax hwrap
    | StateOpen =>
      simp only
      split
      · have hge : ¬ cb.failures < cb.options.MaxFailures := by
          intro hlt
          have := hinv.2.mpr hlt
          rw [hs] at this
          cases this
        have hinv' : BreakerInv { cb with state := .StateHalfOpen, calls := 0 } := by
          refine ⟨hinv.1, ?_⟩
          simp only [reduceCtorEq, false_iff]
          exact hge
        exact executeCommand_inv { cb with state := .StateHalfOpen, calls := 0 } now ctx
          result hinv' (by simp) hmax hwrap
      · exact ⟨hinv, hkeep⟩

/-- A series of calls with fewer failing commands than the counter has room for keeps the
invariant. -/
theorem runBreaker_inv : ∀ (calls : List BreakerCall) (cb : DefaultCircuitBreaker),
    BreakerInv cb → 1 ≤ cb.options.MaxFailures → cb.failures + countFailing calls < 2147483648 →
    BreakerInv (runBreaker cb calls) ∧ (runBreaker cb calls).options = cb.options := by
  intro calls
  induction calls with
  | nil => intro cb h _ _; exact ⟨h, rfl⟩
  | cons call calls ih =>
    intro cb hinv hmax hcount
    rw [countFailing_cons] at hcount
    have hnn : 0 ≤ countFailing calls := by unfold countFailing; omega
    have hwrap : call.failing = true → cb.failures + 1 < 2147483648 := by
      intro hfail
      rw [if_pos hfail] at hcount
      omega
    obtain ⟨hinv', hle⟩ := exec_inv cb call hinv hmax hwrap
    obtain ⟨h1, h2⟩ := ih (call.exec cb) hinv' (by rw [exec_options]; exact hmax) (by omega)
    exact ⟨h1, by rw [← exec_options cb call]; exact h2⟩

theorem failingSeries_succ (n : Nat) : failingSeries (n + 1) = failingSeries n ++ [failingAt n] := by
  simp [failingSeries, List.range_succ]

theorem runBreaker_append (cb : DefaultCircuitBreaker) (xs ys : List BreakerCall) :
    runBreaker cb (xs ++ ys) = runBreaker (runBreaker cb xs) ys := by
  simp [runBreaker, List.foldl_append]

theorem Since_of_range (now t : Instant) (h1 : -9223372036854775808 ≤ now - t)
    (h2 : now - t ≤ 9223372036854775807) : Since now t = now - t := by
  have e1 : ¬ now - t > 9223372036854775807 := not_lt.mpr h2
  have e2 : ¬ now - t < -9223372036854775808 := not_lt.mpr h1
  unfold Since
  rw [if_neg e1, if_neg e2]

/-- The breaker of `demoOptions` after `k + 1` failing commands two nanoseconds apart, while
the counter has not wrapped: it is open and has counted every one of them. -/
theorem runBreaker_failingSeries (k : Nat) (hk : k + 1 < 2147483648) :
    runBreaker (NewCircuitBreaker (some demoOptions)) (failingSeries (k + 1)) =
      { state := .StateOpen, options := demoOptions, failures := (k : Int) + 1,
        lastFailure := 2 * ((k : Int) + 1), calls := 1 } := by
  induction k with
  | zero => rfl
  | succ k ih =>
    rw [failingSeries_succ, runBreaker_append, ih (by omega)]
    have hf : int32 ((k : Int) + 1 + 1) = (k : Int) + 1 + 1 :=
      int32_of_range _ (by omega) (by omega)
    have hdiff : (2 * (((k + 1 : Nat) : Int) + 1) - 2 * ((k : Int) + 1) : Int) = 2 := by
      push_cast
      ring
    have hsince : Since (2 * (((k + 1 : Nat) : Int) + 1)) (2 * ((k : Int) + 1)) = 2 := by
      rw [Since_of_range _ _ (by rw [hdiff]; decide) (by rw [hdiff]; decide)]
      exact hdiff
    have hmax : (1 : Int) ≤ (k : Int) + 1 + 1 := by omega
    simp only [runBreaker, List.foldl_cons, List.foldl_nil, failingAt, BreakerCall.exec, Execute,
      executeCommand, demoOptions, hsince, hf, ge_iff_le, hmax]
    simp [int32]

/-- The breaker of `demoOptions` after 2^31 failing commands two nanoseconds apart: the last
one wraps the `int32` counter, and the breaker is left half-open. -/
theorem runBreaker_failingSeries_wrap :
    runBreaker (NewCircuitBreaker (some demoOptions)) (failingSeries (2147483647 + 1)) =
      { state := .StateHalfOpen, options := demoOptions, failures := -2147483648,
        lastFailure := 4294967296, calls := 1 } := by
  rw [failingSeries_succ, runBreaker_append]
  rw [runBreaker_failingSeries 2147483646 (by norm_num)]
  simp only [runBreaker, List.foldl_cons, List.foldl_nil, failingAt, BreakerCall.exec, Execute,
    executeCommand, demoOptions]
  norm_num [int32, Since]

/-! ## The claims -/

/-- C1 -- round trip. For a config as `NewJWTConfig` returns it (so with an empty blacklist),
primitives that are faithful at the config's key and the claims `claims`, and an expiry that
is absent or not before `now`: `GenerateTokenWithClaims` returns a token with a nil error, and
`ParseToken` of that token returns claims with a nil error whose `ID` and `Username` are
those of `claims`, and whose `UserID` is that of `claims` when `claims` is a `UserClaims` or
a `JWTUserClaims`. -/
theorem ParseToken_GenerateTokenWithClaims (P : Primitives) (cfg c : JWTConfig)
    (hc : NewJWTConfig (some cfg) = some c) (now : Instant) (claims : Claims) (jsonValue : Bytes)
    (hf : Faithful P c.SecretKey claims jsonValue) (hexp : notExpired now claims.toBaseClaims) :
    ∃ t r, GenerateTokenWithClaims P c claims = (t, none) ∧ ParseToken P c now t = (some r, none) ∧
      r.toBaseClaims.ID = claims.toBaseClaims.ID ∧
      r.toBaseClaims.Username = claims.toBaseClaims.Username ∧
      (∀ u, claims = .user u → r.UserID = u.UserID) ∧
      (∀ j, claims = .jwtUser j → r.UserID = j.UserID) := by
  obtain ⟨hgen, hsigned⟩ := GenerateTokenWithClaims_signed P c claims jsonValue hf
  have hbl : signedToken P c.SecretKey jsonValue ∉ c.blacklistedTokens := by
    rw [NewJWTConfig_blacklist hc]
    exact AList.not_mem_empty _
  have hvalid : claims.wire.Valid now = none :=
    notExpired_valid (by rw [Claims.wire_toBaseClaims]; exact hexp)
  refine ⟨_, _, hgen, (ParseToken_of_signed P c now hsigned hbl).1 hvalid, ?_, ?_, ?_, ?_⟩
  · simp [JWTUserClaims.toUserClaims, Claims.wire_toBaseClaims]
  · simp [JWTUserClaims.toUserClaims, Claims.wire_toBaseClaims]
  · rintro u rfl
    rfl
  · rintro j rfl
    rfl

theorem ParseToken_GenerateTokenWithClaims_witness :
    ∃ t r, GenerateTokenWithClaims demo demoConfig demoClaims = (t, none) ∧
      ParseToken demo demoConfig 50 t = (some r, none) ∧
      r.toBaseClaims.ID = demoClaims.toBaseClaims.ID ∧
      r.toBaseClaims.Username = demoClaims.toBaseClaims.Username ∧
      (∀ u, demoClaims = .user u → r.UserID = u.UserID) ∧
      (∀ j, demoClaims = .jwtUser j → r.UserID = j.UserID) :=
  ParseToken_GenerateTokenWithClaims demo demoConfig demoConfig demoConfig_new 50 demoClaims
    demoJson demo_faithful (by intro ts h; cases h; decide)

/-- C2, as stated, fails once a sweep cycle has run after the expiry of the token. In the
config that `NewJWTConfig` returns for `demoConfig`, `ParseToken` accepts `demoToken` at clock
value 50 with an `ExpiresAt` of 100 and `RevokeToken` returns nil and stores the entry; the
sweep cycle at 120 removes the entry, and `ParseToken` of the token at 130 returns the error
of the failed expiry check, which wraps `ErrInvalidToken` and is not `ErrRevokedToken`. -/
theorem revoked_then_swept :
    NewJWTConfig (some demoConfig) = some demoConfig ∧
    ParseToken demo demoConfig 50 demoToken = (some demoClaims.wire.toUserClaims, none) ∧
    demoClaims.wire.toUserClaims.toBaseClaims.ExpiresAt = some { Time := 100 } ∧
    RevokeToken demo demoConfig 50 demoToken = .returned (none, demoRevokedToken) ∧
    demoRevokedToken.blacklistedTokens.lookup demoToken = some { Expiry := 100 } ∧
    demoToken ∉ (run demo demoRevokedToken [(120, .cleanup)]).blacklistedTokens ∧
    ParseToken demo (run demo demoRevokedToken [(120, .cleanup)]) 130 demoToken
      = (none, some claimsInvalidError) ∧
    claimsInvalidError ≠ .jwtError ErrRevokedToken ∧
    claimsInvalidError.Is (.jwtError ErrRevokedToken) = false := by
  have hrun : run demo demoRevokedToken [(120, .cleanup)] = cleanupCycle 120 demoRevokedToken :=
    rfl
  have hl : demoRevokedToken.blacklistedTokens.lookup demoToken = some { Expiry := 100 } :=
    AList.lookup_insert _
  have hnot : demoToken ∉ (cleanupCycle 120 demoRevokedToken).blacklistedTokens := by
    rw [← AList.lookup_eq_none, lookup_cleanupCycle, hl]
    rfl
  have hs : SignedWith demo SigningMethodHS256 (cleanupCycle 120 demoRevokedToken).SecretKey
      demoToken demoClaims.wire := demo_signed
  rw [hrun]
  exact ⟨demoConfig_new, demo_accepted, rfl,
    RevokeToken_of_accepted demo demoConfig 50 demo_accepted rfl, hl, hnot,
    (ParseToken_of_signed demo _ 130 hs hnot).2 (expired_invalid rfl (by decide)),
    by decide, by decide⟩

/-- C2, amended -- revocation takes effect. When `ParseToken` accepts `t` at `now` and the
claims carry an `ExpiresAt`, `RevokeToken(t)` returns nil; in the config it leaves, the
blacklist maps `t` to a `BlacklistedToken` whose `Expiry` is the token's `ExpiresAt`; and
`ParseToken(t)` returns nil claims and `ErrRevokedToken` at every clock value, in that config
and in every config that a series of calls makes of it in which no sweep cycle runs after the
expiry. -/
theorem RevokeToken_effective (P : Primitives) (c : JWTConfig) (now : Instant) (t : String)
    (uc : UserClaims) (ts : TimeStamp) (hp : ParseToken P c now t = (some uc, none))
    (he : uc.toBaseClaims.ExpiresAt = some ts) :
    ∃ c', RevokeToken P c now t = .returned (none, c') ∧
      c'.blacklistedTokens.lookup t = some { Expiry := ts.Time } ∧
      (∀ later, ParseToken P c' later t = (none, some (.jwtError ErrRevokedToken))) ∧
      ∀ calls : List (Instant × Call), (∀ e ∈ calls, e.2 = .cleanup → e.1 ≤ ts.Time) →
        ∀ later, ParseToken P (run P c' calls) later t = (none, some (.jwtError ErrRevokedToken)) := by
  have ht : t ≠ "" := (signed_of_ParseToken P c now hp).1
  have hrun : ∀ calls : List (Instant × Call), (∀ e ∈ calls, e.2 = .cleanup → e.1 ≤ ts.Time) →
      ∀ later, ParseToken P
        (run P { c with blacklistedTokens := c.blacklistedTokens.insert t { Expiry := ts.Time } } calls)
        later t = (none, some (.jwtError ErrRevokedToken)) := by
    intro calls hsweep later
    have hl := run_keeps_entry P ht calls
      { c with blacklistedTokens := c.blacklistedTokens.insert t { Expiry := ts.Time } }
      (AList.lookup_insert _) hsweep
    exact ParseToken_blacklisted P _ later ht (AList.lookup_isSome.mp (by rw [hl]; rfl))
  exact ⟨_, RevokeToken_of_accepted P c now hp he, AList.lookup_insert _,
    fun later => hrun [] (fun _ h => absurd h (List.not_mem_nil _)) later, hrun⟩

theorem RevokeToken_effective_witness :
    ∃ c', RevokeToken demo demoConfig 50 demoToken = .returned (none, c') ∧
      c'.blacklistedTokens.lookup demoToken = some { Expiry := 100 } ∧
      (∀ later, ParseToken demo c' later demoToken = (none, some (.jwtError ErrRevokedToken))) ∧
      ∀ calls : List (Instant × Call), (∀ e ∈ calls, e.2 = .cleanup → e.1 ≤ 100) →
        ∀ later, ParseToken demo (run demo c' calls) later demoToken =
          (none, some (.jwtError ErrRevokedToken)) :=
  RevokeToken_effective demo demoConfig 50 demoToken demoClaims.wire.toUserClaims { Time := 100 }
    demo_accepted rfl

/-- C3 -- revocation priority. For a non-empty token string that is a key of the blacklist,
`ParseToken` returns nil claims and `ErrRevokedToken`, whatever the primitives (so whether or
not the signature verifies), the clock value (so expired or not) and the stored entry are;
that error is neither `ErrExpiredToken` nor `ErrInvalidToken`. -/
theorem revocation_priority (P : Primitives) (c : JWTConfig) (now : Instant) (t : String)
    (ht : t ≠ "") (hm : t ∈ c.blacklistedTokens) :
    ParseToken P c now t = (none, some (.jwtError ErrRevokedToken)) ∧
      GoError.Is (.jwtError ErrRevokedToken) (.jwtError ErrExpiredToken) = false ∧
      GoError.Is (.jwtError ErrRevokedToken) (.jwtError ErrInvalidToken) = false :=
  ⟨ParseToken_blacklisted P c now ht hm, by decide, by decide⟩

theorem revocation_priority_witness :
    ParseToken demo demoRevoked 50 "x.y" = (none, some (.jwtError ErrRevokedToken)) ∧
      GoError.Is (.jwtError ErrRevokedToken) (.jwtError ErrExpiredToken) = false ∧
      GoError.Is (.jwtError ErrRevokedToken) (.jwtError ErrInvalidToken) = false :=
  revocation_priority demo demoRevoked 50 "x.y" (by decide)
    ((AList.mem_insert _).mpr (Or.inl rfl))

/-- C4 -- a revoked token is never accepted again. After `RevokeToken(t)` has returned nil at
`now₀` (so `ParseToken` accepted `t` there, with claims that carry an `ExpiresAt`), let any
series of calls (`RevokeToken`, `ParseToken`, `GenerateTokenWithClaims`, `GenerateTokenPair`,
`RefreshToken`, sweep cycles) run on a non-decreasing clock, and let `ParseToken(t)` follow
at `now`. Then the entry of `t` is still in the blacklist with the token's expiry and
`ParseToken(t)` returns nil claims and `ErrRevokedToken`; or the entry is gone, the token's
expiry is before `now`, and `ParseToken(t)` returns nil claims and the error of the failed
expiry check. -/
theorem revoked_never_accepted (P : Primitives) (c₀ : JWTConfig) (now₀ : Instant) (t : String)
    (c₁ : JWTConfig) (hrev : RevokeToken P c₀ now₀ t = .returned (none, c₁))
    (calls : List (Instant × Call)) (now : Instant)
    (hclock : List.Chain (· ≤ ·) now₀ (calls.map Prod.fst ++ [now])) :
    ∃ uc ts, ParseToken P c₀ now₀ t = (some uc, none) ∧ uc.toBaseClaims.ExpiresAt = some ts ∧
      (((run P c₁ calls).blacklistedTokens.lookup t = some { Expiry := ts.Time } ∧
          ParseToken P (run P c₁ calls) now t = (none, some (.jwtError ErrRevokedToken))) ∨
        (t ∉ (run P c₁ calls).blacklistedTokens ∧ ts.Time < now ∧
          ParseToken P (run P c₁ calls) now t = (none, some claimsInvalidError))) := by
  rcases RevokeToken_returned P c₀ now₀ hrev with ⟨-, hne⟩ | ⟨-, uc, ts, hp, hts, rfl⟩
  · exact absurd rfl hne
  · obtain ⟨ht, -, n, hash, w, hs, -, hr⟩ := signed_of_ParseToken P c₀ now₀ hp
    have hw : w.toBaseClaims.ExpiresAt = some { Time := ts.Time } := by
      simp only [Option.some.injEq] at hr
      rw [hr] at hts
      exact hts
    obtain ⟨hkey, hinv⟩ := run_keeps_revoked P hs hw now calls
      { c₀ with blacklistedTokens := c₀.blacklistedTokens.insert t { Expiry := ts.Time } }
      now₀ hclock rfl (Or.inl (AList.lookup_insert _))
    refine ⟨uc, ts, hp, hts, ?_⟩
    rcases hinv with hl | ⟨hnot, hlt⟩
    · left
      exact ⟨hl, ParseToken_blacklisted P _ now ht (AList.lookup_isSome.mp (by rw [hl]; rfl))⟩
    · right
      rw [← hkey] at hs
      exact ⟨hnot, hlt, (ParseToken_of_signed P _ now hs hnot).2 (expired_invalid hw hlt)⟩

theorem revoked_never_accepted_witness :
    ∃ uc ts, ParseToken demo demoConfig 50 demoToken = (some uc, none) ∧
      uc.toBaseClaims.ExpiresAt = some ts ∧
      (((run demo demoRevokedToken demoCalls).blacklistedTokens.lookup demoToken
            = some { Expiry := ts.Time } ∧
          ParseToken demo (run demo demoRevokedToken demoCalls) 130 demoToken
            = (none, some (.jwtError ErrRevokedToken))) ∨
        (demoToken ∉ (run demo demoRevokedToken demoCalls).blacklistedTokens ∧ ts.Time < 130 ∧
          ParseToken demo (run demo demoRevokedToken demoCalls) 130 demoToken
            = (none, some claimsInvalidError))) :=
  revoked_never_accepted demo demoConfig 50 demoToken demoRevokedToken
    (RevokeToken_of_accepted demo demoConfig 50 demo_accepted rfl) demoCalls 130
    (by simp [demoCalls])

/-- C5 -- what the code does with an expired token. For a token that is not blacklisted and
is signed with HS256 under the config's key, with an `ExpiresAt` before `now`, `ParseToken`
returns the error that wraps `ErrInvalidToken` around the parser's claims-invalid error: it
is not `ErrExpiredToken`, and `errors.Is` finds `ErrInvalidToken` in it and not
`ErrExpiredToken`. -/
theorem ParseToken_expired (P : Primitives) (c : JWTConfig) (now : Instant) (t : String)
    (w : JWTUserClaims) (ts : TimeStamp)
    (hs : SignedWith P SigningMethodHS256 c.SecretKey t w) (hbl : t ∉ c.blacklistedTokens)
    (he : w.toBaseClaims.ExpiresAt = some ts) (hpast : ts.Time < now) :
    ParseToken P c now t = (none, some claimsInvalidError) ∧
      claimsInvalidError ≠ .jwtError ErrExpiredToken ∧
      claimsInvalidError.Is (.jwtError ErrExpiredToken) = false ∧
      claimsInvalidError.Is (.jwtError ErrInvalidToken) = true :=
  ⟨(ParseToken_of_signed P c now hs hbl).2 (expired_invalid he hpast), by decide, by decide,
    by decide⟩

theorem ParseToken_expired_witness :
    ParseToken demo demoConfig 101 demoToken = (none, some claimsInvalidError) ∧
      claimsInvalidError ≠ .jwtError ErrExpiredToken ∧
      claimsInvalidError.Is (.jwtError ErrExpiredToken) = false ∧
      claimsInvalidError.Is (.jwtError ErrInvalidToken) = true :=
  ParseToken_expired demo demoConfig 101 demoToken demoClaims.wire
    { Time := 100 } demo_signed (AList.not_mem_empty _) rfl (by decide)

/-- C6 -- a token is valid while `now` is before its expiry and it is not in the blacklist. A
token that is signed with HS256 under the config's key, is not a key of the blacklist and
has an `ExpiresAt` strictly after `now` is accepted by `ParseToken`: nil error, and the
decoded claims. -/
theorem ParseToken_valid (P : Primitives) (c : JWTConfig) (now : Instant) (t : String)
    (w : JWTUserClaims) (ts : TimeStamp)
    (hs : SignedWith P SigningMethodHS256 c.SecretKey t w) (hbl : t ∉ c.blacklistedTokens)
    (he : w.toBaseClaims.ExpiresAt = some ts) (hfuture : now < ts.Time) :
    ParseToken P c now t = (some w.toUserClaims, none) := by
  refine (ParseToken_of_signed P c now hs hbl).1 (notExpired_valid ?_)
  intro ts' he'
  rw [he] at he'
  cases he'
  exact lt_asymm hfuture

theorem ParseToken_valid_witness :
    ParseToken demo demoConfig 99 demoToken =
      (some demoClaims.wire.toUserClaims, none) :=
  ParseToken_valid demo demoConfig 99 demoToken demoClaims.wire
    { Time := 100 } demo_signed (AList.not_mem_empty _) rfl (by decide)

/-- C7 -- algorithm substitution rejection. In a reachable config, for a token string of
three segments whose header decodes and names an algorithm `a` that is not one of the HMAC
methods (registered like `none` and `RS256`, or not registered at all), whatever the payload
and signature segments are: `ParseToken` returns nil claims and an error that wraps
`ErrInvalidToken` (`errors.Is` finds it), without the signature-invalid flag; the key
function returns its error and not the key for the token the parser built; and the result is
the same under every secret key and every MAC function. -/
theorem algorithm_substitution_rejected (P : Primitives) (c : JWTConfig) (hc : Reachable P c)
    (now : Instant) (t p0 p1 p2 : String) (hb : Bytes) (hd : Header) (a : String)
    (hsplit : Split t '.' = [p0, p1, p2]) (h1 : P.DecodeSegment p0 = .ok hb)
    (h2 : P.unmarshalHeader hb = .ok hd) (halg : hd.alg = some a)
    (hnon : ∀ n hash, GetSigningMethod a ≠ some (.HMAC n hash)) :
    (∃ ve, ParseToken P c now t = (none, some (.invalid ErrInvalidToken ve)) ∧
      (GoError.invalid ErrInvalidToken ve).Is (.jwtError ErrInvalidToken) = true ∧
      ve.Errors &&& ValidationErrorSignatureInvalid = 0) ∧
    (∀ tok parts, ParseUnverified P t = .ok (tok, parts) →
      keyFunc c tok = .error (.unexpectedSigningMethod a)) ∧
    (∀ (key : String) (hm : Hash → String → String → Bytes),
      ParseToken { P with hmacSum := hm } { c with SecretKey := key } now t =
        ParseToken P c now t) := by
  have hother : ∀ tok parts, ParseUnverified P t = .ok (tok, parts) →
      (∃ nm, tok.Method = .other nm) ∧ tok.Header.alg = some a := by
    intro tok parts hp
    obtain ⟨hm, hh⟩ := ParseUnverified_method P hsplit h1 h2 halg hp
    refine ⟨?_, by rw [hh]; exact halg⟩
    cases hmeth : tok.Method with
    | HMAC n hash => rw [hmeth] at hm; exact absurd hm (hnon n hash)
    | other nm => exact ⟨nm, rfl⟩
  have ht : t ≠ "" := by
    rintro rfl
    rw [Split_empty] at hsplit
    cases hsplit
  have hbl : t ∉ c.blacklistedTokens := by
    intro hmem
    obtain ⟨n, hash, w, tok, parts, hp, hm, -⟩ := hc.blacklist_signed t hmem
    obtain ⟨⟨nm, hnm⟩, -⟩ := hother tok parts hp
    rw [hm] at hnm
    cases hnm
  have hparse : ∀ (c' : JWTConfig),
      ∃ ve, ParseWithClaims P now t (keyFunc c') = .error ve ∧
        ve.Is .jwtErrTokenExpired = false ∧ ve.Errors &&& ValidationErrorSignatureInvalid = 0 ∧
        ParseWithClaims P now t (keyFunc c) = .error ve := by
    intro c'
    rw [ParseWithClaims_other P c' now (fun tok parts hp => (hother tok parts hp).1),
      ParseWithClaims_other P c now (fun tok parts hp => (hother tok parts hp).1)]
    cases hp : ParseUnverified P t with
    | error ve =>
      obtain ⟨h3, h4⟩ := ParseUnverified_error P hp
      exact ⟨ve, rfl, h3, h4, rfl⟩
    | ok r =>
      refine ⟨_, rfl, ?_, ?_, rfl⟩
      · simp only [ValidationError.Is, ValidationErrorUnverifiable, ValidationErrorExpired]
        simp only [Option.some.injEq, reduceCtorEq, if_false]
        decide
      · simp only [ValidationErrorUnverifiable, ValidationErrorSignatureInvalid]
        decide
  refine ⟨?_, ?_, ?_⟩
  · obtain ⟨ve, hp, hexp, hsig, -⟩ := hparse c
    exact ⟨ve, ParseToken_of_rejected P c now ht hbl hp hexp, by simp [GoError.Is, GoError.Unwrap],
      hsig⟩
  · intro tok parts hp
    obtain ⟨⟨nm, hnm⟩, hal⟩ := hother tok parts hp
    simp [keyFunc, hnm, hal]
  · intro key hm
    obtain ⟨ve, hp', hexp, -, hp⟩ := hparse { c with SecretKey := key }
    rw [ParseToken_of_rejected P c now ht hbl hp hexp]
    have hl : (c.blacklistedTokens.lookup t).isSome = false := by
      cases hx : (c.blacklistedTokens.lookup t).isSome with
      | false => rfl
      | true => exact absurd (AList.lookup_isSome.mp hx) hbl
    have hp'' : ParseWithClaims { P with hmacSum := hm } now t (keyFunc { c with SecretKey := key })
        = .error ve := by
      rw [← hp']
      unfold ParseWithClaims
      have hu : ParseUnverified { P with hmacSum := hm } t = ParseUnverified P t := rfl
      rw [hu]
      cases hpu : ParseUnverified P t with
      | error e => rfl
      | ok r =>
        obtain ⟨tok, parts⟩ := r
        obtain ⟨⟨nm, hnm⟩, -⟩ := hother tok parts hpu
        simp [keyFunc, hnm]
    simp [ParseToken, ht, hl, hp'', hexp]

theorem algorithm_substitution_rejected_witness :
    (∃ ve, ParseToken demo demoConfig 50 demoNoneToken = (none, some (.invalid ErrInvalidToken ve)) ∧
      (GoError.invalid ErrInvalidToken ve).Is (.jwtError ErrInvalidToken) = true ∧
      ve.Errors &&& ValidationErrorSignatureInvalid = 0) ∧
    (∀ tok parts, ParseUnverified demo demoNoneToken = .ok (tok, parts) →
      keyFunc demoConfig tok = .error (.unexpectedSigningMethod "none")) ∧
    (∀ (key : String) (hm : Hash → String → String → Bytes),
      ParseToken { demo with hmacSum := hm } { demoConfig with SecretKey := key } 50 demoNoneToken =
        ParseToken demo demoConfig 50 demoNoneToken) :=
  algorithm_substitution_rejected demo demoConfig (Reachable.new demoConfig demoConfig demoConfig_new)
    50 demoNoneToken (demoEncodeSegment (demoBytes "none")) (demoEncodeSegment demoJson) ""
    (demoBytes "none") { typ := some "JWT", alg := some "none" } "none" (by decide) rfl rfl rfl
    (by intro n hash h; cases h)

/-- C8, as stated, fails at the empty string: it is not three dot-separated parts, and
`ParseToken` returns `ErrEmptyToken` for it, in which `errors.Is` does not find
`ErrInvalidToken`. -/
theorem empty_string_not_invalid :
    (Split "" '.').length ≠ 3 ∧
      ParseToken demo demoConfig 50 "" = (none, some (.jwtError ErrEmptyToken)) ∧
      GoError.Is (.jwtError ErrEmptyToken) (.jwtError ErrInvalidToken) = false :=
  ⟨by decide, ParseToken_empty demo demoConfig 50, by decide⟩

/-- C8, amended -- wrong signature and malformed strings. In a reachable config `c₂`: (1) the
token that `GenerateTokenWithClaims` returns for any claims under the key of another config
`c₁`, the primitives being faithful there and the HS256 MAC under the key of `c₁` being
different from the one under the key of `c₂`, is rejected by `ParseToken` with an error that
wraps `ErrInvalidToken`; (2) every non-empty string that `strings.Split` does not cut into
three parts at its dots is rejected by `ParseToken` with an error that wraps
`ErrInvalidToken`. -/
theorem wrong_signature_or_malformed (P : Primitives) (c₂ : JWTConfig) (h₂ : Reachable P c₂)
    (now : Instant) :
    (∀ (c₁ : JWTConfig) (claims : Claims) (jsonValue : Bytes),
      Faithful P c₁.SecretKey claims jsonValue →
      hs256Mac P c₁.SecretKey jsonValue ≠ hs256Mac P c₂.SecretKey jsonValue →
      ∃ t ve, GenerateTokenWithClaims P c₁ claims = (t, none) ∧
        ParseToken P c₂ now t = (none, some (.invalid ErrInvalidToken ve)) ∧
        (GoError.invalid ErrInvalidToken ve).Is (.jwtError ErrInvalidToken) = true) ∧
    (∀ t : String, t ≠ "" → (Split t '.').length ≠ 3 →
      ∃ ve, ParseToken P c₂ now t = (none, some (.invalid ErrInvalidToken ve)) ∧
        (GoError.invalid ErrInvalidToken ve).Is (.jwtError ErrInvalidToken) = true) := by
  constructor
  · intro c₁ claims jsonValue hf hmac
    obtain ⟨hgen, hsigned⟩ := GenerateTokenWithClaims_signed P c₁ claims jsonValue hf
    obtain ⟨hd, hpu⟩ := ParseUnverified_signedToken P c₁.SecretKey claims jsonValue hf
    have hver := Verify_other_key P c₁.SecretKey c₂.SecretKey claims jsonValue hf hmac
    have hbl : signedToken P c₁.SecretKey jsonValue ∉ c₂.blacklistedTokens := by
      intro hmem
      obtain ⟨n, hash, w, tok, parts, hp, hm, -, hv⟩ := h₂.blacklist_signed _ hmem
      rw [hpu] at hp
      simp only [Except.ok.injEq, Prod.mk.injEq] at hp
      obtain ⟨rfl, rfl⟩ := hp
      simp only at hm
      rw [← hm, hver] at hv
      cases hv
    have hparse : ParseWithClaims P now (signedToken P c₁.SecretKey jsonValue) (keyFunc c₂) =
        .error { Inner := some .signatureInvalid, Errors := ValidationErrorSignatureInvalid,
                 text := "" } := by
      simp only [ParseWithClaims, hpu, keyFunc, SigningMethodHS256]
      simp only [SigningMethodHS256] at hver
      simp only [hver]
    exact ⟨_, _, hgen,
      ParseToken_of_rejected P c₂ now hsigned.ne_empty hbl hparse (by decide),
      by simp [GoError.Is, GoError.Unwrap]⟩
  · intro t ht hlen
    have hpu : ParseUnverified P t = .error
        (NewValidationError "token contains an invalid number of segments" ValidationErrorMalformed) := by
      unfold ParseUnverified
      split
      · rename_i heq
        rw [heq] at hlen
        exact absurd rfl hlen
      · rfl
    have hbl : t ∉ c₂.blacklistedTokens := by
      intro hmem
      obtain ⟨n, hash, w, tok, parts, hp, -⟩ := h₂.blacklist_signed _ hmem
      rw [hpu] at hp
      cases hp
    have hparse : ParseWithClaims P now t (keyFunc c₂) = .error
        (NewValidationError "token contains an invalid number of segments" ValidationErrorMalformed) := by
      simp only [ParseWithClaims, hpu]
    exact ⟨_, ParseToken_of_rejected P c₂ now ht hbl hparse (by decide),
      by simp [GoError.Is, GoError.Unwrap]⟩

theorem wrong_signature_or_malformed_witness :
    (∃ t ve, GenerateTokenWithClaims demo demoConfig demoClaims = (t, none) ∧
        ParseToken demo demoOtherKey 50 t = (none, some (.invalid ErrInvalidToken ve)) ∧
        (GoError.invalid ErrInvalidToken ve).Is (.jwtError ErrInvalidToken) = true) ∧
    (∃ ve, ParseToken demo demoOtherKey 50 "x.y" = (none, some (.invalid ErrInvalidToken ve)) ∧
        (GoError.invalid ErrInvalidToken ve).Is (.jwtError ErrInvalidToken) = true) :=
  ⟨(wrong_signature_or_malformed demo demoOtherKey
      (Reachable.new demoOtherKey demoOtherKey (by simp [NewJWTConfig, demoOtherKey, demoConfig])) 50).1
      demoConfig demoClaims demoJson demo_faithful (by decide),
   (wrong_signature_or_malformed demo demoOtherKey
      (Reachable.new demoOtherKey demoOtherKey (by simp [NewJWTConfig, demoOtherKey, demoConfig])) 50).2
      "x.y" (by decide) (by decide)⟩

/-- C9 -- empty-token rejection. `ParseToken("")` returns nil claims and `ErrEmptyToken`,
whose code is 4001, for every blacklist (one that holds the empty string included), every
clock value and whatever the primitives do. -/
theorem ParseToken_empty_token (P : Primitives) (c : JWTConfig) (now : Instant) :
    ParseToken P c now "" = (none, some (.jwtError ErrEmptyToken)) ∧ ErrEmptyToken.Code = 4001 :=
  ⟨ParseToken_empty P c now, rfl⟩

/-- C10 -- what the code does on a second revocation. When `ParseToken` accepts `t` and the
claims carry an `ExpiresAt`, the first `RevokeToken(t)` returns nil, and a second
`RevokeToken(t)` on the config it leaves, at any clock value, panics: `ParseToken` returns
nil claims with `ErrRevokedToken`, the error is let through, and `claims.ExpiresAt`
dereferences the nil claims. -/
theorem RevokeToken_twice (P : Primitives) (c : JWTConfig) (now : Instant) (t : String)
    (uc : UserClaims) (ts : TimeStamp) (hp : ParseToken P c now t = (some uc, none))
    (he : uc.toBaseClaims.ExpiresAt = some ts) :
    ∃ c', RevokeToken P c now t = .returned (none, c') ∧
      ∀ later, ParseToken P c' later t = (none, some (.jwtError ErrRevokedToken)) ∧
        RevokeToken P c' later t = .panicked := by
  refine ⟨_, RevokeToken_of_accepted P c now hp he, fun later => ?_⟩
  have ht : t ≠ "" := (signed_of_ParseToken P c now hp).1
  have hm : t ∈ (c.blacklistedTokens.insert t { Expiry := ts.Time }) :=
    (AList.mem_insert _).mpr (Or.inl rfl)
  exact ⟨ParseToken_blacklisted P _ later ht hm, RevokeToken_blacklisted P _ later ht hm⟩

theorem RevokeToken_twice_witness :
    ∃ c', RevokeToken demo demoConfig 50 demoToken = .returned (none, c') ∧
      ∀ later, ParseToken demo c' later demoToken =
          (none, some (.jwtError ErrRevokedToken)) ∧
        RevokeToken demo c' later demoToken = .panicked :=
  RevokeToken_twice demo demoConfig 50 demoToken
    demoClaims.wire.toUserClaims { Time := 100 } demo_accepted rfl

/-- C11 -- `RevokeToken` is atomic on failure. When `ParseToken(t)` fails with an error other
than `ErrRevokedToken` (whichever: empty, malformed, wrongly signed, wrong algorithm,
expired), `RevokeToken(t)` returns that same error, and the config it leaves, the blacklist
included, is the config it was called on. -/
theorem RevokeToken_atomic_on_failure (P : Primitives) (c : JWTConfig) (now : Instant)
    (t : String) (r : Option UserClaims) (e : GoError)
    (hp : ParseToken P c now t = (r, some e)) (hne : e ≠ .jwtError ErrRevokedToken) :
    RevokeToken P c now t = .returned (some e, c) ∧
      (Call.RevokeToken t).exec P now c = c := by
  have h := RevokeToken_of_error P c now hp hne
  exact ⟨h, by simp only [Call.exec, h]⟩

theorem RevokeToken_atomic_on_failure_witness :
    RevokeToken demo demoRevoked 101 demoToken = .returned (some claimsInvalidError, demoRevoked) ∧
      (Call.RevokeToken demoToken).exec demo 101 demoRevoked = demoRevoked :=
  RevokeToken_atomic_on_failure demo demoRevoked 101 demoToken none claimsInvalidError
    ((ParseToken_of_signed demo demoRevoked 101 demo_signed (by decide)).2 (by decide))
    (by decide)

/-- C12 -- where the code panics. `RevokeToken(t)` panics exactly when `t` is a non-empty key
of the blacklist (`ParseToken` returns nil claims with `ErrRevokedToken`, and `claims` is
dereferenced) or `ParseToken` accepts `t` with claims that carry no `ExpiresAt` (the nil
`ExpiresAt` is dereferenced); `RefreshToken` returns on every input. -/
theorem RevokeToken_panics_iff (P : Primitives) (c : JWTConfig) (now : Instant) (t : String) :
    (RevokeToken P c now t = .panicked ↔
      (t ≠ "" ∧ t ∈ c.blacklistedTokens) ∨
      ∃ uc, ParseToken P c now t = (some uc, none) ∧ uc.toBaseClaims.ExpiresAt = none) ∧
    (∀ fingerprint, ∃ r, RefreshToken P c now t fingerprint = .returned r) := by
  refine ⟨⟨fun h => ?_, fun h => ?_⟩, fun fp => RefreshToken_returned P c now t fp⟩
  · cases hp : ParseToken P c now t with
    | mk claims err =>
      cases err with
      | some e =>
        by_cases hrev : e = .jwtError ErrRevokedToken
        · left
          apply (ParseToken_revoked_iff P c now t).mp
          rw [hp, hrev]
        · rw [RevokeToken_of_error P c now hp hrev] at h
          cases h
      | none =>
        obtain ⟨uc, rfl⟩ := ParseToken_none_error P c now hp
        cases he : uc.toBaseClaims.ExpiresAt with
        | none => exact Or.inr ⟨uc, rfl, he⟩
        | some ts =>
          rw [RevokeToken_of_accepted P c now hp he] at h
          cases h
  · rcases h with ⟨ht, hm⟩ | ⟨uc, hp, he⟩
    · exact RevokeToken_blacklisted P c now ht hm
    · exact RevokeToken_no_expiry P c now hp he

theorem RevokeToken_panics_iff_witness :
    RevokeToken demo demoRevokedToken 60 demoToken = .panicked ∧
      RevokeToken demo demoConfig 50 demoPairToken = .panicked :=
  ⟨(RevokeToken_panics_iff demo demoRevokedToken 60 demoToken).1.mpr
      (Or.inl ⟨demo_signed.ne_empty, (AList.mem_insert _).mpr (Or.inl rfl)⟩),
   (RevokeToken_panics_iff demo demoConfig 50 demoPairToken).1.mpr
      (Or.inr ⟨pairClaims "ann", demo_pair_accepted 50, rfl⟩)⟩

/-- C13 -- what the code does when a token without expiry is revoked. In a reachable config,
for a token that is signed with HS256 under the config's key and whose claims carry no
`ExpiresAt`, `RevokeToken(t)` panics on the nil `ExpiresAt`, nothing is stored, and
`ParseToken(t)` accepts the token at every clock value. -/
theorem RevokeToken_never_expiring (P : Primitives) (c : JWTConfig) (hc : Reachable P c)
    (now : Instant) (t : String) (w : JWTUserClaims)
    (hs : SignedWith P SigningMethodHS256 c.SecretKey t w)
    (he : w.toBaseClaims.ExpiresAt = none) :
    RevokeToken P c now t = .panicked ∧ (Call.RevokeToken t).exec P now c = c ∧
      ∀ later, ParseToken P c later t = (some w.toUserClaims, none) := by
  have hbl : t ∉ c.blacklistedTokens := hc.no_expiry_not_blacklisted hs he
  have hacc : ∀ later, ParseToken P c later t = (some w.toUserClaims, none) := fun later =>
    (ParseToken_of_signed P c later hs hbl).1
      (by rw [JWTUserClaims.Valid_eq, he]; rfl)
  have hpanic := RevokeToken_no_expiry P c now (hacc now) he
  exact ⟨hpanic, by simp only [Call.exec, hpanic], hacc⟩

theorem RevokeToken_never_expiring_witness :
    RevokeToken demo demoConfig 50 demoPairToken = .panicked ∧
      (Call.RevokeToken demoPairToken).exec demo 50 demoConfig = demoConfig ∧
      ∀ later, ParseToken demo demoConfig later demoPairToken =
        (some (Claims.user (pairClaims "ann")).wire.toUserClaims, none) :=
  RevokeToken_never_expiring demo demoConfig (Reachable.new demoConfig demoConfig demoConfig_new)
    50 demoPairToken _ demo_pair_signed rfl

/-- C14 -- absent expiry means always valid. For claims whose `ExpiresAt` is nil,
`BaseClaims.Valid`, `UserClaims.Valid`, `AdminClaims.Valid` and `JWTUserClaims.Valid` return
nil at the clock value `now`, whatever it is; and `ParseToken` accepts at `now` every token
that carries them, is signed with HS256 under the config's key and is not a key of the
blacklist. -/
theorem absent_expiry_always_valid (now : Instant) (b : BaseClaims) (hb : b.ExpiresAt = none) :
    b.Valid now = none ∧
    (∀ userID, UserClaims.Valid now { toBaseClaims := b, UserID := userID } = none) ∧
    (∀ adminID isAdmin,
      AdminClaims.Valid now { toBaseClaims := b, AdminID := adminID, IsAdmin := isAdmin } = none) ∧
    (∀ userID tokenType fingerprint,
      JWTUserClaims.Valid now
        { toBaseClaims := b, UserID := userID, TokenType := tokenType, Fingerprint := fingerprint }
        = none) ∧
    (∀ (P : Primitives) (c : JWTConfig) (t : String) (w : JWTUserClaims),
      w.toBaseClaims = b → SignedWith P SigningMethodHS256 c.SecretKey t w →
      t ∉ c.blacklistedTokens → ParseToken P c now t = (some w.toUserClaims, none)) := by
  have h0 : b.Valid now = none := by simp [BaseClaims.Valid, hb]
  refine ⟨h0, fun _ => h0, fun _ _ => h0, fun _ _ _ => ?_, ?_⟩
  · rw [JWTUserClaims.Valid_eq]
    simp only [hb]
    rfl
  · intro P c t w hw hs hbl
    refine (ParseToken_of_signed P c now hs hbl).1 ?_
    rw [JWTUserClaims.Valid_eq, hw, hb]
    rfl

theorem absent_expiry_always_valid_witness :
    (pairClaims "ann").toBaseClaims.Valid 1000000 = none ∧
    (∀ userID,
      UserClaims.Valid 1000000 { toBaseClaims := (pairClaims "ann").toBaseClaims, UserID := userID }
        = none) ∧
    (∀ adminID isAdmin,
      AdminClaims.Valid 1000000
        { toBaseClaims := (pairClaims "ann").toBaseClaims, AdminID := adminID, IsAdmin := isAdmin }
        = none) ∧
    (∀ userID tokenType fingerprint,
      JWTUserClaims.Valid 1000000
        { toBaseClaims := (pairClaims "ann").toBaseClaims, UserID := userID,
          TokenType := tokenType, Fingerprint := fingerprint } = none) ∧
    (∀ (P : Primitives) (c : JWTConfig) (t : String) (w : JWTUserClaims),
      w.toBaseClaims = (pairClaims "ann").toBaseClaims →
      SignedWith P SigningMethodHS256 c.SecretKey t w →
      t ∉ c.blacklistedTokens → ParseToken P c 1000000 t = (some w.toUserClaims, none)) :=
  absent_expiry_always_valid 1000000 (pairClaims "ann").toBaseClaims rfl

/-- C15 -- construction validation. `NewJWTConfig(cfg)` returns nil if and only if `cfg` is nil
or one of `SecretKey == ""`, `Issuer == ""`, `AccessTokenLifetime <= 0`,
`RefreshTokenLifetime <= 0`, `BlacklistCleanupTick <= 0` holds; and when none holds the result
is the config with the five fields copied, HS256 as signing method and an empty blacklist. -/
theorem NewJWTConfig_nil_iff (cfg : Option JWTConfig) :
    (NewJWTConfig cfg = none ↔
      cfg = none ∨ ∃ c, cfg = some c ∧
        (c.SecretKey = "" ∨ c.Issuer = "" ∨ c.AccessTokenLifetime ≤ 0 ∨
          c.RefreshTokenLifetime ≤ 0 ∨ c.BlacklistCleanupTick ≤ 0)) ∧
    (∀ c, cfg = some c → c.SecretKey ≠ "" → c.Issuer ≠ "" → 0 < c.AccessTokenLifetime →
      0 < c.RefreshTokenLifetime → 0 < c.BlacklistCleanupTick →
      NewJWTConfig cfg = some
        { SecretKey := c.SecretKey, Expiration := 0, Issuer := c.Issuer,
          AccessTokenLifetime := c.AccessTokenLifetime,
          RefreshTokenLifetime := c.RefreshTokenLifetime,
          BlacklistCleanupTick := c.BlacklistCleanupTick,
          SigningMethod := some SigningMethodHS256, blacklistedTokens := ∅ }) := by
  constructor
  · cases cfg with
    | none => simp [NewJWTConfig]
    | some c =>
      simp only [NewJWTConfig, reduceCtorEq, false_or, Option.some.injEq, exists_eq_left']
      constructor
      · intro h
        by_contra hn
        rw [if_neg hn] at h
        cases h
      · intro h
        rw [if_pos h]
  · rintro c rfl h1 h2 h3 h4 h5
    have hn : ¬ (c.SecretKey = "" ∨ c.Issuer = "" ∨ c.AccessTokenLifetime ≤ 0 ∨
        c.RefreshTokenLifetime ≤ 0 ∨ c.BlacklistCleanupTick ≤ 0) := by
      rintro (h | h | h | h | h)
      · exact h1 h
      · exact h2 h
      · exact absurd h (not_le.mpr h3)
      · exact absurd h (not_le.mpr h4)
      · exact absurd h (not_le.mpr h5)
    simp only [NewJWTConfig, if_neg hn]

/-- C16 -- blacklist purge. One cycle of the sweep at `now` drops every entry whose `Expiry`
is before `now`, keeps every entry whose `Expiry` is at or after `now` with its value, adds no
key, and a second cycle at the same `now` changes nothing. -/
theorem cleanupCycle_purge (now : Instant) (c : JWTConfig) :
    (∀ k v, c.blacklistedTokens.lookup k = some v → v.Expiry < now →
      (cleanupCycle now c).blacklistedTokens.lookup k = none) ∧
    (∀ k v, c.blacklistedTokens.lookup k = some v → now ≤ v.Expiry →
      (cleanupCycle now c).blacklistedTokens.lookup k = some v) ∧
    (∀ k, c.blacklistedTokens.lookup k = none →
      (cleanupCycle now c).blacklistedTokens.lookup k = none) ∧
    cleanupCycle now (cleanupCycle now c) = cleanupCycle now c := by
  refine ⟨fun k v hl hlt => ?_, fun k v hl hle => ?_, fun k hl => ?_, cleanupCycle_idem now c⟩
  · rw [lookup_cleanupCycle, hl]
    simp [Instant.Before, hlt]
  · rw [lookup_cleanupCycle, hl]
    have : ¬ v.Expiry < now := not_lt.mpr hle
    simp [Instant.Before, this]
  · rw [lookup_cleanupCycle, hl]

/-- C17 -- `GenerateTokenPair` embeds only the username. The returned pair is the same for
every config with the same `SecretKey` and for all `userID`, `role` and `fingerprint`; and in
a reachable config, under faithful primitives, the call returns a pair with a nil error, and
`ParseToken` on the access token and on the refresh token returns, at every clock value,
claims with `Username = username`, `ID = ""`, `UserID = ""` and no `ExpiresAt`. -/
theorem GenerateTokenPair_only_username (P : Primitives) (c : JWTConfig)
    (userID username role fingerprint : String) :
    (∀ (c' : JWTConfig) (userID' role' fingerprint' : String), c'.SecretKey = c.SecretKey →
      GenerateTokenPair P c' userID' username role' fingerprint' =
        GenerateTokenPair P c userID username role fingerprint) ∧
    (∀ (now : Instant) (jsonValue : Bytes), Reachable P c →
      Faithful P c.SecretKey (.user (pairClaims username)) jsonValue →
      ∃ pair, GenerateTokenPair P c userID username role fingerprint = (some pair, none) ∧
        ParseToken P c now pair.AccessToken =
          (some { toBaseClaims := { ID := "", Username := username, ExpiresAt := none },
                  UserID := "" }, none) ∧
        ParseToken P c now pair.RefreshToken =
          (some { toBaseClaims := { ID := "", Username := username, ExpiresAt := none },
                  UserID := "" }, none)) := by
  constructor
  · intro c' userID' role' fingerprint' hk
    simp only [GenerateTokenPair, hk]
  · intro now jsonValue hc hf
    have hparse := ParseToken_pair_token P c hc now username jsonValue hf
    exact ⟨_, GenerateTokenPair_signed P c userID username role fingerprint jsonValue hf,
      hparse, hparse⟩

theorem GenerateTokenPair_only_username_witness :
    GenerateTokenPair demo demoOtherKey "8" "ann" "admin" "fp" =
        GenerateTokenPair demo demoOtherKey "7" "ann" "" "" ∧
    ∃ pair, GenerateTokenPair demo demoConfig "7" "ann" "" "" = (some pair, none) ∧
      ParseToken demo demoConfig 50 pair.AccessToken =
        (some { toBaseClaims := { ID := "", Username := "ann", ExpiresAt := none },
                UserID := "" }, none) ∧
      ParseToken demo demoConfig 50 pair.RefreshToken =
        (some { toBaseClaims := { ID := "", Username := "ann", ExpiresAt := none },
                UserID := "" }, none) :=
  ⟨(GenerateTokenPair_only_username demo demoOtherKey "7" "ann" "" "").1 demoOtherKey "8" "admin"
      "fp" rfl,
   (GenerateTokenPair_only_username demo demoConfig "7" "ann" "" "").2 50 demoPairJson
      (Reachable.new demoConfig demoConfig demoConfig_new) demo_pair_faithful⟩

/-- C18 -- what `RefreshToken` keeps of the subject. In a reachable config, for a refresh
token that `ParseToken` accepts with claims `uc`, and primitives faithful at the claims
`GenerateTokenPair` signs: `RefreshToken` returns a pair with a nil error, and `ParseToken` on
the new access token and on the new refresh token returns, at every clock value, the claims
with `Username = uc.Username`, `ID = ""`, `UserID = ""` and no `ExpiresAt`: the username is
kept, the `ID` is not. -/
theorem RefreshToken_drops_ID (P : Primitives) (c : JWTConfig) (hc : Reachable P c)
    (now : Instant) (r fingerprint : String) (uc : UserClaims)
    (hp : ParseToken P c now r = (some uc, none)) (jsonValue : Bytes)
    (hf : Faithful P c.SecretKey (.user (pairClaims uc.toBaseClaims.Username)) jsonValue) :
    ∃ pair, RefreshToken P c now r fingerprint = .returned (some pair, none) ∧
      ∀ later,
        ParseToken P c later pair.AccessToken =
          (some { toBaseClaims := { ID := "", Username := uc.toBaseClaims.Username,
                                    ExpiresAt := none }, UserID := "" }, none) ∧
        ParseToken P c later pair.RefreshToken =
          (some { toBaseClaims := { ID := "", Username := uc.toBaseClaims.Username,
                                    ExpiresAt := none }, UserID := "" }, none) := by
  refine ⟨{ AccessToken := signedToken P c.SecretKey jsonValue,
            RefreshToken := signedToken P c.SecretKey jsonValue }, ?_, fun later => ?_⟩
  · rw [RefreshToken_of_accepted P c now fingerprint hp,
      GenerateTokenPair_signed P c _ _ _ fingerprint jsonValue hf]
  · have hparse := ParseToken_pair_token P c hc later uc.toBaseClaims.Username jsonValue hf
    exact ⟨hparse, hparse⟩

theorem RefreshToken_drops_ID_witness :
    ParseToken demo demoConfig 50 demoToken =
      (some { toBaseClaims := { ID := "7", Username := "ann", ExpiresAt := some { Time := 100 } },
              UserID := "u7" }, none) ∧
    ∃ pair, RefreshToken demo demoConfig 50 demoToken "fp" = .returned (some pair, none) ∧
      ∀ later,
        ParseToken demo demoConfig later pair.AccessToken =
          (some { toBaseClaims := { ID := "", Username := "ann", ExpiresAt := none },
                  UserID := "" }, none) ∧
        ParseToken demo demoConfig later pair.RefreshToken =
          (some { toBaseClaims := { ID := "", Username := "ann", ExpiresAt := none },
                  UserID := "" }, none) :=
  ⟨demo_accepted,
   RefreshToken_drops_ID demo demoConfig (Reachable.new demoConfig demoConfig demoConfig_new) 50
     demoToken "fp" demoClaims.wire.toUserClaims demo_accepted demoPairJson demo_pair_faithful⟩

/-- C19 -- `RefreshToken` does not revoke the presented token. The config after the call is
the config before it, so `ParseToken` and `RefreshToken` give afterwards, at every clock
value, what they give on the config before the call; and when the call returned a pair,
`ParseToken` of the presented token still returns claims with a nil error and the repeated
call returns the same pair. -/
theorem RefreshToken_no_revocation (P : Primitives) (c : JWTConfig) (now : Instant)
    (r fingerprint : String) :
    (Call.RefreshToken r fingerprint).exec P now c = c ∧
    (∀ later t, ParseToken P ((Call.RefreshToken r fingerprint).exec P now c) later t =
        ParseToken P c later t) ∧
    (∀ later, RefreshToken P ((Call.RefreshToken r fingerprint).exec P now c) later r fingerprint =
        RefreshToken P c later r fingerprint) ∧
    (∀ pair, RefreshToken P c now r fingerprint = .returned (some pair, none) →
      (∃ uc, ParseToken P c now r = (some uc, none) ∧
        ParseToken P ((Call.RefreshToken r fingerprint).exec P now c) now r = (some uc, none)) ∧
      RefreshToken P ((Call.RefreshToken r fingerprint).exec P now c) now r fingerprint =
        .returned (some pair, none)) := by
  refine ⟨rfl, fun _ _ => rfl, fun _ => rfl, fun pair h => ⟨?_, h⟩⟩
  cases hp : ParseToken P c now r with
  | mk claims err =>
    cases err with
    | some e =>
      rw [RefreshToken_of_error P c now fingerprint hp] at h
      cases h
    | none =>
      obtain ⟨uc, rfl⟩ := ParseToken_none_error P c now hp
      exact ⟨uc, rfl, hp⟩

theorem RefreshToken_no_revocation_witness :
    ∃ pair, RefreshToken demo demoConfig 50 demoToken "fp" = .returned (some pair, none) ∧
      (∃ uc, ParseToken demo demoConfig 50 demoToken = (some uc, none) ∧
        ParseToken demo ((Call.RefreshToken demoToken "fp").exec demo 50 demoConfig) 50 demoToken
          = (some uc, none)) ∧
      RefreshToken demo ((Call.RefreshToken demoToken "fp").exec demo 50 demoConfig) 50 demoToken
        "fp" = .returned (some pair, none) :=
  ⟨{ AccessToken := demoPairToken, RefreshToken := demoPairToken },
   (RefreshToken_of_accepted demo demoConfig 50 "fp" demo_accepted).trans
     (congrArg Outcome.returned
       (GenerateTokenPair_signed demo demoConfig "7" "ann" "" "fp" demoPairJson demo_pair_faithful)),
   (RefreshToken_no_revocation demo demoConfig 50 demoToken "fp").2.2.2
     { AccessToken := demoPairToken, RefreshToken := demoPairToken }
     ((RefreshToken_of_accepted demo demoConfig 50 "fp" demo_accepted).trans
       (congrArg Outcome.returned
         (GenerateTokenPair_signed demo demoConfig "7" "ann" "" "fp" demoPairJson
           demo_pair_faithful)))⟩

/-- C20 -- `RefreshToken` fails exactly when `ParseToken` fails. When `ParseToken(r)` returns
an error, `RefreshToken(r, fingerprint)` returns a nil pair and that same error; when
`ParseToken(r)` accepts and the claims of the new pair marshal, `RefreshToken` returns a pair
with a nil error; and the result is the same for every fingerprint. -/
theorem RefreshToken_fails_as_ParseToken (P : Primitives) (c : JWTConfig) (now : Instant)
    (r fingerprint : String) :
    (∀ claims e, ParseToken P c now r = (claims, some e) →
      RefreshToken P c now r fingerprint = .returned (none, some e)) ∧
    (∀ uc jsonValue, ParseToken P c now r = (some uc, none) →
      P.marshalClaims (.user (pairClaims uc.toBaseClaims.Username)) = .ok jsonValue →
      ∃ pair, RefreshToken P c now r fingerprint = .returned (some pair, none)) ∧
    (∀ fingerprint', RefreshToken P c now r fingerprint' = RefreshToken P c now r fingerprint) := by
  refine ⟨fun claims e hp => RefreshToken_of_error P c now fingerprint hp,
    fun uc jsonValue hp hm => ?_, fun fingerprint' => ?_⟩
  · have hs := SignedString_of_marshal P (.user (pairClaims uc.toBaseClaims.Username)) c.SecretKey
      jsonValue hm
    have hs' : SignedString P SigningMethodHS256
        (.user { toBaseClaims := { ID := "", Username := uc.toBaseClaims.Username,
                                   ExpiresAt := none }, UserID := "" })
        c.SecretKey = .ok (signedToken P c.SecretKey jsonValue) := hs
    refine ⟨{ AccessToken := signedToken P c.SecretKey jsonValue,
              RefreshToken := signedToken P c.SecretKey jsonValue }, ?_⟩
    rw [RefreshToken_of_accepted P c now fingerprint hp]
    simp only [GenerateTokenPair, hs']
  · simp only [RefreshToken, GenerateTokenPair]

theorem RefreshToken_fails_as_ParseToken_witness :
    RefreshToken demo demoConfig 101 demoToken "fp" = .returned (none, some claimsInvalidError) ∧
    (∃ pair, RefreshToken demo demoConfig 50 demoToken "fp" = .returned (some pair, none)) ∧
    RefreshToken demo demoConfig 50 demoToken "other" = RefreshToken demo demoConfig 50 demoToken "fp" :=
  ⟨(RefreshToken_fails_as_ParseToken demo demoConfig 101 demoToken "fp").1 none claimsInvalidError
      ((ParseToken_of_signed demo demoConfig 101 demo_signed (AList.not_mem_empty _)).2 (by decide)),
   (RefreshToken_fails_as_ParseToken demo demoConfig 50 demoToken "fp").2.1
      demoClaims.wire.toUserClaims demoPairJson demo_accepted rfl,
   (RefreshToken_fails_as_ParseToken demo demoConfig 50 demoToken "fp").2.2 "other"⟩

/-- C21 -- the results of `ParseToken`. For every config and token string, `ParseToken`
returns claims with a nil error, or nil claims with an error that is `ErrEmptyToken`,
`ErrRevokedToken`, `ErrExpiredToken`, or an error in which `errors.Is` finds `ErrInvalidToken`
and whose message is the message of `ErrInvalidToken`, a colon, and the message of the
parser's error. -/
theorem ParseToken_results (P : Primitives) (c : JWTConfig) (now : Instant) (t : String) :
    (∃ uc, ParseToken P c now t = (some uc, none)) ∨
    (∃ e, ParseToken P c now t = (none, some e) ∧
      (e = .jwtError ErrEmptyToken ∨ e = .jwtError ErrRevokedToken ∨
        e = .jwtError ErrExpiredToken ∨
        (e.Is (.jwtError ErrInvalidToken) = true ∧
          ∃ ve, ParseWithClaims P now t (keyFunc c) = .error ve ∧
            e.Error = ErrInvalidToken.Message ++ ": " ++ ve.Error))) := by
  by_cases ht : t = ""
  · right
    subst ht
    exact ⟨_, ParseToken_empty P c now, Or.inl rfl⟩
  · cases hl : (c.blacklistedTokens.lookup t).isSome with
    | true =>
      right
      exact ⟨_, ParseToken_blacklisted P c now ht (AList.lookup_isSome.mp hl), Or.inr (Or.inl rfl)⟩
    | false =>
      cases hp : ParseWithClaims P now t (keyFunc c) with
      | error ve =>
        right
        cases hexp : ve.Is .jwtErrTokenExpired with
        | true =>
          exact ⟨.jwtError ErrExpiredToken, by simp [ParseToken, ht, hl, hp, hexp],
            Or.inr (Or.inr (Or.inl rfl))⟩
        | false =>
          exact ⟨.invalid ErrInvalidToken ve, by simp [ParseToken, ht, hl, hp, hexp],
            Or.inr (Or.inr (Or.inr ⟨by simp [GoError.Is, GoError.Unwrap], ve, rfl, rfl⟩))⟩
      | ok tok =>
        left
        obtain ⟨-, -, -, -, hval⟩ := signed_of_ParseWithClaims P c now hp
        exact ⟨tok.Claims.toUserClaims,
          by simp [ParseToken, ht, hl, hp, hval, JWTUserClaims.toUserClaims]⟩

/-- C22 -- `GenerateTokenWithClaims` signs with HS256 under the config's key. When
`SignedString` (of the token made with `SigningMethodHS256` and the claims, under the bytes of
`SecretKey`) returns an error, the result is the empty string and an error that wraps it
(`errors.Is` finds it); when it returns a string, the result is that string and a nil error;
that string is the signed token as soon as the claims marshal; and the result is the same
for every config with the same `SecretKey`, whatever its other fields. -/
theorem GenerateTokenWithClaims_signs (P : Primitives) (c : JWTConfig) (claims : Claims) :
    (∀ e, SignedString P SigningMethodHS256 claims c.SecretKey = .error e →
      GenerateTokenWithClaims P c claims = ("", some (.generate e)) ∧
      (GoError.generate e).Is (.lib e) = true) ∧
    (∀ s, SignedString P SigningMethodHS256 claims c.SecretKey = .ok s →
      GenerateTokenWithClaims P c claims = (s, none)) ∧
    (∀ jsonValue, P.marshalClaims claims = .ok jsonValue →
      GenerateTokenWithClaims P c claims = (signedToken P c.SecretKey jsonValue, none)) ∧
    (∀ c' : JWTConfig, c'.SecretKey = c.SecretKey →
      GenerateTokenWithClaims P c' claims = GenerateTokenWithClaims P c claims) := by
  refine ⟨fun e h => ⟨by simp only [GenerateTokenWithClaims, h],
      by simp [GoError.Is, GoError.Unwrap]⟩,
    fun s h => by simp only [GenerateTokenWithClaims, h],
    fun jsonValue hm => by
      simp only [GenerateTokenWithClaims, SignedString_of_marshal P claims c.SecretKey jsonValue hm],
    fun c' hk => by simp only [GenerateTokenWithClaims, hk]⟩

theorem GenerateTokenWithClaims_signs_witness :
    (GenerateTokenWithClaims demoFailing demoConfig demoClaims =
        ("", some (.generate "json: unsupported value")) ∧
      (GoError.generate "json: unsupported value").Is (.lib "json: unsupported value") = true) ∧
    GenerateTokenWithClaims demo demoConfig demoClaims = (demoToken, none) ∧
    GenerateTokenWithClaims demo
        { demoConfig with Issuer := "other", AccessTokenLifetime := 1, SigningMethod := none }
        demoClaims = GenerateTokenWithClaims demo demoConfig demoClaims :=
  ⟨(GenerateTokenWithClaims_signs demoFailing demoConfig demoClaims).1
      "json: unsupported value" rfl,
   (GenerateTokenWithClaims_signs demo demoConfig demoClaims).2.2.1 demoJson rfl,
   (GenerateTokenWithClaims_signs demo demoConfig demoClaims).2.2.2 _ rfl⟩

/-- C23 -- only revocation adds and only the sweep removes. `ParseToken`,
`GenerateTokenWithClaims` and `GenerateTokenPair` leave the config, the blacklist included, as
it was; `ParseToken` of a blacklisted token whose entry has expired leaves the entry in
place; a key that any call adds is the argument of that `RevokeToken` call; and a key that
any call removes is removed by a sweep cycle. -/
theorem only_revocation_adds_only_sweep_removes (P : Primitives) (c : JWTConfig) (now : Instant) :
    (∀ t, (Call.ParseToken t).exec P now c = c) ∧
    (∀ claims, (Call.GenerateTokenWithClaims claims).exec P now c = c) ∧
    (∀ userID username role fingerprint,
      (Call.GenerateTokenPair userID username role fingerprint).exec P now c = c) ∧
    (∀ t v, c.blacklistedTokens.lookup t = some v → v.Expiry < now →
      ((Call.ParseToken t).exec P now c).blacklistedTokens.lookup t = some v) ∧
    (∀ (call : Call) k, k ∉ c.blacklistedTokens → k ∈ (call.exec P now c).blacklistedTokens →
      call = .RevokeToken k) ∧
    (∀ (call : Call) k, k ∈ c.blacklistedTokens → k ∉ (call.exec P now c).blacklistedTokens →
      call = .cleanup) := by
  refine ⟨fun _ => rfl, fun _ => rfl, fun _ _ _ _ => rfl, fun t v h _ => h, ?_, ?_⟩
  · intro call k hout hin
    cases hl : (call.exec P now c).blacklistedTokens.lookup k with
    | none => exact absurd hin (AList.lookup_eq_none.mp hl)
    | some v =>
      rcases exec_lookup P c now call hl with h | ⟨h, -⟩
      · exact absurd (AList.lookup_isSome.mp (by rw [h]; rfl)) hout
      · exact h
  · intro call k hin hout
    exact exec_removed P c now call hin hout

/-- C24, as stated, fails for a token signed with HS384: `ParseToken` accepts it under the
config's key, `RevokeToken` stores it, and it is then a key of the blacklist of a reachable
config that does not carry an HS256 signature. -/
theorem blacklist_key_not_HS256 :
    Reachable demo ((Call.RevokeToken demoHS384Token).exec demo 50 demoConfig) ∧
    demoHS384Token ∈ ((Call.RevokeToken demoHS384Token).exec demo 50 demoConfig).blacklistedTokens ∧
    ∀ w, ¬ SignedWith demo SigningMethodHS256 "k" demoHS384Token w := by
  refine ⟨Reachable.call _ _ _ (Reachable.new demoConfig demoConfig demoConfig_new), ?_, ?_⟩
  · simp only [Call.exec, RevokeToken_of_accepted demo demoConfig 50 demo_HS384_accepted rfl]
    exact (AList.mem_insert _).mpr (Or.inl rfl)
  · intro w h
    have := (h.unique demo_HS384_signed).1
    exact absurd this (by decide)

/-- C24, amended -- the blacklist invariant. The blacklist of a `NewJWTConfig` result is
empty; an entry that is in the blacklist after a call was there before it, or the call is
`RevokeToken` of that key, which `ParseToken` accepted at that moment with claims whose
`ExpiresAt` is the stored `Expiry`; and in every reachable config every key of the blacklist
is a non-empty token string signed with an HMAC method (HS256, HS384 or HS512, as its header
names) under the config's key, whose claims carry an `ExpiresAt` equal to the stored
`Expiry`. -/
theorem blacklist_invariant (P : Primitives) :
    (∀ cfg c, NewJWTConfig (some cfg) = some c → c.blacklistedTokens = ∅) ∧
    (∀ (c : JWTConfig) (now : Instant) (call : Call) k v,
      (call.exec P now c).blacklistedTokens.lookup k = some v →
      c.blacklistedTokens.lookup k = some v ∨
      (call = .RevokeToken k ∧ ∃ uc, ParseToken P c now k = (some uc, none) ∧
        uc.toBaseClaims.ExpiresAt = some { Time := v.Expiry })) ∧
    (∀ c, Reachable P c → ∀ k v, c.blacklistedTokens.lookup k = some v →
      k ≠ "" ∧ ∃ n hash w, SignedWith P (.HMAC n hash) c.SecretKey k w ∧
        GetSigningMethod n = some (.HMAC n hash) ∧
        w.toBaseClaims.ExpiresAt = some { Time := v.Expiry }) := by
  refine ⟨fun cfg c h => NewJWTConfig_blacklist h,
    fun c now call k v h => exec_lookup P c now call h, ?_⟩
  intro c hc k v hl
  obtain ⟨n, hash, w, hs, he⟩ := hc.blacklist_expiry k v hl
  refine ⟨hs.ne_empty, n, hash, w, hs, ?_, he⟩
  obtain ⟨tok, parts, hp, hm, -⟩ := hs
  exact ParseUnverified_registered P hp hm

/-- C25 -- the access token and the refresh token of a pair are the same string. Whenever
`GenerateTokenPair` returns a pair, its error is nil and `AccessToken` equals `RefreshToken`:
both are `SignedString` of the same claims under the same key. -/
theorem GenerateTokenPair_same_token (P : Primitives) (c : JWTConfig)
    (userID username role fingerprint : String) (pair : TokenPair) (e : Option GoError)
    (h : GenerateTokenPair P c userID username role fingerprint = (some pair, e)) :
    pair.AccessToken = pair.RefreshToken ∧ e = none ∧
      SignedString P SigningMethodHS256 (.user (pairClaims username)) c.SecretKey
        = .ok pair.AccessToken := by
  have hc : (Claims.user (pairClaims username)) = Claims.user
      { toBaseClaims := { ID := "", Username := username, ExpiresAt := none }, UserID := "" } := rfl
  cases hs : SignedString P SigningMethodHS256 (.user (pairClaims username)) c.SecretKey with
  | error err =>
    rw [hc] at hs
    simp [GenerateTokenPair, hs] at h
  | ok s =>
    rw [hc] at hs
    simp only [GenerateTokenPair, hs, Prod.mk.injEq, Option.some.injEq] at h
    obtain ⟨rfl, rfl⟩ := h
    exact ⟨rfl, rfl, rfl⟩

theorem GenerateTokenPair_same_token_witness :
    GenerateTokenPair demo demoConfig "7" "ann" "user" "fp" =
        (some { AccessToken := demoPairToken, RefreshToken := demoPairToken }, none) ∧
      (TokenPair.mk demoPairToken demoPairToken).AccessToken =
        (TokenPair.mk demoPairToken demoPairToken).RefreshToken :=
  ⟨GenerateTokenPair_signed demo demoConfig "7" "ann" "user" "fp" demoPairJson demo_pair_faithful,
   (GenerateTokenPair_same_token demo demoConfig "7" "ann" "user" "fp"
      { AccessToken := demoPairToken, RefreshToken := demoPairToken } none
      (GenerateTokenPair_signed demo demoConfig "7" "ann" "user" "fp" demoPairJson
        demo_pair_faithful)).1⟩

/-- C26 -- the tokens of `GenerateTokenPair` never expire. Under primitives faithful at the
claims it signs, `GenerateTokenPair` returns a pair; in every config with the same key, at
every clock value, `ParseToken` accepts the access token and the refresh token as long as
they are not keys of the blacklist; `RefreshToken` of an accepted token with that username
returns this same pair; and `GenerateTokenPair` and `GenerateTokenWithClaims` return the same
for every value of `AccessTokenLifetime` and `RefreshTokenLifetime`. -/
theorem GenerateTokenPair_never_expires (P : Primitives) (c : JWTConfig)
    (userID username role fingerprint : String) (jsonValue : Bytes)
    (hf : Faithful P c.SecretKey (.user (pairClaims username)) jsonValue) :
    ∃ pair, GenerateTokenPair P c userID username role fingerprint = (some pair, none) ∧
      (∀ (c' : JWTConfig) (later : Instant), c'.SecretKey = c.SecretKey →
        (pair.AccessToken ∉ c'.blacklistedTokens →
          ParseToken P c' later pair.AccessToken = (some (pairClaims username), none)) ∧
        (pair.RefreshToken ∉ c'.blacklistedTokens →
          ParseToken P c' later pair.RefreshToken = (some (pairClaims username), none))) ∧
      (∀ (now : Instant) (r fp : String) (uc : UserClaims),
        ParseToken P c now r = (some uc, none) → uc.toBaseClaims.Username = username →
        RefreshToken P c now r fp = .returned (some pair, none)) ∧
      (∀ (a b : Duration),
        GenerateTokenPair P { c with AccessTokenLifetime := a, RefreshTokenLifetime := b }
          userID username role fingerprint =
          GenerateTokenPair P c userID username role fingerprint) ∧
      (∀ (a b : Duration) (claims : Claims),
        GenerateTokenWithClaims P { c with AccessTokenLifetime := a, RefreshTokenLifetime := b }
          claims = GenerateTokenWithClaims P c claims) := by
  have hs := (GenerateTokenWithClaims_signed P c _ jsonValue hf).2
  have hparse : ∀ (c' : JWTConfig) (later : Instant), c'.SecretKey = c.SecretKey →
      signedToken P c.SecretKey jsonValue ∉ c'.blacklistedTokens →
      ParseToken P c' later (signedToken P c.SecretKey jsonValue)
        = (some (pairClaims username), none) := by
    intro c' later hk hbl
    have hs' : SignedWith P SigningMethodHS256 c'.SecretKey (signedToken P c.SecretKey jsonValue)
        (Claims.user (pairClaims username)).wire := by
      rw [hk]
      exact hs
    exact (ParseToken_of_signed P c' later hs' hbl).1 rfl
  refine ⟨{ AccessToken := signedToken P c.SecretKey jsonValue,
            RefreshToken := signedToken P c.SecretKey jsonValue },
    GenerateTokenPair_signed P c userID username role fingerprint jsonValue hf,
    fun c' later hk => ⟨hparse c' later hk, hparse c' later hk⟩, ?_, fun _ _ => rfl,
    fun _ _ _ => rfl⟩
  intro now r fp uc hp hu
  rw [RefreshToken_of_accepted P c now fp hp, hu,
    GenerateTokenPair_signed P c _ username "" fp jsonValue hf]

theorem GenerateTokenPair_never_expires_witness :
    ∃ pair, GenerateTokenPair demo demoConfig "7" "ann" "user" "fp" = (some pair, none) ∧
      (∀ (c' : JWTConfig) (later : Instant), c'.SecretKey = demoConfig.SecretKey →
        (pair.AccessToken ∉ c'.blacklistedTokens →
          ParseToken demo c' later pair.AccessToken = (some (pairClaims "ann"), none)) ∧
        (pair.RefreshToken ∉ c'.blacklistedTokens →
          ParseToken demo c' later pair.RefreshToken = (some (pairClaims "ann"), none))) ∧
      (∀ (now : Instant) (r fp : String) (uc : UserClaims),
        ParseToken demo demoConfig now r = (some uc, none) → uc.toBaseClaims.Username = "ann" →
        RefreshToken demo demoConfig now r fp = .returned (some pair, none)) ∧
      (∀ (a b : Duration),
        GenerateTokenPair demo
          { demoConfig with AccessTokenLifetime := a, RefreshTokenLifetime := b }
          "7" "ann" "user" "fp" = GenerateTokenPair demo demoConfig "7" "ann" "user" "fp") ∧
      (∀ (a b : Duration) (claims : Claims),
        GenerateTokenWithClaims demo
          { demoConfig with AccessTokenLifetime := a, RefreshTokenLifetime := b } claims =
          GenerateTokenWithClaims demo demoConfig claims) :=
  GenerateTokenPair_never_expires demo demoConfig "7" "ann" "user" "fp" demoPairJson
    demo_pair_faithful

/-- C27 -- the `JWTAuth` middleware strips the `Bearer` prefix twice. As a function of the
`Authorization` header value: the handler passes `x` to `ParseToken` exactly when the header
is `Bearer Bearer ` followed by `x`, and its answer is then decided by `ParseToken(x)`; for a
header `Bearer ` followed by a `t` that does not start with `Bearer ` (so for every `t`
without a space) it answers 401 and aborts whatever `ParseToken` would return, with the
message of the wrong format, or of the missing header when `t` is empty; and for a header
that does not start with `Bearer ` (the empty one included) it answers 401 with the message
of the missing header. -/
theorem JWTAuth_strips_twice (header : String) :
    (∀ x, bearerArgument header = .ok x ↔ header = "Bearer Bearer " ++ x) ∧
    (∀ x, header = "Bearer Bearer " ++ x → ∀ parse, JWTAuth parse header =
      match parse x with
      | (_, some _) => .returned (.unauthorized "无效的Token")
      | (some claims, none) =>
        .returned (.next claims.toBaseClaims.ID claims.toBaseClaims.Username)
      | (none, none) => .panicked) ∧
    (∀ t, header = "Bearer " ++ t → (¬ ∃ x, t = "Bearer " ++ x) →
      ∀ parse, JWTAuth parse header =
        .returned (.unauthorized (if t = "" then "缺少认证头" else "无效的认证头格式"))) ∧
    (∀ t : String, ' ' ∉ t.data → ¬ ∃ x, t = "Bearer " ++ x) ∧
    ((¬ ∃ t, header = "Bearer " ++ t) →
      ∀ parse, JWTAuth parse header = .returned (.unauthorized "缺少认证头")) := by
  refine ⟨fun x => bearerArgument_ok_iff header x, ?_, ?_, ?_, ?_⟩
  · intro x hx parse
    have h := (bearerArgument_ok_iff header x).mpr hx
    simp only [JWTAuth, h]
  · rintro t rfl hno parse
    by_cases ht : t = ""
    · subst ht
      rw [if_pos rfl]
      exact JWTAuth_of_error parse (bearerArgument_missing _ (by decide))
    · rw [if_neg ht]
      exact JWTAuth_of_error parse (bearerArgument_format t ht hno)
  · rintro t hsp ⟨x, rfl⟩
    apply hsp
    simp [String.data_append]
  · intro hno parse
    apply JWTAuth_of_error parse
    apply bearerArgument_missing
    by_contra hne
    exact hno ⟨_, GetAuthorizationToken_ne_empty header hne⟩

theorem JWTAuth_strips_twice_witness :
    (∀ parse, JWTAuth parse "Bearer aaa.bbb.ccc" = .returned (.unauthorized "无效的认证头格式")) ∧
    (∀ parse, JWTAuth parse "Bearer Bearer aaa.bbb.ccc" =
      match parse "aaa.bbb.ccc" with
      | (_, some _) => .returned (.unauthorized "无效的Token")
      | (some claims, none) =>
        .returned (.next claims.toBaseClaims.ID claims.toBaseClaims.Username)
      | (none, none) => .panicked) ∧
    (∀ parse, JWTAuth parse "Basic dXNlcg==" = .returned (.unauthorized "缺少认证头")) :=
  ⟨(JWTAuth_strips_twice "Bearer aaa.bbb.ccc").2.2.1 "aaa.bbb.ccc" (by decide)
      ((JWTAuth_strips_twice "Bearer aaa.bbb.ccc").2.2.2.1 "aaa.bbb.ccc" (by decide)),
   (JWTAuth_strips_twice "Bearer Bearer aaa.bbb.ccc").2.1 "aaa.bbb.ccc" (by decide),
   (JWTAuth_strips_twice "Basic dXNlcg==").2.2.2.2 (by
      rintro ⟨t, h⟩
      have h7 : ("Bearer " ++ t).data.take 7 = "Bearer ".data := by simp [String.data_append]
      have := congrArg (fun s => s.data.take 7) h
      simp only at this
      rw [h7] at this
      exact absurd this (by decide))⟩

/-- C28 -- `ValidatePassword`. The tables of `unicode` being such that, on the runes of the
password, a lower-case rune is not upper-case, a numeric rune is neither, and a punctuation or
symbol rune is none of the three (as the general categories are): `ValidatePassword` returns
nil if and only if the byte length of the password is between 8 and 72 and it has an
upper-case rune, a lower-case rune, a numeric rune and a punctuation-or-symbol rune; in every
other case it returns the `AuthError` of `ErrCodeInvalidPassword`, whose code is 1003. -/
theorem ValidatePassword_nil_iff (U : Unicode) (password : String)
    (hdisj : ∀ r ∈ password.data,
      (U.IsLower r = true → U.IsUpper r = false) ∧
      (U.IsNumber r = true → U.IsUpper r = false ∧ U.IsLower r = false) ∧
      (U.IsPunct r = true ∨ U.IsSymbol r = true →
        U.IsUpper r = false ∧ U.IsLower r = false ∧ U.IsNumber r = false)) :
    (ValidatePassword U password = none ↔
      8 ≤ len password ∧ len password ≤ 72 ∧
      (∃ r ∈ password.data, U.IsUpper r = true) ∧
      (∃ r ∈ password.data, U.IsLower r = true) ∧
      (∃ r ∈ password.data, U.IsNumber r = true) ∧
      (∃ r ∈ password.data, U.IsPunct r = true ∨ U.IsSymbol r = true)) ∧
    (ValidatePassword U password = none ∨
      ValidatePassword U password = some (NewAuthError ErrCodeInvalidPassword)) ∧
    (NewAuthError ErrCodeInvalidPassword).Code = 1003 := by
  obtain ⟨h1, h2, h3, h4⟩ := foldl_passwordStep U password.data
    { hasUpper := false, hasLower := false, hasNumber := false, hasSpecial := false }
  simp only [Bool.false_or] at h1 h2 h3 h4
  have hU : (password.data.foldl (passwordStep U)
      { hasUpper := false, hasLower := false, hasNumber := false, hasSpecial := false }).hasUpper
      = true ↔ ∃ r ∈ password.data, U.IsUpper r = true := by
    rw [h1, List.any_eq_true]
  have hL : (password.data.foldl (passwordStep U)
      { hasUpper := false, hasLower := false, hasNumber := false, hasSpecial := false }).hasLower
      = true ↔ ∃ r ∈ password.data, U.IsLower r = true := by
    rw [h2, List.any_eq_true]
    constructor
    · rintro ⟨r, hr, h⟩
      simp only [Bool.and_eq_true, Bool.not_eq_true'] at h
      exact ⟨r, hr, h.2⟩
    · rintro ⟨r, hr, h⟩
      exact ⟨r, hr, by simp [h, (hdisj r hr).1 h]⟩
  have hN : (password.data.foldl (passwordStep U)
      { hasUpper := false, hasLower := false, hasNumber := false, hasSpecial := false }).hasNumber
      = true ↔ ∃ r ∈ password.data, U.IsNumber r = true := by
    rw [h3, List.any_eq_true]
    constructor
    · rintro ⟨r, hr, h⟩
      simp only [Bool.and_eq_true, Bool.not_eq_true'] at h
      exact ⟨r, hr, h.2⟩
    · rintro ⟨r, hr, h⟩
      have := (hdisj r hr).2.1 h
      exact ⟨r, hr, by simp [h, this.1, this.2]⟩
  have hS : (password.data.foldl (passwordStep U)
      { hasUpper := false, hasLower := false, hasNumber := false, hasSpecial := false }).hasSpecial
      = true ↔ ∃ r ∈ password.data, U.IsPunct r = true ∨ U.IsSymbol r = true := by
    rw [h4, List.any_eq_true]
    constructor
    · rintro ⟨r, hr, h⟩
      simp only [Bool.and_eq_true, Bool.not_eq_true', Bool.or_eq_true] at h
      exact ⟨r, hr, h.2⟩
    · rintro ⟨r, hr, h⟩
      have := (hdisj r hr).2.2 h
      refine ⟨r, hr, ?_⟩
      simp only [this.1, this.2.1, this.2.2, Bool.not_false, Bool.true_and, Bool.or_eq_true]
      exact h
  refine ⟨?_, ?_, rfl⟩
  · unfold ValidatePassword
    by_cases hlen : len password < 8 ∨ len password > 72
    · rw [if_pos hlen]
      simp only [reduceCtorEq, false_iff]
      rintro ⟨ha, hb, -⟩
      omega
    · rw [if_neg hlen]
      simp only
      rw [← hU, ← hL, ← hN, ← hS]
      have hl : 8 ≤ len password ∧ len password ≤ 72 := by omega
      cases (password.data.foldl (passwordStep U)
        { hasUpper := false, hasLower := false, hasNumber := false, hasSpecial := false }) with
      | mk a b c d => cases a <;> cases b <;> cases c <;> cases d <;> simp [hl]
  · unfold ValidatePassword
    split
    · exact Or.inr rfl
    · simp only
      split
      · exact Or.inr rfl
      · exact Or.inl rfl

theorem ValidatePassword_nil_iff_witness :
    ValidatePassword asciiUnicode "Abcdef1!" = none ∧
      ValidatePassword asciiUnicode "Abcdef12" = some (NewAuthError ErrCodeInvalidPassword) :=
  ⟨(ValidatePassword_nil_iff asciiUnicode "Abcdef1!" (by decide)).1.mpr (by decide),
   ((ValidatePassword_nil_iff asciiUnicode "Abcdef12" (by decide)).2.1).resolve_left (by decide)⟩

/-- C29 -- `ValidateUsername`. A string whose byte length is below 3 or above 50 gets the
`AuthError` of `ErrCodeInvalidUsername` (1001); otherwise a string with a rune that is
neither a letter nor a number gets the one of `ErrCodeUsernameValidationFailed` (1002);
otherwise the result is nil. So the result is nil exactly for the strings of 3 to 50 bytes
all of whose runes are letters or numbers. -/
theorem ValidateUsername_classifies (U : Unicode) (username : String) :
    ((len username < 3 ∨ len username > 50) →
      ValidateUsername U username = some (NewAuthError ErrCodeInvalidUsername)) ∧
    (3 ≤ len username → len username ≤ 50 →
      (∃ r ∈ username.data, U.IsLetter r = false ∧ U.IsNumber r = false) →
      ValidateUsername U username = some (NewAuthError ErrCodeUsernameValidationFailed)) ∧
    (3 ≤ len username → len username ≤ 50 →
      (∀ r ∈ username.data, U.IsLetter r = true ∨ U.IsNumber r = true) →
      ValidateUsername U username = none) ∧
    (ValidateUsername U username = none ↔
      3 ≤ len username ∧ len username ≤ 50 ∧
      ∀ r ∈ username.data, U.IsLetter r = true ∨ U.IsNumber r = true) ∧
    (NewAuthError ErrCodeInvalidUsername).Code = 1001 ∧
    (NewAuthError ErrCodeUsernameValidationFailed).Code = 1002 := by
  have hin : 3 ≤ len username → len username ≤ 50 →
      ValidateUsername U username = usernameLoop U username.data := by
    intro h1 h2
    unfold ValidateUsername
    rw [if_neg (by omega)]
  refine ⟨fun h => by unfold ValidateUsername; rw [if_pos h], ?_, ?_, ?_, rfl, rfl⟩
  · rintro h1 h2 ⟨r, hr, hl, hn⟩
    rw [hin h1 h2]
    cases hloop : usernameLoop U username.data with
    | none =>
      have := (usernameLoop_none_iff U _).mp hloop r hr
      rw [hl, hn] at this
      simp at this
    | some e => rw [usernameLoop_some U _ e hloop]
  · intro h1 h2 hall
    rw [hin h1 h2]
    exact (usernameLoop_none_iff U _).mpr hall
  · constructor
    · intro h
      by_cases hlen : len username < 3 ∨ len username > 50
      · unfold ValidateUsername at h
        rw [if_pos hlen] at h
        cases h
      · have h1 : 3 ≤ len username := by omega
        have h2 : len username ≤ 50 := by omega
        rw [hin h1 h2] at h
        exact ⟨h1, h2, (usernameLoop_none_iff U _).mp h⟩
    · rintro ⟨h1, h2, hall⟩
      rw [hin h1 h2]
      exact (usernameLoop_none_iff U _).mpr hall

/-- C30 -- the invariant of the circuit breaker fails when the failure counter, an `int32`,
wraps around. With `MaxFailures = 1` and a reset timeout of one nanosecond, a new breaker is
open after 2^31 - 1 failing commands run two nanoseconds apart, each but the first run in the
half-open state; the next failing command, also run in the half-open state, takes the counter
from 2^31 - 1 to -2^31 and does not reopen the breaker: `State()` is `StateHalfOpen` while the
counter is below `MaxFailures`. With `HalfOpenMaxCalls = 1` every later `Execute` leaves the
breaker as it is and returns the error of too many calls in the half-open state. -/
theorem breaker_counter_wraps :
    1 ≤ demoOptions.MaxFailures ∧
    (runBreaker (NewCircuitBreaker (some demoOptions)) (failingSeries 2147483647)).State
      = .StateOpen ∧
    (runBreaker (NewCircuitBreaker (some demoOptions)) (failingSeries 2147483647)).failures
      = 2147483647 ∧
    (runBreaker (NewCircuitBreaker (some demoOptions)) (failingSeries 2147483648)).State
      = .StateHalfOpen ∧
    (runBreaker (NewCircuitBreaker (some demoOptions)) (failingSeries 2147483648)).failures
      = -2147483648 ∧
    (runBreaker (NewCircuitBreaker (some demoOptions)) (failingSeries 2147483648)).failures
      < demoOptions.MaxFailures ∧
    (∀ (now : Instant) (ctx result : Option String),
      Execute (runBreaker (NewCircuitBreaker (some demoOptions)) (failingSeries 2147483648))
          now ctx result =
        (runBreaker (NewCircuitBreaker (some demoOptions)) (failingSeries 2147483648),
          some (.tooManyCalls 1))) ∧
    ∀ durationString, (ExecuteError.tooManyCalls 1).Error durationString =
      "too many calls in half-open state (max: 1)" := by
  have h1 := runBreaker_failingSeries 2147483646 (by norm_num)
  have h2 := runBreaker_failingSeries_wrap
  have e1 : failingSeries (2147483646 + 1) = failingSeries 2147483647 := rfl
  have e2 : failingSeries (2147483647 + 1) = failingSeries 2147483648 := rfl
  rw [e1] at h1
  rw [e2] at h2
  rw [h1, h2]
  refine ⟨by decide, rfl, by norm_num, rfl, rfl, by decide, ?_, fun _ => rfl⟩
  intro now ctx result
  simp [Execute, demoOptions, int32]

end GinCenter
